import Mathlib

/-!
# libpkg/pkgdb.c : the package database query engine

A shallow embedding of `src/libpkg/pkgdb.c`.

* A byte string (`const char *`, a key, a stored value) is the list of its bytes
  before the terminating NUL.
* The constant database (`struct cdb`, an external library) is the list of its
  records in file order together with the value the handle is positioned on
  (`cdb_datapos` / `cdb_datalen`).  The file is well formed, so a lookup answers
  1 (found) or 0 (not found), never a negative error code.
* A NULL-terminated array of `struct pkg *` is a list of slots, a slot being
  `none` (NULL) or `some p`.  Writes are bounds checked.
* Allocation always succeeds.  The slot count `count + 1` computed from a count the
  store supplies is a `size_t` and wraps at SIZE_MAX (`slots`); the number of values
  enumerated under one key stays below SIZE_MAX, every record taking at least eight
  bytes of the mapped file, so the `count + 1` of `pkgdb_deps_query` does not wrap.
* Sessions and records handed to the functions are valid objects: the NULL guards
  of lines 76, 104 and 135 do not fire.
* Where the code stores a record is followed apart from what it stores (section
  `Allocation and release`): blocks are numbered in allocation order, and `free` is
  defined on a live block only.
* A function returns `none` when the C program has no defined result there
  (a NULL or indeterminate value is dereferenced, a write leaves its array) or
  when the process is terminated by `err`/`errx`.
-/

namespace PkgDb

/-- A byte string: the bytes of a C string before its terminator, a key, or a
stored value. -/
abbrev Bytes := List Nat

/-- The bytes of an ASCII text. -/
def str (s : String) : Bytes := s.toList.map Char.toNat

/-- Byte-wise comparison `strcmp(a, b)`: negative, zero or positive. -/
def strcmp : Bytes → Bytes → Int
  | [], [] => 0
  | [], _ :: _ => -1
  | _ :: _, [] => 1
  | a :: as, b :: bs => if a = b then strcmp as bs else if a < b then -1 else 1

/-- A pointer-valued field: never written or already released (`junk`), NULL, or
pointing to an object. -/
inductive Ptr (α : Type) where
  | junk : Ptr α
  | null : Ptr α
  | to (a : α) : Ptr α

/-- Modelled from the spec: `struct pkg` is declared in pkgdb.h, which is not under src/.
The fields are those pkgdb.c reads and writes, typed as the spec's Package: the identity,
five optional text fields, the two nullable lists, the index and the error flags.
`errors = none` stands for a flag byte that was never written. -/
structure pkg where
  name_version : Bytes
  name : Option Bytes
  version : Option Bytes
  origin : Option Bytes
  comment : Option Bytes
  desc : Option Bytes
  deps : Ptr (List (Option pkg))
  rdeps : Ptr (List (Option pkg))
  idx : Nat
  errors : Option Nat

/-- The handle `struct cdb`: the records of the file, in file order, and the value
at the current data position. -/
structure cdb where
  recs : List (Bytes × Bytes)
  vcur : Bytes

/-- Modelled from the spec: `struct pkgdb` is declared in pkgdb.h, which is not under src/.
The fields are those pkgdb.c reads and writes, as the spec's Database Session: the selected
set, its count, the store handle, the lock descriptor and the requested flags. -/
structure pkgdb where
  pkgs : Ptr (List (Option pkg))
  count : Nat
  db : cdb
  lock_fd : Int
  flags : Nat

/-- Modelled from the spec: `match_t` is declared in pkgdb.h, which is not under src/; the
spec gives the closed enumeration of the five modes `pkg_match` switches on. -/
inductive match_t where
  | MATCH_ALL
  | MATCH_EXACT
  | MATCH_GLOB
  | MATCH_REGEX
  | MATCH_EREGEX
  deriving DecidableEq

/-- What pkgdb.c takes from outside: platform constants, the macros of pkgdb.h and
pkgdb_cache.h (a key format is the function from the index to the formatted
text), libc matching functions, the cache-refresh collaborator, and what the
operating system answers when the cache file and the lock file are opened. -/
structure Env where
  /-- The size of the key buffer. -/
  BUFSIZ : Nat
  /-- The largest value of a `size_t`. -/
  SIZE_MAX : Nat
  /-- The `sizeof(size_t)` bytes of an index, used as a key. -/
  idx_key : Nat → Bytes
  /-- The `size_t` that `cdb_read` copies from the data position of a value. -/
  size_read : Bytes → Nat
  PKGDB_COUNT : Bytes
  PKGDB_NAME : Nat → Bytes
  PKGDB_VERSION : Nat → Bytes
  PKGDB_COMMENT : Nat → Bytes
  PKGDB_DESC : Nat → Bytes
  PKGDB_ORIGIN : Nat → Bytes
  PKGDB_DEPS : Nat → Bytes
  PKGDB_INIT_DEPS : Nat
  PKGDB_INIT_RDEPS : Nat
  PKGERR_NOT_INSTALLED : Nat
  /-- The call `fnmatch(pattern, string, 0)`. -/
  fnmatch : Bytes → Bytes → Int
  /-- The call `regcomp(&re, pattern, flags)`: the compiled matcher
  `regexec(&re, ·, 0, NULL, 0)`, or `none` when compilation fails; the flag tells
  REG_EXTENDED from REG_BASIC. -/
  regcomp : Bytes → Bool → Option (Bytes → Int)
  /-- The call `pkgdb_cache_update(db)`: the session as the cache refresh leaves it. -/
  pkgdb_cache_update : pkgdb → pkgdb
  /-- The records found when `open` and `cdb_init` succeed on the cache file. -/
  cache : Option (List (Bytes × Bytes))
  /-- The descriptor of the lock file when `open` and `flock` succeed. -/
  lock : Option Int

/-! ## The store handle -/

/-- All values stored under `key`, in file order. -/
def values (recs : List (Bytes × Bytes)) (key : Bytes) : List Bytes :=
  (recs.filter (fun r => r.1 = key)).map Prod.snd

/-- The lookup `cdb_find(cdb, key, klen)`: 1 and the handle positioned on the first
value under the key, or 0 and the handle unchanged. -/
def cdb_find (c : cdb) (key : Bytes) : Int × cdb :=
  match values c.recs key with
  | [] => (0, c)
  | v :: _ => (1, { c with vcur := v })

/-- Modelled from the spec: the macro `db_get(val, cdb)` of pkgdb_cache.h is not under
src/.  It is handed the handle and nothing else, after a lookup that positioned it: it
yields the value at the current data position, the one line 258 reads the count from. -/
def db_get (c : cdb) : Bytes := c.vcur

/-- The enumeration `cdb_findinit(&cdbf, cdb, key, klen)`: its state is the list of
values not yet returned. -/
def cdb_findinit (c : cdb) (key : Bytes) : List Bytes := values c.recs key

/-- The step `cdb_findnext(&cdbf)`: 1 and the handle positioned on the next value, or 0. -/
def cdb_findnext (cdbf : List Bytes) (c : cdb) : Int × List Bytes × cdb :=
  match cdbf with
  | [] => (0, [], c)
  | v :: rest => (1, rest, { c with vcur := v })

/-- The open `pkgdb_open(db)`: 0 with the handle initialised, or -1. -/
def pkgdb_open (E : Env) (db : pkgdb) : Int × pkgdb :=
  match E.cache with
  | some recs => (0, { db with db := { recs := recs, vcur := [] } })
  | none => (-1, db)

/-! ## Arrays of record pointers -/

/-- The allocation `calloc(n, sizeof(struct pkg *))`: n NULL slots. -/
def calloc (n : Nat) : List (Option pkg) := List.replicate n none

/-- The `size_t` value `count + 1` that sizes an array for `count` records and the
terminator. -/
def slots (E : Env) (count : Nat) : Nat := (count + 1) % (E.SIZE_MAX + 1)

/-- The write `a[j] = x`, defined inside the array only. -/
def store (a : List (Option pkg)) (j : Nat) (x : Option pkg) : Option (List (Option pkg)) :=
  if j < a.length then some (a.set j x) else none

/-- The resizing `realloc(a, n * sizeof(struct pkg *))`: the first n slots.  Slots gained
are indeterminate; both callers gain at most the one slot they write next, and the model
shows it as NULL until then. -/
def realloc (a : List (Option pkg)) (n : Nat) : Option (List (Option pkg)) :=
  if n ≤ a.length then some (a.take n) else some (a ++ List.replicate (n - a.length) none)

/-- The records of a NULL-terminated array: those before the first NULL slot. -/
def entries : List (Option pkg) → List pkg
  | some p :: rest => p :: entries rest
  | _ => []

/-! ## Queries -/

/-- The lookup `pkgdb_query(db, fmt, ...)`; `fmt` is the text the format expands to.
`vsnprintf` returns its full length and leaves at most BUFSIZ - 1 bytes of it in `key`. -/
def pkgdb_query (E : Env) (db : pkgdb) (fmt : Bytes) : Option Bytes × pkgdb :=
  let len := fmt.length
  let key := fmt.take (E.BUFSIZ - 1)
  if len ≠ key.length then (none, db)
  else
    let f := cdb_find db.db key
    if f.1 < 0 then (none, { db with db := f.2 })
    else (some (db_get f.2), { db with db := f.2 })

/-- The loader `pkgdb_pkg_query(db, idx)`. -/
def pkgdb_pkg_query (E : Env) (db : pkgdb) (idx : Nat) : Option pkg × pkgdb :=
  let f := cdb_find db.db (E.idx_key idx)
  if f.1 ≤ 0 then (none, { db with db := f.2 })
  else
    let db0 : pkgdb := { db with db := f.2 }
    let q1 := pkgdb_query E db0 (E.PKGDB_NAME idx)
    let q2 := pkgdb_query E q1.2 (E.PKGDB_VERSION idx)
    let q3 := pkgdb_query E q2.2 (E.PKGDB_COMMENT idx)
    let q4 := pkgdb_query E q3.2 (E.PKGDB_DESC idx)
    let q5 := pkgdb_query E q4.2 (E.PKGDB_ORIGIN idx)
    (some { name_version := db_get f.2, name := q1.1, version := q2.1, comment := q3.1,
            desc := q4.1, origin := q5.1, deps := Ptr.junk, rdeps := Ptr.junk, idx := idx,
            errors := none }, q5.2)

/-- The key `snprintf(key, BUFSIZ, PKGDB_DEPS, pkg->idx)` as left in the buffer. -/
def deps_key (E : Env) (idx : Nat) : Bytes := (E.PKGDB_DEPS idx).take (E.BUFSIZ - 1)

/-- The first pass of `pkgdb_deps_query`: `while (cdb_findnext(&cdbf) > 0) count++;`,
by cases on the values not yet returned (`cdb_findnext` answers 0 when none is left). -/
def deps_count : List Bytes → cdb → Nat → Nat × cdb
  | [], c, count => (count, (cdb_findnext [] c).2.2)
  | v :: rest, c, count => deps_count rest (cdb_findnext (v :: rest) c).2.2 (count + 1)

/-- The record `calloc(1, sizeof(*dep))` with `db_get(dep->name_version, ...)`. -/
def dep_leaf (c : cdb) : pkg :=
  { name_version := db_get c, name := none, version := none, origin := none, comment := none,
    desc := none, deps := Ptr.null, rdeps := Ptr.null, idx := 0, errors := some 0 }

/-- The second pass of `pkgdb_deps_query`: one leaf per value, stored at `deps[j++]`. -/
def deps_fill : List Bytes → cdb → List (Option pkg) → Nat → Option (List (Option pkg) × cdb)
  | [], c, a, _ => some (a, (cdb_findnext [] c).2.2)
  | v :: rest, c, a, j =>
    let c1 : cdb := (cdb_findnext (v :: rest) c).2.2
    match store a j (some (dep_leaf c1)) with
    | none => none
    | some a1 => deps_fill rest c1 a1 (j + 1)

/-- The forward dependencies `pkgdb_deps_query(db, pkg)`. -/
def pkgdb_deps_query (E : Env) (db : pkgdb) (p : pkg) : Option (pkg × pkgdb) :=
  let key := deps_key E p.idx
  let n := deps_count (cdb_findinit db.db key) db.db 0
  match store (calloc (n.1 + 1)) n.1 none with
  | none => none
  | some a =>
    match deps_fill (cdb_findinit n.2 key) n.2 a 0 with
    | none => none
    | some r => some ({ p with deps := Ptr.to r.1 }, { db with db := r.2 })

/-- The scan of lines 147-153 over a candidate's dependency array: `some true` when the
candidate is stored at `rdeps[j]` (an entry not flagged not-installed names the target),
`some false` when the NULL terminator is met first. -/
def rdeps_scan (E : Env) (target : Bytes) : List (Option pkg) → Option Bool
  | [] => none
  | none :: _ => some false
  | some d :: rest =>
    match d.errors with
    | none => none
    | some e =>
      if e &&& E.PKGERR_NOT_INSTALLED = 0 ∧ strcmp d.name_version target = 0 then some true
      else rdeps_scan E target rest

/-- The test `pkg->rdeps[j] == p`, where `p` is the record allocated for the current
candidate: a slot holds NULL or a record stored for some candidate, and each candidate
index is loaded once per scan, so the pointers agree exactly when the indices do. -/
def same_record (slot : Option pkg) (p : pkg) : Bool :=
  match slot with
  | some q => q.idx = p.idx
  | none => false

/-- The loop of `pkgdb_rdeps_query` over the candidates `i, i+1, ...` (n iterations).
The dependency array of a candidate is released after the scan, so the retained
record keeps a dangling `deps`. -/
def rdeps_loop (E : Env) (target : Bytes) :
    Nat → Nat → pkgdb → List (Option pkg) → Nat → Option (List (Option pkg) × Nat × pkgdb)
  | 0, _, db, a, j => some (a, j, db)
  | n + 1, i, db, a, j =>
    let q := pkgdb_pkg_query E db i
    match q.1 with
    | none => rdeps_loop E target n (i + 1) q.2 a j
    | some p0 =>
      match pkgdb_deps_query E q.2 p0 with
      | none => none
      | some (p, db1) =>
        match p.deps with
        | Ptr.to d =>
          match rdeps_scan E target d with
          | none => none
          | some hit =>
            match (if hit then store a j (some p) else some a) with
            | none => none
            | some a1 =>
              match a1.get? j with
              | none => none
              | some slot =>
                if same_record slot p then
                  rdeps_loop E target n (i + 1) db1 (a1.set j (some { p with deps := Ptr.junk })) (j + 1)
                else rdeps_loop E target n (i + 1) db1 a1 j
        | _ => none

/-- The reverse dependencies `pkgdb_rdeps_query(db, pkg, count)`. -/
def pkgdb_rdeps_query (E : Env) (db : pkgdb) (p : pkg) (count : Nat) : Option (pkg × pkgdb) :=
  match rdeps_loop E p.name_version count 0 db (calloc (slots E count)) 0 with
  | none => none
  | some (a, j, db1) =>
    match realloc a (j + 1) with
    | none => none
    | some a1 =>
      match store a1 j none with
      | none => none
      | some a2 => some ({ p with rdeps := Ptr.to a2 }, db1)

/-- The comparison `pkg_cmp(a, b)` on two slots of the array. -/
def pkg_cmp (a b : Option pkg) : Option Int :=
  match a, b with
  | some pa, some pb =>
    match pa.name, pb.name with
    | some x, some y => some (strcmp x y)
    | _, _ => none
  | _, _ => none

/-- The selector `pkg_match(pkg, re, pattern, match)`: 0 when the record is selected. -/
def pkg_match (E : Env) (p : pkg) (re : Option (Bytes → Int)) (pattern : Option Bytes)
    (m : match_t) : Option Int :=
  match m with
  | match_t.MATCH_ALL => some 0
  | match_t.MATCH_EXACT =>
    match pattern with
    | some s => some (strcmp p.name_version s)
    | none => none
  | match_t.MATCH_GLOB =>
    match pattern with
    | some s => some (E.fnmatch s p.name_version)
    | none => none
  | match_t.MATCH_REGEX =>
    match re with
    | some r => some (r p.name_version)
    | none => none
  | match_t.MATCH_EREGEX =>
    match re with
    | some r => some (r p.name_version)
    | none => none

/-! ## Locking -/

/-- The lock `pkgdb_lock(db, writer)`; `none` when `err`/`errx` ends the process. -/
def pkgdb_lock (E : Env) (db : pkgdb) (_writer : Int) : Option pkgdb :=
  match E.lock with
  | some fd => if fd < 0 then none else some { db with lock_fd := fd }
  | none => none

/-- The unlock `pkgdb_unlock(db)`. -/
def pkgdb_unlock (db : pkgdb) : pkgdb := { db with lock_fd := -1 }

/-! ## Sorting -/

/-- Insertion of a slot into a sorted run, comparing with `cmp`. -/
def qsort_insert (cmp : Option pkg → Option pkg → Option Int) (x : Option pkg) :
    List (Option pkg) → Option (List (Option pkg))
  | [] => some [x]
  | y :: ys =>
    match cmp x y with
    | none => none
    | some c =>
      if c ≤ 0 then some (x :: y :: ys)
      else
        match qsort_insert cmp x ys with
        | none => none
        | some r => some (y :: r)

/-- The library sort `qsort(base, nmemb, size, cmp)` over the slots `base[0..nmemb)`,
as a comparison sort that calls `cmp` on pairs of slots (none for fewer than two). -/
def qsort (cmp : Option pkg → Option pkg → Option Int) :
    List (Option pkg) → Option (List (Option pkg))
  | [] => some []
  | x :: xs =>
    match qsort cmp xs with
    | none => none
    | some r => qsort_insert cmp x r

/-! ## The load algorithm -/

/-- The body of the selection loop of `pkgdb_init` (lines 275-287) for the index `i`;
`count` is the number read from the store. -/
def init_step (E : Env) (re : Option (Bytes → Int)) (pattern : Option Bytes) (m : match_t)
    (count : Nat) (i : Nat) (db : pkgdb) : Option pkgdb :=
  let q := pkgdb_pkg_query E db i
  match q.1 with
  | none => some q.2
  | some p =>
    match pkg_match E p re pattern m with
    | none => none
    | some r =>
      if r = 0 then
        match (if q.2.flags &&& E.PKGDB_INIT_DEPS ≠ 0 then pkgdb_deps_query E q.2 p
               else some (p, q.2)) with
        | none => none
        | some (p1, db1) =>
          match (if db1.flags &&& E.PKGDB_INIT_RDEPS ≠ 0 then pkgdb_rdeps_query E db1 p1 count
                 else some (p1, db1)) with
          | none => none
          | some (p2, db2) =>
            match db2.pkgs with
            | Ptr.to a =>
              match store a db2.count (some p2) with
              | none => none
              | some a1 => some { db2 with pkgs := Ptr.to a1, count := db2.count + 1 }
            | _ => none
      else some q.2

/-- The selection loop of `pkgdb_init` (lines 274-288) over the indices `i, i+1, ...`
(n iterations). -/
def init_loop (E : Env) (re : Option (Bytes → Int)) (pattern : Option Bytes) (m : match_t)
    (count : Nat) : Nat → Nat → pkgdb → Option pkgdb
  | 0, _, db => some db
  | n + 1, i, db =>
    match init_step E re pattern m count i db with
    | none => none
    | some db1 => init_loop E re pattern m count n (i + 1) db1

/-- The tail of `pkgdb_init` (lines 293-299): shrink, terminate, sort, unlock
(`regfree` of lines 290-291 has no effect on the session). -/
def init_finish (db : pkgdb) : Option pkgdb :=
  match db.pkgs with
  | Ptr.to a =>
    match realloc a (db.count + 1) with
    | none => none
    | some a1 =>
      match store a1 db.count none with
      | none => none
      | some a2 =>
        match qsort pkg_cmp (a2.take db.count) with
        | none => none
        | some s => some (pkgdb_unlock { db with pkgs := Ptr.to (s ++ a2.drop db.count) })
  | _ => none

/-- The regex initialisation of `pkgdb_init` (lines 262-272): `none` when `regcomp`
fails, else the compiled expression (absent for the other modes).  A regular-expression
mode without a pattern does not reach it: `pkgdb_init` has returned at line 250. -/
def init_regex (E : Env) (pattern : Option Bytes) (m : match_t) :
    Option (Option (Bytes → Int)) :=
  match m with
  | match_t.MATCH_REGEX =>
    match pattern with
    | some s => (E.regcomp s false).map some
    | none => none
  | match_t.MATCH_EREGEX =>
    match pattern with
    | some s => (E.regcomp s true).map some
    | none => none
  | _ => some none

/-- The load `pkgdb_init(db, pattern, match, flags)`: the session it leaves. -/
def pkgdb_init (E : Env) (db : pkgdb) (pattern : Option Bytes) (m : match_t) (flags : Nat) :
    Option pkgdb :=
  let o := pkgdb_open E (E.pkgdb_cache_update db)
  if o.1 = -1 then some o.2
  else
    match pkgdb_lock E o.2 0 with
    | none => none
    | some db1 =>
      let db2 : pkgdb := { db1 with count := 0, flags := flags }
      if m ≠ match_t.MATCH_ALL ∧ pattern = none then some db2
      else
        let f := cdb_find db2.db E.PKGDB_COUNT
        let db3 : pkgdb := { db2 with db := f.2 }
        if f.1 ≤ 0 then some db3
        else
          let count := E.size_read f.2.vcur
          let db4 : pkgdb := { db3 with pkgs := Ptr.to (calloc (slots E count)) }
          match init_regex E pattern m with
          | none => some db4
          | some re =>
            match init_loop E re pattern m count count 0 db4 with
            | none => none
            | some db5 => init_finish db5

/-- The accessor `pkgdb_count(db)`. -/
def pkgdb_count (db : pkgdb) : Nat := db.count

/-! ## Auxiliary notions used in the statements -/

/-- A session over the records `recs` on which nothing has been loaded. -/
def session (recs : List (Bytes × Bytes)) : pkgdb :=
  { pkgs := Ptr.junk, count := 0, db := { recs := recs, vcur := [] }, lock_fd := -1,
    flags := 0 }

/-- The record `pkgdb_pkg_query` returns for index `i` over the records `recs`. -/
def load (E : Env) (recs : List (Bytes × Bytes)) (i : Nat) : Option pkg :=
  (pkgdb_pkg_query E (session recs) i).1

/-- The result of `pkgdb_query` as a function of the handle. -/
def query_val (E : Env) (c : cdb) (fmt : Bytes) : Option Bytes :=
  if fmt.length ≠ (fmt.take (E.BUFSIZ - 1)).length then none
  else some ((values c.recs (fmt.take (E.BUFSIZ - 1))).headD c.vcur)

/-- The handle `pkgdb_query` leaves. -/
def query_db (E : Env) (c : cdb) (fmt : Bytes) : cdb :=
  if fmt.length ≠ (fmt.take (E.BUFSIZ - 1)).length then c
  else { c with vcur := (values c.recs (fmt.take (E.BUFSIZ - 1))).headD c.vcur }

/-- The dependency leaf made for the stored value `v`. -/
def leaf (v : Bytes) : pkg := dep_leaf { recs := [], vcur := v }

/-- The NULL-terminated array of leaves made for the stored values `vals`. -/
def deps_array (vals : List Bytes) : List (Option pkg) :=
  vals.map (fun v => some (leaf v)) ++ [none]

/-- The session `db1` differs from `db` at most in the data position of its handle. -/
def Frame (db db1 : pkgdb) : Prop :=
  ∃ w, db1 = { db with db := { db.db with vcur := w } }

/-- Two slots are in order: both hold a named record and `strcmp` of the names is not
positive. -/
def name_le (a b : Option pkg) : Prop := ∃ c, pkg_cmp a b = some c ∧ c ≤ 0

/-- A slot that holds a record with a name. -/
def named (a : Option pkg) : Prop := ∃ p x, a = some p ∧ p.name = some x

/-- The candidate at index `i` when its stored dependency values name `target`. -/
def rdep_at (E : Env) (recs : List (Bytes × Bytes)) (target : Bytes) (i : Nat) : Option pkg :=
  match load E recs i with
  | none => none
  | some q => if target ∈ values recs (deps_key E q.idx) then some q else none

/-- The candidates below `n` whose stored dependency values name `target`, by index. -/
def rdeps_list (E : Env) (recs : List (Bytes × Bytes)) (target : Bytes) (n : Nat) : List pkg :=
  (List.range n).filterMap (rdep_at E recs target)

/-- The record with the forward dependency array `pkgdb_init` adds under PKGDB_INIT_DEPS. -/
def with_deps (E : Env) (recs : List (Bytes × Bytes)) (flags : Nat) (p : pkg) : pkg :=
  if flags &&& E.PKGDB_INIT_DEPS ≠ 0 then
    { p with deps := Ptr.to (deps_array (values recs (deps_key E p.idx))) }
  else p

/-- The record with the reverse dependency array `pkgdb_init` adds under PKGDB_INIT_RDEPS. -/
def with_rdeps (E : Env) (recs : List (Bytes × Bytes)) (flags count : Nat) (p : pkg) : pkg :=
  if flags &&& E.PKGDB_INIT_RDEPS ≠ 0 then
    { p with rdeps := Ptr.to ((rdeps_list E recs p.name_version count).map some ++ [none]) }
  else p

/-- The value of `pkg_match` where it is defined. -/
def sel_of (E : Env) (re : Option (Bytes → Int)) (pattern : Option Bytes) (m : match_t)
    (p : pkg) : Int :=
  (pkg_match E p re pattern m).getD 1

/-- The record the selection loop appends for index `i`, if any. -/
def select_at (E : Env) (recs : List (Bytes × Bytes)) (re : Option (Bytes → Int))
    (pattern : Option Bytes) (m : match_t) (flags count i : Nat) : Option pkg :=
  match load E recs i with
  | none => none
  | some p =>
    if sel_of E re pattern m p = 0 then some (with_rdeps E recs flags count (with_deps E recs flags p))
    else none

/-- The records the selection loop appends over the indices below `count`, in index order. -/
def selected (E : Env) (recs : List (Bytes × Bytes)) (re : Option (Bytes → Int))
    (pattern : Option Bytes) (m : match_t) (flags count : Nat) : List pkg :=
  (List.range count).filterMap (select_at E recs re pattern m flags count)

/-- Two records are in order by name: both have one and `strcmp` is not positive. -/
def by_name (p q : pkg) : Prop := ∃ x y, p.name = some x ∧ q.name = some y ∧ strcmp x y ≤ 0

/-- What one iteration of the selection loop leaves, from a session whose array holds
`pre` followed by `m + 1` NULL slots. -/
def StepPost (db : pkgdb) (pre : List pkg) (m : Nat) (o : Option pkg) (db1 : pkgdb) : Prop :=
  db1.db.recs = db.db.recs ∧ db1.flags = db.flags ∧ db1.lock_fd = db.lock_fd ∧
    db1.count = (pre ++ o.toList).length ∧
    db1.pkgs = Ptr.to ((pre ++ o.toList).map some ++ List.replicate (m + 1 - o.toList.length) none)

/-- The session at the entry of the selection loop of `pkgdb_init` (line 274), when the
store opened on `recs`, the lock was acquired on `fd` and the count key holds `v`. -/
def loop_entry (E : Env) (recs : List (Bytes × Bytes)) (fd : Int) (v : Bytes) (flags : Nat) :
    pkgdb :=
  { pkgs := Ptr.to (calloc (slots E (E.size_read v))), count := 0,
    db := { recs := recs, vcur := v }, lock_fd := fd, flags := flags }

/-- The dependency leaves `pkgdb_deps_query` builds for the record `q` over `recs`. -/
def loaded_deps (E : Env) (recs : List (Bytes × Bytes)) (q : pkg) : List pkg :=
  match pkgdb_deps_query E (session recs) q with
  | some r =>
    match r.1.deps with
    | Ptr.to d => entries d
    | _ => []
  | none => []

/-- The identities of the records a call left in `db->pkgs`, in array order. -/
def identities (o : Option pkgdb) : List Bytes :=
  match o with
  | some db =>
    match db.pkgs with
    | Ptr.to a => (entries a).map pkg.name_version
    | _ => []
  | none => []

/-- The identities in the reverse dependency arrays of the records a call left in
`db->pkgs`, in array order. -/
def rdeps_identities (o : Option pkgdb) : List (Bytes × List Bytes) :=
  match o with
  | some db =>
    match db.pkgs with
    | Ptr.to a =>
      (entries a).map (fun p =>
        (p.name_version,
          match p.rdeps with
          | Ptr.to r => (entries r).map pkg.name_version
          | _ => []))
    | _ => []
  | none => []

/-! ## A sample environment -/

/-- The `w` little-endian bytes of `n`. -/
def le_bytes : Nat → Nat → Bytes
  | 0, _ => []
  | w + 1, n => (n % 256) :: le_bytes w (n / 256)

/-- The number a little-endian byte string encodes. -/
def le_read : Bytes → Nat
  | [] => 0
  | b :: rest => b + 256 * le_read rest

/-- Decimal digits, most significant first (`fuel` bounds the number of digits). -/
def decimal_aux : Nat → Nat → Bytes → Bytes
  | 0, _, acc => acc
  | fuel + 1, n, acc =>
    if n < 10 then (48 + n) :: acc else decimal_aux fuel (n / 10) ((48 + n % 10) :: acc)

/-- The text `%zu` prints for `n`. -/
def decimal (n : Nat) : Bytes := decimal_aux (n + 1) n []

/-- Shell-glob matching restricted to `*`, `?` and literal bytes. -/
def glob : Bytes → Bytes → Bool
  | [], s => s.isEmpty
  | c :: p, s =>
    if c = 42 then s.tails.any (fun t => glob p t)
    else
      match s with
      | [] => false
      | d :: t => (c = 63 || c = d) && glob p t

/-- A sample environment: LP64 little-endian indices, a 1024-byte key buffer, keys made
of the decimal index and a suffix, `fnmatch` as `glob`, a `regcomp` that rejects an
unterminated bracket and otherwise searches the pattern text literally, a cache refresh
that leaves the session alone, and operating-system answers `cache` and `lock`. -/
def sample_env (cache : Option (List (Bytes × Bytes))) (lock : Option Int) : Env :=
  { BUFSIZ := 1024
    SIZE_MAX := 18446744073709551615
    idx_key := le_bytes 8
    size_read := fun v => le_read (v.take 8)
    PKGDB_COUNT := str "count"
    PKGDB_NAME := fun i => decimal i ++ str "n"
    PKGDB_VERSION := fun i => decimal i ++ str "v"
    PKGDB_COMMENT := fun i => decimal i ++ str "c"
    PKGDB_DESC := fun i => decimal i ++ str "d"
    PKGDB_ORIGIN := fun i => decimal i ++ str "o"
    PKGDB_DEPS := fun i => decimal i ++ str "deps"
    PKGDB_INIT_DEPS := 1
    PKGDB_INIT_RDEPS := 2
    PKGERR_NOT_INSTALLED := 1
    fnmatch := fun p s => if glob p s then 0 else 1
    regcomp := fun s _ => if s = str "[" then none else some (fun t => if s <:+: t then 0 else 1)
    pkgdb_cache_update := fun db => db
    cache := cache
    lock := lock }

/-- The records of one package in a sample store: identity, name and dependency values. -/
def sample_pkg (i : Nat) (nv name : String) (deps : List String) : List (Bytes × Bytes) :=
  [(le_bytes 8 i, str nv), (decimal i ++ str "n", str name)]
    ++ deps.map (fun d => (decimal i ++ str "deps", str d))

/-- A session as a caller declares it, with `count` left at `n`. -/
def fresh (n : Nat) : pkgdb :=
  { pkgs := Ptr.junk, count := n, db := { recs := [], vcur := [] }, lock_fd := -1,
    flags := 0 }

/-- The store of the scenario: A depends on B, B, C depends on B; count = 3. -/
def store_abc : List (Bytes × Bytes) :=
  [(str "count", le_bytes 8 3)] ++ sample_pkg 0 "A-1" "A" ["B-1"] ++ sample_pkg 1 "B-1" "B" []
    ++ sample_pkg 2 "C-1" "C" ["B-1"]

/-- A store whose two records carry the same identity; count = 2. -/
def store_dup : List (Bytes × Bytes) :=
  [(str "count", le_bytes 8 2)] ++ sample_pkg 0 "foo-1.0" "foo" []
    ++ sample_pkg 1 "foo-1.0" "foo" []

/-- The store of the glob scenario: libfoo-1, bar-1, libbaz-2; count = 3. -/
def store_lib : List (Bytes × Bytes) :=
  [(str "count", le_bytes 8 3)] ++ sample_pkg 0 "libfoo-1" "libfoo" []
    ++ sample_pkg 1 "bar-1" "bar" [] ++ sample_pkg 2 "libbaz-2" "libbaz" []

/-- A store without the count key. -/
def store_nocount : List (Bytes × Bytes) := sample_pkg 0 "A-1" "A" []

/-- A store whose count key holds SIZE_MAX and whose index 0 has a record. -/
def store_max : List (Bytes × Bytes) :=
  [(str "count", le_bytes 8 18446744073709551615)] ++ sample_pkg 0 "A-1" "A" []


/-! ## Allocation and release

The functions above compute what the code stores; the definitions below follow the same
code for where it is stored.  Blocks are numbered in allocation order; each `malloc` or
`calloc` call of the source is an `alloc`, each `free` call a `free`, in source order.
`realloc` keeps the block it resizes.  The decisions of the control flow (an index loads,
a record is selected, a candidate is retained) are those of the functions above, through
`load`, `sel_of` and `rdep_at`. -/

/-- The heap as far as ownership goes: the number of the next block and the blocks
allocated and not yet released. -/
structure heap where
  next : Nat
  live : List Nat

/-- One `malloc` or `calloc` call: a fresh block. -/
def alloc (h : heap) : Nat × heap :=
  (h.next, { next := h.next + 1, live := h.next :: h.live })

/-- The call `free(b)`, defined for a live block only. -/
def free (h : heap) (b : Nat) : Option heap :=
  if b ∈ h.live then some { next := h.next, live := h.live.erase b } else none

/-- One `calloc(1, sizeof(*dep))` per value enumerated (line 121), in order. -/
def alloc_n : Nat → heap → List Nat × heap
  | 0, h => ([], h)
  | n + 1, h =>
    let a := alloc h
    let r := alloc_n n a.2
    (a.1 :: r.1, r.2)

/-- The walk `for (deps = a; *deps != NULL; deps++) free(*deps);` over the blocks the
slots address. -/
def free_list : List Nat → heap → Option heap
  | [], h => some h
  | b :: rest, h =>
    match free h b with
    | none => none
    | some h1 => free_list rest h1

/-- The blocks behind a record: the `struct pkg` itself and, for each of `deps` and
`rdeps`, the array and the records its slots address, when the load has allocated them
and they are still the record's. -/
structure blocks where
  self : Nat
  deps : Option (Nat × List Nat)
  rdeps : Option (Nat × List Nat)

/-- The blocks behind a session: the array `db->pkgs` and, by index, the records stored in
it. -/
structure ghost where
  pkgs : Nat
  own : List (Nat × blocks)

/-- The blocks of the record loaded for the index `idx`. -/
def owned_at (own : List (Nat × blocks)) (idx : Nat) : Option blocks :=
  match own with
  | [] => none
  | x :: rest => if x.1 = idx then some x.2 else owned_at rest idx

/-- Every block behind a record, in allocation order. -/
def all_blocks (o : blocks) : List Nat :=
  o.self :: ((match o.deps with
             | some d => d.1 :: d.2
             | none => [])
            ++ (match o.rdeps with
                | some d => d.1 :: d.2
                | none => []))

/-- The allocations of `pkgdb_deps_query` for the index `idx` (lines 115 and 121): the
array, then one leaf per value stored under the dependency key. -/
def deps_blocks (E : Env) (recs : List (Bytes × Bytes)) (idx : Nat) (h : heap) :
    (Nat × List Nat) × heap :=
  let a := alloc h
  let l := alloc_n (values recs (deps_key E idx)).length a.2
  ((a.1, l.1), l.2)

/-- The allocations and releases of the loop of `pkgdb_rdeps_query` (lines 140-164) over
the candidates `i, i+1, ...` (n iterations): the candidate record of `pkgdb_pkg_query`
(line 82), its dependency array and leaves, released after the scan (lines 156-158), and
the candidate released unless it was retained (lines 160-163).  `kept` lists the blocks
of the candidates retained so far, by slot. -/
def rdeps_loop_blocks (E : Env) (recs : List (Bytes × Bytes)) (target : Bytes) :
    Nat → Nat → List Nat → heap → Option (List Nat × heap)
  | 0, _, kept, h => some (kept, h)
  | n + 1, i, kept, h =>
    match load E recs i with
    | none => rdeps_loop_blocks E recs target n (i + 1) kept h
    | some _ =>
      let p := alloc h
      let d := deps_blocks E recs i p.2
      match free_list d.1.2 d.2 with
      | none => none
      | some h1 =>
        match free h1 d.1.1 with
        | none => none
        | some h2 =>
          match rdep_at E recs target i with
          | some _ => rdeps_loop_blocks E recs target n (i + 1) (kept ++ [p.1]) h2
          | none =>
            match free h2 p.1 with
            | none => none
            | some h3 => rdeps_loop_blocks E recs target n (i + 1) kept h3

/-- The allocations of `pkgdb_rdeps_query(db, pkg, count)`: the array (line 138), then the
loop; the `realloc` of line 165 keeps the array's block. -/
def rdeps_blocks (E : Env) (recs : List (Bytes × Bytes)) (target : Bytes) (count : Nat)
    (h : heap) : Option ((Nat × List Nat) × heap) :=
  let a := alloc h
  match rdeps_loop_blocks E recs target count 0 [] a.2 with
  | none => none
  | some r => some ((a.1, r.1), r.2)

/-- The allocations of lines 280-283 for the selected record at index `i`, whose own
block is `self`: the dependency blocks and the reverse dependency blocks, as the flags
ask. -/
def selected_blocks (E : Env) (recs : List (Bytes × Bytes)) (flags count : Nat) (i : Nat)
    (p : pkg) (self : Nat) (h : heap) : Option (blocks × heap) :=
  let d : Option (Nat × List Nat) × heap :=
    if flags &&& E.PKGDB_INIT_DEPS ≠ 0 then
      (some (deps_blocks E recs i h).1, (deps_blocks E recs i h).2)
    else (none, h)
  match (if flags &&& E.PKGDB_INIT_RDEPS ≠ 0 then
           (rdeps_blocks E recs p.name_version count d.2).map (fun x => (some x.1, x.2))
         else some (none, d.2)) with
  | none => none
  | some rd => some ({ self := self, deps := d.1, rdeps := rd.1 }, rd.2)

/-- The allocations and releases of the selection loop of `pkgdb_init` (lines 274-288)
over the indices `i, i+1, ...` (n iterations): the record of `pkgdb_pkg_query`, then for
a selected record its dependency and reverse dependency blocks, and for any other its
release (line 287). -/
def init_loop_blocks (E : Env) (recs : List (Bytes × Bytes)) (re : Option (Bytes → Int))
    (pattern : Option Bytes) (m : match_t) (flags count : Nat) :
    Nat → Nat → List (Nat × blocks) → heap → Option (List (Nat × blocks) × heap)
  | 0, _, own, h => some (own, h)
  | n + 1, i, own, h =>
    match load E recs i with
    | none => init_loop_blocks E recs re pattern m flags count n (i + 1) own h
    | some p =>
      let r := alloc h
      if sel_of E re pattern m p = 0 then
        match selected_blocks E recs flags count i p r.1 r.2 with
        | none => none
        | some o =>
          init_loop_blocks E recs re pattern m flags count n (i + 1) (own ++ [(i, o.1)]) o.2
      else
        match free r.2 r.1 with
        | none => none
        | some h1 => init_loop_blocks E recs re pattern m flags count n (i + 1) own h1

/-- The allocations of `pkgdb_init` from line 259 on, over the records `recs` with the
count read as `count`: the array `db->pkgs`, alone when `regcomp` fails (returns at lines
265 and 270), else followed by the selection loop; the `realloc` of line 294 keeps the
array's block. -/
def load_blocks (E : Env) (recs : List (Bytes × Bytes)) (pattern : Option Bytes) (m : match_t)
    (flags count : Nat) (h : heap) : Option (ghost × heap) :=
  let a := alloc h
  match init_regex E pattern m with
  | none => some ({ pkgs := a.1, own := [] }, a.2)
  | some re =>
    match init_loop_blocks E recs re pattern m flags count count 0 [] a.2 with
    | none => none
    | some r => some ({ pkgs := a.1, own := r.1 }, r.2)

/-- Modelled from the spec: the iteration `PKGDB_FOREACH(pkg, db)` of pkgdb.h, a macro that
is not among the sources: it visits the records of `db->pkgs` in array order up to the
NULL terminator.  `none` where `db->pkgs` addresses no NULL-terminated array. -/
def PKGDB_FOREACH (db : pkgdb) : Option (List pkg) :=
  match db.pkgs with
  | Ptr.to a => if (entries a).length < a.length then some (entries a) else none
  | _ => none

/-- The release of an array and of the records its slots address (lines 328-330 and
333-335): defined when the pointer addresses a NULL-terminated array whose entries are
the blocks `g` lists. -/
def free_array (h : heap) (a : Ptr (List (Option pkg))) (g : Option (Nat × List Nat)) :
    Option heap :=
  match a, g with
  | Ptr.to d, some b =>
    if (entries d).length < d.length ∧ b.2.length = (entries d).length then
      match free_list b.2 h with
      | none => none
      | some h1 => free h1 b.1
    else none
  | _, _ => none

/-- The body of the loop of `pkgdb_free` (lines 327-337) for the record `p` with the
blocks `o`. -/
def free_pkg (E : Env) (flags : Nat) (o : blocks) (p : pkg) (h : heap) : Option heap :=
  match (if flags &&& E.PKGDB_INIT_DEPS ≠ 0 then free_array h p.deps o.deps else some h) with
  | none => none
  | some h1 =>
    match (if flags &&& E.PKGDB_INIT_RDEPS ≠ 0 then free_array h1 p.rdeps o.rdeps
           else some h1) with
    | none => none
    | some h2 => free h2 o.self

/-- The loop of `pkgdb_free` over the records visited. -/
def free_walk (E : Env) (flags : Nat) (own : List (Nat × blocks)) :
    List pkg → heap → Option heap
  | [], h => some h
  | p :: rest, h =>
    match owned_at own p.idx with
    | none => none
    | some o =>
      match free_pkg E flags o p h with
      | none => none
      | some h1 => free_walk E flags own rest h1

/-- The release `pkgdb_free(db)` of a session with the blocks `g`: the session and the
heap it leaves.  `db->pkgs` stays set to the released array, an indeterminate pointer from
then on.  `cdb_free` and `close` (lines 322-324) act on the mapping and the descriptor of
the store handle, which the handle of this model (records and data position) does not
carry. -/
def pkgdb_free (E : Env) (g : ghost) (db : pkgdb) (h : heap) : Option (pkgdb × heap) :=
  match PKGDB_FOREACH db with
  | none => none
  | some ps =>
    match free_walk E db.flags g.own ps h with
    | none => none
    | some h1 =>
      match free h1 g.pkgs with
      | none => none
      | some h2 => some ({ db with pkgs := Ptr.junk }, h2)

/-- A heap in which no block is listed twice and every live block has been allocated. -/
def heap_ok (h : heap) : Prop := h.live.Nodup ∧ ∀ b ∈ h.live, b < h.next

/-- The order in which `pkgdb_free` releases the blocks behind a record. -/
def free_order (E : Env) (flags : Nat) (o : blocks) : List Nat :=
  (if flags &&& E.PKGDB_INIT_DEPS ≠ 0 then
     (match o.deps with
      | some d => d.2 ++ [d.1]
      | none => [])
   else [])
  ++ (if flags &&& E.PKGDB_INIT_RDEPS ≠ 0 then
        (match o.rdeps with
         | some d => d.2 ++ [d.1]
         | none => [])
      else [])
  ++ [o.self]

/-- The blocks `o` are those of the record `p` loaded under `flags`: an array and its
entries are listed exactly for the lists the flags ask for, one block per entry. -/
def fits (E : Env) (flags : Nat) (p : pkg) (o : blocks) : Prop :=
  (if flags &&& E.PKGDB_INIT_DEPS ≠ 0 then
     ∃ d b, p.deps = Ptr.to d ∧ o.deps = some b ∧ (entries d).length < d.length ∧
       b.2.length = (entries d).length
   else o.deps = none) ∧
  (if flags &&& E.PKGDB_INIT_RDEPS ≠ 0 then
     ∃ d b, p.rdeps = Ptr.to d ∧ o.rdeps = some b ∧ (entries d).length < d.length ∧
       b.2.length = (entries d).length
   else o.rdeps = none)

/-- The empty heap. -/
def heap_empty : heap := { next := 0, live := [] }


/-! ## Byte-wise comparison -/

theorem strcmp_self (a : Bytes) : strcmp a a = 0 := by
  induction a with
  | nil => rfl
  | cons x xs ih => simp [strcmp, ih]

theorem strcmp_eq_zero {a b : Bytes} : strcmp a b = 0 ↔ a = b := by
  constructor
  · intro h
    induction a generalizing b with
    | nil =>
      cases b with
      | nil => rfl
      | cons y ys => simp [strcmp] at h
    | cons x xs ih =>
      cases b with
      | nil => simp [strcmp] at h
      | cons y ys =>
        simp only [strcmp] at h
        by_cases hxy : x = y
        · simp only [hxy, if_true] at h
          rw [hxy, ih h]
        · simp only [hxy, if_false] at h
          split at h <;> simp at h
  · intro h
    rw [h]
    exact strcmp_self b

theorem strcmp_flip {a b : Bytes} (h : ¬ strcmp a b ≤ 0) : strcmp b a ≤ 0 := by
  induction a generalizing b with
  | nil => cases b <;> simp [strcmp] at h
  | cons x xs ih =>
    cases b with
    | nil => simp [strcmp]
    | cons y ys =>
      simp only [strcmp] at h ⊢
      by_cases hxy : x = y
      · subst hxy
        simp only [if_true] at h ⊢
        exact ih h
      · have hyx : ¬ y = x := fun e => hxy e.symm
        simp only [hxy, hyx, if_false] at h ⊢
        by_cases hlt : x < y
        · simp [hlt] at h
        · have : y < x := by omega
          simp [this]

theorem strcmp_trans {a b c : Bytes} (h1 : strcmp a b ≤ 0) (h2 : strcmp b c ≤ 0) :
    strcmp a c ≤ 0 := by
  induction a generalizing b c with
  | nil => cases c <;> simp [strcmp]
  | cons x xs ih =>
    cases b with
    | nil => simp [strcmp] at h1
    | cons y ys =>
      cases c with
      | nil => simp [strcmp] at h2
      | cons z zs =>
        simp only [strcmp] at h1 h2 ⊢
        by_cases hxy : x = y
        · subst hxy
          simp only [if_true] at h1
          by_cases hxz : x = z
          · subst hxz
            simp only [if_true] at h2 ⊢
            exact ih h1 h2
          · simp only [hxz, if_false] at h2 ⊢
            exact h2
        · simp only [hxy, if_false] at h1
          have hlt : x < y := by
            by_contra hn
            simp [hn] at h1
          by_cases hyz : y = z
          · subst hyz
            simp [hxy, hlt]
          · simp only [hyz, if_false] at h2
            have hlt2 : y < z := by
              by_contra hn
              simp [hn] at h2
            have hxz : x ≠ z := by omega
            have hlt3 : x < z := by omega
            simp [hxz, hlt3]

/-! ## The library sort -/


theorem pkg_cmp_flip {a b : Option pkg} {c : Int} (h : pkg_cmp a b = some c) (hc : ¬ c ≤ 0) :
    name_le b a := by
  unfold pkg_cmp at h
  unfold name_le pkg_cmp
  cases a with
  | none => simp at h
  | some pa =>
    cases b with
    | none => simp at h
    | some pb =>
      cases hx : pa.name with
      | none => simp [hx] at h
      | some x =>
        cases hy : pb.name with
        | none => simp [hx, hy] at h
        | some y =>
          simp only [hx, hy, Option.some.injEq] at h
          subst h
          exact ⟨strcmp y x, by simp [hx, hy], strcmp_flip hc⟩

theorem name_le_trans {a b c : Option pkg} (h1 : name_le a b) (h2 : name_le b c) :
    name_le a c := by
  obtain ⟨c1, e1, l1⟩ := h1
  obtain ⟨c2, e2, l2⟩ := h2
  unfold pkg_cmp at e1 e2
  unfold name_le pkg_cmp
  cases a with
  | none => simp at e1
  | some pa =>
    cases b with
    | none => simp at e1
    | some pb =>
      cases c with
      | none => simp at e2
      | some pc =>
        cases hx : pa.name with
        | none => simp [hx] at e1
        | some x =>
          cases hy : pb.name with
          | none => simp [hx, hy] at e1
          | some y =>
            cases hz : pc.name with
            | none => simp [hy, hz] at e2
            | some z =>
              simp only [hx, hy, hz, Option.some.injEq] at e1 e2
              subst e1 e2
              exact ⟨strcmp x z, by simp [hx, hz], strcmp_trans l1 l2⟩

theorem qsort_insert_perm {x : Option pkg} {l r : List (Option pkg)}
    (h : qsort_insert pkg_cmp x l = some r) : r.Perm (x :: l) := by
  induction l generalizing r with
  | nil =>
    simp only [qsort_insert, Option.some.injEq] at h
    subst h
    exact List.Perm.refl _
  | cons y ys ih =>
    simp only [qsort_insert] at h
    cases hc : pkg_cmp x y with
    | none => simp [hc] at h
    | some c =>
      simp only [hc] at h
      by_cases hle : c ≤ 0
      · simp only [hle, if_true, Option.some.injEq] at h
        subst h
        exact List.Perm.refl _
      · simp only [hle, if_false] at h
        cases hr : qsort_insert pkg_cmp x ys with
        | none => simp [hr] at h
        | some r1 =>
          simp only [hr, Option.some.injEq] at h
          subst h
          exact ((ih hr).cons y).trans (List.Perm.swap x y ys)

theorem qsort_perm {l r : List (Option pkg)} (h : qsort pkg_cmp l = some r) : r.Perm l := by
  induction l generalizing r with
  | nil =>
    simp only [qsort, Option.some.injEq] at h
    subst h
    exact List.Perm.refl _
  | cons x xs ih =>
    simp only [qsort] at h
    cases hr : qsort pkg_cmp xs with
    | none => simp [hr] at h
    | some r1 =>
      simp only [hr] at h
      exact (qsort_insert_perm h).trans ((ih hr).cons x)

theorem qsort_insert_sorted {x : Option pkg} {l r : List (Option pkg)}
    (h : qsort_insert pkg_cmp x l = some r) (hs : l.Pairwise name_le) : r.Pairwise name_le := by
  induction l generalizing r with
  | nil =>
    simp only [qsort_insert, Option.some.injEq] at h
    subst h
    simp
  | cons y ys ih =>
    simp only [qsort_insert] at h
    cases hc : pkg_cmp x y with
    | none => simp [hc] at h
    | some c =>
      simp only [hc] at h
      by_cases hle : c ≤ 0
      · simp only [hle, if_true, Option.some.injEq] at h
        subst h
        have hxy : name_le x y := ⟨c, hc, hle⟩
        refine List.Pairwise.cons ?_ hs
        intro z hz
        rcases List.mem_cons.mp hz with rfl | hz
        · exact hxy
        · exact name_le_trans hxy (List.rel_of_pairwise_cons hs hz)
      · simp only [hle, if_false] at h
        cases hr : qsort_insert pkg_cmp x ys with
        | none => simp [hr] at h
        | some r1 =>
          simp only [hr, Option.some.injEq] at h
          subst h
          refine List.Pairwise.cons ?_ (ih hr (List.Pairwise.of_cons hs))
          intro z hz
          rcases List.mem_cons.mp ((qsort_insert_perm hr).subset hz) with rfl | hz
          · exact pkg_cmp_flip hc hle
          · exact List.rel_of_pairwise_cons hs hz

theorem qsort_sorted {l r : List (Option pkg)} (h : qsort pkg_cmp l = some r) :
    r.Pairwise name_le := by
  induction l generalizing r with
  | nil =>
    simp only [qsort, Option.some.injEq] at h
    subst h
    simp
  | cons x xs ih =>
    simp only [qsort] at h
    cases hr : qsort pkg_cmp xs with
    | none => simp [hr] at h
    | some r1 =>
      simp only [hr] at h
      exact qsort_insert_sorted h (ih hr)


theorem pkg_cmp_named {a b : Option pkg} (ha : named a) (hb : named b) :
    ∃ c, pkg_cmp a b = some c := by
  obtain ⟨p, x, rfl, hx⟩ := ha
  obtain ⟨q, y, rfl, hy⟩ := hb
  exact ⟨strcmp x y, by simp [pkg_cmp, hx, hy]⟩

theorem qsort_insert_some {x : Option pkg} {l : List (Option pkg)} (hx : named x)
    (hl : ∀ y ∈ l, named y) : ∃ r, qsort_insert pkg_cmp x l = some r := by
  induction l with
  | nil => exact ⟨[x], rfl⟩
  | cons y ys ih =>
    obtain ⟨c, hc⟩ := pkg_cmp_named hx (hl y (List.mem_cons_self y ys))
    obtain ⟨r1, hr1⟩ := ih (fun z hz => hl z (List.mem_cons_of_mem y hz))
    simp only [qsort_insert, hc, hr1]
    by_cases hle : c ≤ 0 <;> simp [hle]

theorem qsort_some {l : List (Option pkg)} (hl : ∀ y ∈ l, named y) :
    ∃ r, qsort pkg_cmp l = some r := by
  induction l with
  | nil => exact ⟨[], rfl⟩
  | cons x xs ih =>
    obtain ⟨r1, hr1⟩ := ih (fun z hz => hl z (List.mem_cons_of_mem x hz))
    have hr : ∀ y ∈ r1, named y := fun y hy =>
      hl y (List.mem_cons_of_mem x ((qsort_perm hr1).subset hy))
    obtain ⟨r, h⟩ := qsort_insert_some (hl x (List.mem_cons_self x xs)) hr
    exact ⟨r, by simp [qsort, hr1, h]⟩

/-! ## The store handle and the loader -/

theorem Frame.refl (db : pkgdb) : Frame db db := ⟨db.db.vcur, rfl⟩

theorem Frame.trans {a b c : pkgdb} (h1 : Frame a b) (h2 : Frame b c) : Frame a c := by
  obtain ⟨w1, rfl⟩ := h1
  obtain ⟨w2, rfl⟩ := h2
  exact ⟨w2, rfl⟩

theorem Frame.recs {a b : pkgdb} (h : Frame a b) : b.db.recs = a.db.recs := by
  obtain ⟨w, rfl⟩ := h
  rfl

theorem Frame.flags {a b : pkgdb} (h : Frame a b) : b.flags = a.flags := by
  obtain ⟨w, rfl⟩ := h
  rfl

theorem Frame.pkgs {a b : pkgdb} (h : Frame a b) : b.pkgs = a.pkgs := by
  obtain ⟨w, rfl⟩ := h
  rfl

theorem Frame.count {a b : pkgdb} (h : Frame a b) : b.count = a.count := by
  obtain ⟨w, rfl⟩ := h
  rfl

theorem Frame.of_db {a : pkgdb} {c : cdb} (h : c.recs = a.db.recs) :
    Frame a { a with db := c } := by
  refine ⟨c.vcur, ?_⟩
  cases c
  simp only at h
  subst h
  rfl

theorem query_db_recs (E : Env) (c : cdb) (fmt : Bytes) : (query_db E c fmt).recs = c.recs := by
  unfold query_db
  split <;> rfl

theorem pkgdb_query_fst (E : Env) (db : pkgdb) (fmt : Bytes) :
    (pkgdb_query E db fmt).1 = query_val E db.db fmt := by
  unfold pkgdb_query query_val cdb_find db_get
  by_cases h : fmt.length ≠ (fmt.take (E.BUFSIZ - 1)).length
  · rw [if_pos h, if_pos h]
  · rw [if_neg h, if_neg h]
    cases values db.db.recs (fmt.take (E.BUFSIZ - 1)) <;> simp

theorem pkgdb_query_snd (E : Env) (db : pkgdb) (fmt : Bytes) :
    (pkgdb_query E db fmt).2 = { db with db := query_db E db.db fmt } := by
  unfold pkgdb_query query_db cdb_find db_get
  by_cases h : fmt.length ≠ (fmt.take (E.BUFSIZ - 1)).length
  · rw [if_pos h, if_pos h]
  · rw [if_neg h, if_neg h]
    cases values db.db.recs (fmt.take (E.BUFSIZ - 1)) <;> simp

theorem pkgdb_pkg_query_fst (E : Env) (db : pkgdb) (i : Nat) :
    (pkgdb_pkg_query E db i).1 = load E db.db.recs i := by
  unfold load pkgdb_pkg_query session cdb_find db_get
  simp only [pkgdb_query_fst, pkgdb_query_snd]
  cases values db.db.recs (E.idx_key i) <;> simp

theorem pkgdb_pkg_query_snd (E : Env) (db : pkgdb) (i : Nat) :
    Frame db (pkgdb_pkg_query E db i).2 := by
  unfold pkgdb_pkg_query cdb_find db_get
  simp only [pkgdb_query_snd]
  cases values db.db.recs (E.idx_key i) with
  | nil => exact Frame.of_db rfl
  | cons v vs =>
    simp only [Int.reduceLE, if_false]
    exact Frame.of_db (by simp [query_db_recs])

theorem load_some {E : Env} {recs : List (Bytes × Bytes)} {i : Nat} {q : pkg}
    (h : load E recs i = some q) :
    q.idx = i ∧ q.deps = Ptr.junk ∧ q.rdeps = Ptr.junk ∧
      q.name_version = (values recs (E.idx_key i)).headD [] := by
  unfold load pkgdb_pkg_query session cdb_find db_get at h
  cases hv : values recs (E.idx_key i) with
  | nil => simp [hv] at h
  | cons v vs =>
    simp only [hv, Int.reduceLE, if_false, Option.some.injEq] at h
    subst h
    simp

theorem load_isSome (E : Env) (recs : List (Bytes × Bytes)) (i : Nat) :
    (load E recs i).isSome = !(values recs (E.idx_key i)).isEmpty := by
  unfold load pkgdb_pkg_query session cdb_find db_get
  cases hv : values recs (E.idx_key i) <;> simp

/-! ## Forward dependencies -/

theorem store_append (pre : List (Option pkg)) (m : Nat) (x : Option pkg) :
    store (pre ++ List.replicate (m + 1) none) pre.length x
      = some (pre ++ x :: List.replicate m none) := by
  unfold store
  have hlt : pre.length < (pre ++ List.replicate (m + 1) (none : Option pkg)).length := by
    simp
  rw [if_pos hlt]
  congr 1
  induction pre with
  | nil => simp [List.replicate_succ]
  | cons y ys ih => simpa using ih (by simp)

theorem deps_count_fst (vals : List Bytes) (c : cdb) (n : Nat) :
    (deps_count vals c n).1 = n + vals.length := by
  induction vals generalizing c n with
  | nil => simp [deps_count]
  | cons v rest ih => simp [deps_count, ih]; omega

theorem deps_count_snd (vals : List Bytes) (c : cdb) (n : Nat) :
    (deps_count vals c n).2.recs = c.recs := by
  induction vals generalizing c n with
  | nil => simp [deps_count, cdb_findnext]
  | cons v rest ih => simp [deps_count, cdb_findnext, ih]

theorem deps_fill_eq (vals : List Bytes) (c : cdb) (pre : List (Option pkg)) (k : Nat) :
    ∃ c1, c1.recs = c.recs ∧
      deps_fill vals c (pre ++ List.replicate (vals.length + k) none) pre.length
        = some (pre ++ vals.map (fun v => some (leaf v)) ++ List.replicate k none, c1) := by
  induction vals generalizing c pre with
  | nil => exact ⟨c, rfl, by simp [deps_fill, cdb_findnext]⟩
  | cons v rest ih =>
    have hs : store (pre ++ List.replicate ((v :: rest).length + k) none) pre.length
        (some (dep_leaf { c with vcur := v }))
        = some (pre ++ some (dep_leaf { c with vcur := v }) :: List.replicate (rest.length + k) none) := by
      have : (v :: rest).length + k = (rest.length + k) + 1 := by simp; omega
      rw [this]
      exact store_append pre _ _
    obtain ⟨c1, hc1, h1⟩ := ih { c with vcur := v } (pre ++ [some (leaf v)])
    refine ⟨c1, hc1, ?_⟩
    simp only [deps_fill, cdb_findnext, hs]
    have e1 : pre ++ some (dep_leaf { c with vcur := v }) :: List.replicate (rest.length + k) none
        = (pre ++ [some (leaf v)]) ++ List.replicate (rest.length + k) none := by
      simp [leaf, dep_leaf, db_get]
    have e2 : pre.length + 1 = (pre ++ [some (leaf v)]).length := by simp
    rw [e1, e2, h1]
    simp

theorem pkgdb_deps_query_eq (E : Env) (db : pkgdb) (p : pkg) :
    ∃ db1, Frame db db1 ∧
      pkgdb_deps_query E db p
        = some ({ p with deps := Ptr.to (deps_array (values db.db.recs (deps_key E p.idx))) }, db1) := by
  unfold pkgdb_deps_query cdb_findinit
  simp only [deps_count_fst, deps_count_snd, Nat.zero_add]
  have hs : store (calloc ((values db.db.recs (deps_key E p.idx)).length + 1))
      (values db.db.recs (deps_key E p.idx)).length none
      = some (List.replicate ((values db.db.recs (deps_key E p.idx)).length + 1) none) := by
    have := store_append (List.replicate (values db.db.recs (deps_key E p.idx)).length none) 0 none
    simp only [List.length_replicate] at this
    have e : List.replicate ((values db.db.recs (deps_key E p.idx)).length) (none : Option pkg)
        ++ List.replicate (0 + 1) none
        = List.replicate ((values db.db.recs (deps_key E p.idx)).length + 1) none := by
      rw [← List.replicate_add]
    rw [e] at this
    rw [calloc, this]
    simp [List.replicate_succ']
  rw [hs]
  obtain ⟨c1, hc1, h1⟩ := deps_fill_eq (values db.db.recs (deps_key E p.idx))
    (deps_count (values db.db.recs (deps_key E p.idx)) db.db 0).2 [] 1
  simp only [List.nil_append, List.length_nil] at h1
  simp only [h1]
  refine ⟨{ db with db := c1 }, Frame.of_db ?_, rfl⟩
  rw [hc1, deps_count_snd]

/-! ## Reverse dependencies -/

theorem get_append (pre : List (Option pkg)) (x : Option pkg) (rest : List (Option pkg)) :
    (pre ++ x :: rest).get? pre.length = some x := by
  induction pre with
  | nil => rfl
  | cons y ys ih => simpa using ih

theorem set_append (pre : List (Option pkg)) (x y : Option pkg) (rest : List (Option pkg)) :
    (pre ++ x :: rest).set pre.length y = pre ++ y :: rest := by
  induction pre with
  | nil => rfl
  | cons z zs ih => simp

theorem rdeps_scan_deps_array (E : Env) (t : Bytes) (vals : List Bytes) :
    rdeps_scan E t (deps_array vals) = some (decide (t ∈ vals)) := by
  induction vals with
  | nil => simp [deps_array, rdeps_scan]
  | cons v rest ih =>
    have e : deps_array (v :: rest) = some (leaf v) :: deps_array rest := by
      simp [deps_array]
    rw [e]
    simp only [rdeps_scan, leaf, dep_leaf, db_get, Nat.zero_and, true_and]
    by_cases h : strcmp v t = 0
    · have hv : v = t := strcmp_eq_zero.mp h
      subst hv
      simp [strcmp_self]
    · have hv : ¬ t = v := fun e => h (strcmp_eq_zero.mpr e.symm)
      simp only [h, if_false]
      rw [ih]
      simp [hv]

theorem pkg_deps_junk {p : pkg} (h : p.deps = Ptr.junk) :
    ({ name_version := p.name_version, name := p.name, version := p.version, origin := p.origin,
       comment := p.comment, desc := p.desc, deps := Ptr.junk, rdeps := p.rdeps, idx := p.idx,
       errors := p.errors } : pkg) = p := by
  cases p
  simp only at h
  subst h
  rfl

theorem rdeps_loop_eq (E : Env) (t : Bytes) (n : Nat) :
    ∀ (i : Nat) (db : pkgdb) (pre : List pkg) (m : Nat), n ≤ m →
      ∃ db1, Frame db db1 ∧
        rdeps_loop E t n i db (pre.map some ++ List.replicate (m + 1) none) pre.length
          = some ((pre ++ (List.range' i n).filterMap (rdep_at E db.db.recs t)).map some
                    ++ List.replicate
                        (m + 1 - ((List.range' i n).filterMap (rdep_at E db.db.recs t)).length) none,
                  (pre ++ (List.range' i n).filterMap (rdep_at E db.db.recs t)).length, db1) := by
  induction n with
  | zero =>
    intro i db pre m _
    exact ⟨db, Frame.refl db, by simp [rdeps_loop]⟩
  | succ n ih =>
    intro i db pre m hm
    have hq1 := pkgdb_pkg_query_fst E db i
    have hq2 := pkgdb_pkg_query_snd E db i
    have hr : (List.range' i (n + 1)) = i :: List.range' (i + 1) n := by
      simp [List.range'_succ]
    rw [hr, List.filterMap_cons]
    unfold rdeps_loop
    simp only [hq1]
    cases hl : load E db.db.recs i with
    | none =>
      obtain ⟨db1, hf, h1⟩ := ih (i + 1) (pkgdb_pkg_query E db i).2 pre m (by omega)
      rw [hq2.recs] at h1
      refine ⟨db1, hq2.trans hf, ?_⟩
      simp only [rdep_at, hl]
      exact h1
    | some p0 =>
      obtain ⟨hidx, hdeps, -, -⟩ := load_some hl
      obtain ⟨db1, hf1, hd⟩ := pkgdb_deps_query_eq E (pkgdb_pkg_query E db i).2 p0
      rw [hq2.recs] at hd
      simp only [hd, rdeps_scan_deps_array]
      by_cases hit : t ∈ values db.db.recs (deps_key E p0.idx)
      · obtain ⟨m1, rfl⟩ : ∃ m1, m = m1 + 1 := ⟨m - 1, by omega⟩
        have hst := store_append (pre.map some) (m1 + 1)
          (some { p0 with deps := Ptr.to (deps_array (values db.db.recs (deps_key E p0.idx))) })
        rw [List.length_map] at hst
        have hget := get_append (pre.map some)
          (some { p0 with deps := Ptr.to (deps_array (values db.db.recs (deps_key E p0.idx))) })
          (List.replicate (m1 + 1) none)
        rw [List.length_map] at hget
        have hset := set_append (pre.map some)
          (some { p0 with deps := Ptr.to (deps_array (values db.db.recs (deps_key E p0.idx))) })
          (some p0) (List.replicate (m1 + 1) none)
        rw [List.length_map] at hset
        obtain ⟨db2, hf2, h2⟩ := ih (i + 1) db1 (pre ++ [p0]) m1 (by omega)
        rw [hf1.recs, hq2.recs] at h2
        refine ⟨db2, (hq2.trans hf1).trans hf2, ?_⟩
        simp only [hit, decide_True, if_true, hst, hget, same_record, pkg_deps_junk hdeps, hset]
        simp only [rdep_at, hl, hit, if_true]
        have e1 : List.map some pre ++ some p0 :: List.replicate (m1 + 1) none
            = List.map some (pre ++ [p0]) ++ List.replicate (m1 + 1) none := by simp
        have e2 : pre.length + 1 = (pre ++ [p0]).length := by simp
        rw [e1, e2, h2]
        simp only [List.append_assoc, List.singleton_append, List.length_cons]
        have e3 : m1 + 1 - ((List.range' (i + 1) n).filterMap (rdep_at E db.db.recs t)).length
            = m1 + 1 + 1 - (((List.range' (i + 1) n).filterMap (rdep_at E db.db.recs t)).length + 1) := by
          omega
        rw [e3]
      · have hget := get_append (pre.map some) none (List.replicate m none)
        rw [List.length_map] at hget
        have e0 : List.map some pre ++ List.replicate (m + 1) none
            = List.map some pre ++ none :: List.replicate m none := by
          simp [List.replicate_succ]
        obtain ⟨db2, hf2, h2⟩ := ih (i + 1) db1 pre m (by omega)
        rw [hf1.recs, hq2.recs] at h2
        refine ⟨db2, (hq2.trans hf1).trans hf2, ?_⟩
        rw [e0] at h2
        try rw [e0]
        simp only [hit, decide_False, Bool.false_eq_true, if_false, hget, same_record, rdep_at, hl]
        exact h2

theorem rdeps_list_length_le (E : Env) (recs : List (Bytes × Bytes)) (t : Bytes) (n : Nat) :
    (rdeps_list E recs t n).length ≤ n := by
  unfold rdeps_list
  calc ((List.range n).filterMap (rdep_at E recs t)).length
      ≤ (List.range n).length := List.length_filterMap_le _ _
    _ = n := List.length_range n

theorem slots_eq {E : Env} {n : Nat} (h : n < E.SIZE_MAX) : slots E n = n + 1 := by
  unfold slots
  exact Nat.mod_eq_of_lt (by omega)

theorem pkgdb_rdeps_query_eq (E : Env) (db : pkgdb) (p : pkg) (n : Nat) (hn : n < E.SIZE_MAX) :
    ∃ db1, Frame db db1 ∧
      pkgdb_rdeps_query E db p n
        = some ({ p with rdeps := Ptr.to ((rdeps_list E db.db.recs p.name_version n).map some ++ [none]) },
                db1) := by
  obtain ⟨db1, hf, h1⟩ := rdeps_loop_eq E p.name_version n 0 db [] n (Nat.le_refl n)
  simp only [List.map_nil, List.nil_append, List.length_nil, ← List.range_eq_range'] at h1
  have hlen := rdeps_list_length_le E db.db.recs p.name_version n
  unfold rdeps_list at hlen
  refine ⟨db1, hf, ?_⟩
  unfold pkgdb_rdeps_query calloc
  rw [slots_eq hn, h1]
  simp only
  obtain ⟨k, hk⟩ : ∃ k, n + 1 - ((List.range n).filterMap (rdep_at E db.db.recs p.name_version)).length
      = k + 1 := ⟨n - ((List.range n).filterMap (rdep_at E db.db.recs p.name_version)).length, by omega⟩
  have hre : realloc (List.map some ((List.range n).filterMap (rdep_at E db.db.recs p.name_version))
        ++ List.replicate (n + 1 - ((List.range n).filterMap (rdep_at E db.db.recs p.name_version)).length) none)
        (((List.range n).filterMap (rdep_at E db.db.recs p.name_version)).length + 1)
      = some (List.map some ((List.range n).filterMap (rdep_at E db.db.recs p.name_version)) ++ [none]) := by
    rw [hk]
    unfold realloc
    simp [List.take_append_eq_append_take, List.replicate_succ]
  rw [hre]
  simp only
  have hst := store_append (List.map some ((List.range n).filterMap (rdep_at E db.db.recs p.name_version)))
    0 none
  simp only [List.length_map, List.replicate_succ, List.replicate_zero] at hst
  rw [hst]
  rfl

/-! ## The load algorithm -/

theorem deps_step (E : Env) (db : pkgdb) (p : pkg) :
    ∃ db1, Frame db db1 ∧
      (if db.flags &&& E.PKGDB_INIT_DEPS ≠ 0 then pkgdb_deps_query E db p else some (p, db))
        = some (with_deps E db.db.recs db.flags p, db1) := by
  unfold with_deps
  by_cases h : db.flags &&& E.PKGDB_INIT_DEPS ≠ 0
  · obtain ⟨db1, hf, hd⟩ := pkgdb_deps_query_eq E db p
    exact ⟨db1, hf, by rw [if_pos h, if_pos h, hd]⟩
  · exact ⟨db, Frame.refl db, by rw [if_neg h, if_neg h]⟩

theorem rdeps_step (E : Env) (db : pkgdb) (p : pkg) (count : Nat) (hn : count < E.SIZE_MAX) :
    ∃ db1, Frame db db1 ∧
      (if db.flags &&& E.PKGDB_INIT_RDEPS ≠ 0 then pkgdb_rdeps_query E db p count else some (p, db))
        = some (with_rdeps E db.db.recs db.flags count p, db1) := by
  unfold with_rdeps
  by_cases h : db.flags &&& E.PKGDB_INIT_RDEPS ≠ 0
  · obtain ⟨db1, hf, hd⟩ := pkgdb_rdeps_query_eq E db p count hn
    exact ⟨db1, hf, by rw [if_pos h, if_pos h, hd]⟩
  · exact ⟨db, Frame.refl db, by rw [if_neg h, if_neg h]⟩

theorem StepPost.of_frame {db db1 : pkgdb} {pre : List pkg} {m : Nat} (hf : Frame db db1)
    (hp : db.pkgs = Ptr.to (pre.map some ++ List.replicate (m + 1) none))
    (hc : db.count = pre.length) : StepPost db pre m none db1 := by
  refine ⟨hf.recs, hf.flags, ?_, ?_, ?_⟩
  · obtain ⟨w, rfl⟩ := hf; rfl
  · rw [hf.count, hc]; simp
  · rw [hf.pkgs, hp]; simp

theorem init_step_eq (E : Env) (re : Option (Bytes → Int)) (pattern : Option Bytes) (mt : match_t)
    (count : Nat) (hn : count < E.SIZE_MAX)
    (hsel : ∀ p, pkg_match E p re pattern mt = some (sel_of E re pattern mt p))
    (i : Nat) (db : pkgdb) (pre : List pkg) (m : Nat)
    (hp : db.pkgs = Ptr.to (pre.map some ++ List.replicate (m + 1) none))
    (hc : db.count = pre.length) :
    ∃ db1, init_step E re pattern mt count i db = some db1 ∧
      StepPost db pre m (select_at E db.db.recs re pattern mt db.flags count i) db1 := by
  have hq1 := pkgdb_pkg_query_fst E db i
  have hq2 := pkgdb_pkg_query_snd E db i
  unfold init_step
  simp only [hq1]
  cases hl : load E db.db.recs i with
  | none =>
    refine ⟨_, rfl, ?_⟩
    simp only [select_at, hl]
    exact StepPost.of_frame hq2 hp hc
  | some p =>
    simp only [hsel p]
    by_cases hs : sel_of E re pattern mt p = 0
    · obtain ⟨db1, hf1, hd⟩ := deps_step E (pkgdb_pkg_query E db i).2 p
      obtain ⟨db2, hf2, hrd⟩ := rdeps_step E db1 (with_deps E (pkgdb_pkg_query E db i).2.db.recs
        (pkgdb_pkg_query E db i).2.flags p) count hn
      have hf := (hq2.trans hf1).trans hf2
      have hst := store_append (pre.map some) m
        (some (with_rdeps E db1.db.recs db1.flags count
          (with_deps E (pkgdb_pkg_query E db i).2.db.recs (pkgdb_pkg_query E db i).2.flags p)))
      rw [List.length_map] at hst
      have hpk : db2.pkgs = Ptr.to (pre.map some ++ List.replicate (m + 1) none) := by
        rw [hf.pkgs]; exact hp
      have hcn : db2.count = pre.length := by rw [hf.count]; exact hc
      simp only [hs, if_true, hd, hrd, hpk, hcn, hst]
      refine ⟨_, rfl, ?_⟩
      simp only [select_at, hl, hs, if_true, Option.toList]
      have hrec1 : db1.db.recs = db.db.recs := (hq2.trans hf1).recs
      have hfl1 : db1.flags = db.flags := (hq2.trans hf1).flags
      obtain ⟨w, hw⟩ := hf
      refine ⟨?_, ?_, ?_, ?_, ?_⟩
      · rw [hw]
      · rw [hw]
      · rw [hw]
      · simp
      · simp [hrec1, hfl1, hq2.recs, hq2.flags]
    · simp only [hs, if_false]
      refine ⟨_, rfl, ?_⟩
      simp only [select_at, hl, hs, if_false]
      exact StepPost.of_frame hq2 hp hc

theorem init_loop_eq (E : Env) (re : Option (Bytes → Int)) (pattern : Option Bytes) (mt : match_t)
    (count : Nat) (hn : count < E.SIZE_MAX)
    (hsel : ∀ p, pkg_match E p re pattern mt = some (sel_of E re pattern mt p))
    (recs : List (Bytes × Bytes)) (flags : Nat) (n : Nat) :
    ∀ (i : Nat) (db : pkgdb) (pre : List pkg) (m : Nat), n ≤ m →
      db.pkgs = Ptr.to (pre.map some ++ List.replicate (m + 1) none) →
      db.count = pre.length → db.db.recs = recs → db.flags = flags →
      ∃ db1, init_loop E re pattern mt count n i db = some db1 ∧
        db1.db.recs = recs ∧ db1.flags = flags ∧ db1.lock_fd = db.lock_fd ∧
        db1.count = (pre ++ (List.range' i n).filterMap
                      (select_at E recs re pattern mt flags count)).length ∧
        db1.pkgs = Ptr.to ((pre ++ (List.range' i n).filterMap
                      (select_at E recs re pattern mt flags count)).map some
                    ++ List.replicate (m + 1 - ((List.range' i n).filterMap
                      (select_at E recs re pattern mt flags count)).length) none) := by
  induction n with
  | zero =>
    intro i db pre m _ hp hc hr hfl
    exact ⟨db, rfl, hr, hfl, rfl, by simpa using hc, by simpa using hp⟩
  | succ n ih =>
    intro i db pre m hm hp hc hr hfl
    obtain ⟨db1, h1, hr1, hfl1, hl1, hc1, hp1⟩ :=
      init_step_eq E re pattern mt count hn hsel i db pre m hp hc
    rw [hr, hfl] at hc1 hp1
    have hlen : (select_at E recs re pattern mt flags count i).toList.length ≤ 1 := by
      cases select_at E recs re pattern mt flags count i <;> simp
    obtain ⟨m1, hm1⟩ : ∃ m1, m + 1 - (select_at E recs re pattern mt flags count i).toList.length
        = m1 + 1 := ⟨m - (select_at E recs re pattern mt flags count i).toList.length, by omega⟩
    rw [hm1] at hp1
    obtain ⟨db2, h2, hr2, hfl2, hl2, hc2, hp2⟩ :=
      ih (i + 1) db1 (pre ++ (select_at E recs re pattern mt flags count i).toList) m1
        (by omega) hp1 hc1 (by rw [hr1, hr]) (by rw [hfl1, hfl])
    have hrange : (List.range' i (n + 1)) = i :: List.range' (i + 1) n := by
      simp [List.range'_succ]
    have hcons : (List.range' i (n + 1)).filterMap (select_at E recs re pattern mt flags count)
        = (select_at E recs re pattern mt flags count i).toList
          ++ (List.range' (i + 1) n).filterMap (select_at E recs re pattern mt flags count) := by
      rw [hrange, List.filterMap_cons]
      cases select_at E recs re pattern mt flags count i <;> simp
    refine ⟨db2, ?_, hr2, hfl2, by rw [hl2, hl1], ?_, ?_⟩
    · simp only [init_loop, h1, h2]
    · rw [hc2, hcons, List.append_assoc]
    · have e : m1 + 1 - ((List.range' (i + 1) n).filterMap
            (select_at E recs re pattern mt flags count)).length
          = m + 1 - ((select_at E recs re pattern mt flags count i).toList
              ++ (List.range' (i + 1) n).filterMap
                (select_at E recs re pattern mt flags count)).length := by
        rw [List.length_append]
        omega
      rw [hp2, hcons, List.append_assoc, e]

theorem perm_map_some {s : List (Option pkg)} {S : List pkg} (h : s.Perm (S.map some)) :
    ∃ t : List pkg, s = t.map some ∧ t.Perm S := by
  refine ⟨s.filterMap id, ?_, ?_⟩
  · have hall : ∀ x ∈ s, ∃ p, x = some p := by
      intro x hx
      have hm := h.subset hx
      obtain ⟨p, -, rfl⟩ := List.mem_map.mp hm
      exact ⟨p, rfl⟩
    clear h
    induction s with
    | nil => rfl
    | cons x xs ih =>
      obtain ⟨p, rfl⟩ := hall x (List.mem_cons_self x xs)
      have := ih (fun y hy => hall y (List.mem_cons_of_mem _ hy))
      simp only [List.filterMap_cons, id, List.map_cons]
      rw [← this]
  · have h2 := h.filterMap id
    have e : (S.map some).filterMap id = S := by
      induction S with
      | nil => rfl
      | cons a as ih => simp [List.filterMap_cons, ih]
    rw [e] at h2
    exact h2

theorem by_name_of_name_le {p q : pkg} (h : name_le (some p) (some q)) : by_name p q := by
  obtain ⟨c, hc, hle⟩ := h
  unfold pkg_cmp at hc
  cases hx : p.name with
  | none => simp [hx] at hc
  | some x =>
    cases hy : q.name with
    | none => simp [hx, hy] at hc
    | some y =>
      simp only [hx, hy, Option.some.injEq] at hc
      subst hc
      exact ⟨x, y, hx, hy, hle⟩

theorem entries_map_some (t : List pkg) (rest : List (Option pkg)) :
    entries (t.map some ++ none :: rest) = t := by
  induction t with
  | nil => rfl
  | cons a as ih => simp [entries, ih]

theorem init_finish_eq (db : pkgdb) (S : List pkg) (k : Nat)
    (hp : db.pkgs = Ptr.to (S.map some ++ List.replicate (k + 1) none))
    (hc : db.count = S.length) (hn : ∀ p ∈ S, p.name ≠ none) :
    ∃ t : List pkg, init_finish db
        = some { db with pkgs := Ptr.to (t.map some ++ [none]), lock_fd := -1 } ∧
      t.Perm S ∧ t.Pairwise by_name := by
  have hre : realloc (S.map some ++ List.replicate (k + 1) none) (S.length + 1)
      = some (S.map some ++ [none]) := by
    unfold realloc
    simp [List.take_append_eq_append_take, List.replicate_succ]
  have hst := store_append (S.map some) 0 none
  simp only [List.length_map, List.replicate_succ, List.replicate_zero] at hst
  have htake : (S.map some ++ [none]).take S.length = S.map some := by
    simp [List.take_append_eq_append_take]
  have hdrop : (S.map some ++ [none]).drop S.length = [none] := by
    simp [List.drop_append_eq_append_drop]
  have hnamed : ∀ y ∈ S.map some, named y := by
    intro y hy
    obtain ⟨p, hp1, rfl⟩ := List.mem_map.mp hy
    cases hx : p.name with
    | none => exact absurd hx (hn p hp1)
    | some x => exact ⟨p, x, rfl, hx⟩
  obtain ⟨s, hs⟩ := qsort_some hnamed
  obtain ⟨t, rfl, ht⟩ := perm_map_some (qsort_perm hs)
  refine ⟨t, ?_, ht, ?_⟩
  · unfold init_finish
    simp only [hp, hc, hre, hst, htake, hdrop, hs, pkgdb_unlock]
  · have h1 := qsort_sorted hs
    rw [List.pairwise_map] at h1
    exact h1.imp by_name_of_name_le

theorem pkg_match_some (E : Env) (re : Option (Bytes → Int)) (pattern : Option Bytes)
    (mt : match_t) (hpat : ¬ (mt ≠ match_t.MATCH_ALL ∧ pattern = none))
    (hre : init_regex E pattern mt = some re) (p : pkg) :
    pkg_match E p re pattern mt = some (sel_of E re pattern mt p) := by
  unfold sel_of
  cases mt <;> cases pattern <;> simp_all [pkg_match, init_regex] <;>
    (obtain ⟨r, -, rfl⟩ := hre; simp)

theorem pkgdb_init_loaded (E : Env) (db : pkgdb) (pattern : Option Bytes) (mt : match_t)
    (flags : Nat) (recs : List (Bytes × Bytes)) (fd : Int) (v : Bytes) (vs : List Bytes)
    (re : Option (Bytes → Int))
    (hcache : E.cache = some recs) (hlock : E.lock = some fd) (hfd : 0 ≤ fd)
    (hcount : values recs E.PKGDB_COUNT = v :: vs) (hN : E.size_read v < E.SIZE_MAX)
    (hpat : ¬ (mt ≠ match_t.MATCH_ALL ∧ pattern = none))
    (hre : init_regex E pattern mt = some re)
    (hnames : ∀ p ∈ selected E recs re pattern mt flags (E.size_read v), p.name ≠ none) :
    ∃ (t : List pkg) (w : Bytes), pkgdb_init E db pattern mt flags
        = some { pkgs := Ptr.to (t.map some ++ [none]), count := t.length,
                 db := { recs := recs, vcur := w },
                 lock_fd := -1, flags := flags } ∧
      t.Perm (selected E recs re pattern mt flags (E.size_read v)) ∧ t.Pairwise by_name := by
  have hsel := pkg_match_some E re pattern mt hpat hre
  have hfd2 : ¬ fd < 0 := by omega
  obtain ⟨db5, h5, hr5, hfl5, -, hc5, hp5⟩ :=
    init_loop_eq E re pattern mt (E.size_read v) hN hsel recs flags (E.size_read v) 0
      { pkgs := Ptr.to (calloc (E.size_read v + 1)), count := 0,
        db := { recs := recs, vcur := v },
        lock_fd := fd, flags := flags } [] (E.size_read v) (Nat.le_refl _) rfl rfl rfl rfl
  simp only [List.nil_append, ← List.range_eq_range'] at hc5 hp5
  have hlen : (selected E recs re pattern mt flags (E.size_read v)).length ≤ E.size_read v := by
    unfold selected
    calc ((List.range (E.size_read v)).filterMap _).length
        ≤ (List.range (E.size_read v)).length := List.length_filterMap_le _ _
      _ = E.size_read v := List.length_range _
  obtain ⟨k, hk⟩ : ∃ k, E.size_read v + 1
      - ((List.range (E.size_read v)).filterMap
          (select_at E recs re pattern mt flags (E.size_read v))).length = k + 1 :=
    ⟨E.size_read v - (selected E recs re pattern mt flags (E.size_read v)).length, by
      unfold selected at hlen ⊢; omega⟩
  rw [hk] at hp5
  obtain ⟨t, hfin, hperm, hsorted⟩ :=
    init_finish_eq db5 (selected E recs re pattern mt flags (E.size_read v)) k hp5 hc5 hnames
  refine ⟨t, db5.db.vcur, ?_, hperm, hsorted⟩
  unfold pkgdb_init pkgdb_open pkgdb_lock cdb_find
  simp only [hcache, hlock, hfd2, hcount, hpat, hre, if_false, slots_eq hN]
  simp only [show ¬ ((0 : Int) = -1) by decide, show ¬ ((1 : Int) ≤ 0) by decide, if_false]
  rw [h5]
  simp only [hfin]
  have hcount5 : db5.count = t.length := by
    rw [hc5, hperm.length_eq]
    rfl
  cases db5 with
  | mk pkgs5 count5 c5 lock5 flags5 =>
    cases c5 with
    | mk recs5 vcur5 =>
      simp only at hr5 hfl5 hcount5
      subst hr5 hfl5 hcount5
      rfl

/-! ## Facts about the selected records -/

theorem with_deps_fields (E : Env) (recs : List (Bytes × Bytes)) (flags : Nat) (p : pkg) :
    (with_deps E recs flags p).name_version = p.name_version ∧
      (with_deps E recs flags p).name = p.name ∧ (with_deps E recs flags p).idx = p.idx ∧
      (with_deps E recs flags p).rdeps = p.rdeps := by
  unfold with_deps
  split <;> simp

theorem with_rdeps_fields (E : Env) (recs : List (Bytes × Bytes)) (flags count : Nat) (p : pkg) :
    (with_rdeps E recs flags count p).name_version = p.name_version ∧
      (with_rdeps E recs flags count p).name = p.name ∧
      (with_rdeps E recs flags count p).idx = p.idx ∧
      (with_rdeps E recs flags count p).deps = p.deps := by
  unfold with_rdeps
  split <;> simp

theorem mem_selected {E : Env} {recs : List (Bytes × Bytes)} {re : Option (Bytes → Int)}
    {pattern : Option Bytes} {mt : match_t} {flags count : Nat} {P : pkg} :
    P ∈ selected E recs re pattern mt flags count ↔
      ∃ i < count, ∃ q, load E recs i = some q ∧ sel_of E re pattern mt q = 0 ∧
        P = with_rdeps E recs flags count (with_deps E recs flags q) := by
  unfold selected
  rw [List.mem_filterMap]
  constructor
  · rintro ⟨i, hi, h⟩
    refine ⟨i, List.mem_range.mp hi, ?_⟩
    unfold select_at at h
    cases hl : load E recs i with
    | none => simp [hl] at h
    | some q =>
      simp only [hl] at h
      by_cases hs : sel_of E re pattern mt q = 0
      · simp only [hs, if_true, Option.some.injEq] at h
        exact ⟨q, rfl, hs, h.symm⟩
      · simp [hs] at h
  · rintro ⟨i, hi, q, hl, hs, rfl⟩
    exact ⟨i, List.mem_range.mpr hi, by simp [select_at, hl, hs]⟩

theorem mem_selected_fields {E : Env} {recs : List (Bytes × Bytes)} {re : Option (Bytes → Int)}
    {pattern : Option Bytes} {mt : match_t} {flags count : Nat} {P : pkg}
    (h : P ∈ selected E recs re pattern mt flags count) :
    ∃ i < count, ∃ q, load E recs i = some q ∧ sel_of E re pattern mt q = 0 ∧
      P.name_version = q.name_version ∧ P.name = q.name ∧ P.idx = i ∧
      (flags &&& E.PKGDB_INIT_RDEPS ≠ 0 →
        P.rdeps = Ptr.to ((rdeps_list E recs q.name_version count).map some ++ [none])) := by
  obtain ⟨i, hi, q, hl, hs, rfl⟩ := mem_selected.mp h
  obtain ⟨h1, h2, h3, -⟩ := with_rdeps_fields E recs flags count (with_deps E recs flags q)
  obtain ⟨g1, g2, g3, -⟩ := with_deps_fields E recs flags q
  refine ⟨i, hi, q, hl, hs, by rw [h1, g1], by rw [h2, g2], by rw [h3, g3, (load_some hl).1], ?_⟩
  intro hf
  unfold with_rdeps
  rw [if_pos hf, g1]

theorem mem_rdeps_list {E : Env} {recs : List (Bytes × Bytes)} {t : Bytes} {n : Nat} {Q : pkg} :
    Q ∈ rdeps_list E recs t n ↔
      ∃ i < n, load E recs i = some Q ∧ t ∈ values recs (deps_key E Q.idx) := by
  unfold rdeps_list
  rw [List.mem_filterMap]
  constructor
  · rintro ⟨i, hi, h⟩
    refine ⟨i, List.mem_range.mp hi, ?_⟩
    unfold rdep_at at h
    cases hl : load E recs i with
    | none => simp [hl] at h
    | some q =>
      simp only [hl] at h
      by_cases hs : t ∈ values recs (deps_key E q.idx)
      · simp only [hs, if_true, Option.some.injEq] at h
        subst h
        exact ⟨rfl, hs⟩
      · simp [hs] at h
  · rintro ⟨i, hi, hl, hs⟩
    exact ⟨i, List.mem_range.mpr hi, by simp [rdep_at, hl, hs]⟩

theorem loaded_deps_eq (E : Env) (recs : List (Bytes × Bytes)) (q : pkg) :
    loaded_deps E recs q = (values recs (deps_key E q.idx)).map leaf := by
  obtain ⟨db1, -, h⟩ := pkgdb_deps_query_eq E (session recs) q
  unfold loaded_deps
  rw [h]
  simp only [deps_array, session]
  have e : List.map (fun v => some (leaf v)) (values recs (deps_key E q.idx))
      = List.map some ((values recs (deps_key E q.idx)).map leaf) := by
    simp
  rw [e]
  exact entries_map_some _ []

theorem name_fits {E : Env} {recs : List (Bytes × Bytes)} {i : Nat} {q : pkg}
    (hfit : (E.PKGDB_NAME i).length < E.BUFSIZ) (h : load E recs i = some q) :
    q.name ≠ none := by
  unfold load pkgdb_pkg_query session cdb_find db_get at h
  cases hv : values recs (E.idx_key i) with
  | nil => simp [hv] at h
  | cons v vs =>
    simp only [hv, Int.reduceLE, if_false, Option.some.injEq] at h
    subst h
    simp only [pkgdb_query_fst, query_val]
    have hlen : (E.PKGDB_NAME i).length = (List.take (E.BUFSIZ - 1) (E.PKGDB_NAME i)).length := by
      rw [List.length_take]
      omega
    simp [← hlen]

theorem selected_named {E : Env} {recs : List (Bytes × Bytes)} {re : Option (Bytes → Int)}
    {pattern : Option Bytes} {mt : match_t} {flags count : Nat}
    (hfit : ∀ i < count, (E.PKGDB_NAME i).length < E.BUFSIZ) :
    ∀ p ∈ selected E recs re pattern mt flags count, p.name ≠ none := by
  intro p hp
  obtain ⟨i, hi, q, hl, -, -, hn, -, -⟩ := mem_selected_fields hp
  rw [hn]
  exact name_fits (hfit i hi) hl

theorem leaf_fields (v : Bytes) : (leaf v).name_version = v ∧ (leaf v).errors = some 0 := by
  simp [leaf, dep_leaf, db_get]

theorem mem_loaded_deps {E : Env} {recs : List (Bytes × Bytes)} {Q : pkg} {t : Bytes} :
    (∃ d ∈ loaded_deps E recs Q, d.name_version = t ∧
        ∃ e, d.errors = some e ∧ e &&& E.PKGERR_NOT_INSTALLED = 0) ↔
      t ∈ values recs (deps_key E Q.idx) := by
  rw [loaded_deps_eq]
  constructor
  · rintro ⟨d, hd, hnv, -⟩
    obtain ⟨x, hx, rfl⟩ := List.mem_map.mp hd
    rw [(leaf_fields x).1] at hnv
    rw [← hnv]
    exact hx
  · intro ht
    exact ⟨leaf t, List.mem_map.mpr ⟨t, ht, rfl⟩, (leaf_fields t).1, 0, (leaf_fields t).2,
      Nat.zero_and _⟩

/-! ## The claims -/

/-- C1: when the store opens on `recs`, the lock is taken, the count key holds N below
SIZE_MAX, the selector is usable and the name keys fit the key buffer, `pkgdb_init` with the
reverse-dependency flag returns, and for every record P it leaves in the result and every
index i < N: the record loaded at index i is an entry of `P.rdeps` if and only if it loads
and the dependency list loaded for it holds an entry with P's identity whose not-installed
flag is clear; this is the case exactly when the values stored under its dependency key
contain P's identity. -/
theorem C1_rdeps_membership (E : Env) (db : pkgdb) (pattern : Option Bytes) (mt : match_t)
    (flags : Nat) (recs : List (Bytes × Bytes)) (fd : Int) (v : Bytes) (vs : List Bytes)
    (re : Option (Bytes → Int))
    (hcache : E.cache = some recs) (hlock : E.lock = some fd) (hfd : 0 ≤ fd)
    (hcount : values recs E.PKGDB_COUNT = v :: vs) (hN : E.size_read v < E.SIZE_MAX)
    (hpat : ¬ (mt ≠ match_t.MATCH_ALL ∧ pattern = none))
    (hre : init_regex E pattern mt = some re)
    (hfit : ∀ i < E.size_read v, (E.PKGDB_NAME i).length < E.BUFSIZ)
    (hflag : flags &&& E.PKGDB_INIT_RDEPS ≠ 0) :
    ∃ db1 a, pkgdb_init E db pattern mt flags = some db1 ∧ db1.pkgs = Ptr.to a ∧
      ∀ P ∈ entries a, ∃ r, P.rdeps = Ptr.to r ∧
        ∀ i < E.size_read v,
          ((∃ Q, load E recs i = some Q ∧ Q ∈ entries r) ↔
            (∃ Q, load E recs i = some Q ∧
              ∃ d ∈ loaded_deps E recs Q, d.name_version = P.name_version ∧
                ∃ e, d.errors = some e ∧ e &&& E.PKGERR_NOT_INSTALLED = 0)) ∧
          ((∃ Q, load E recs i = some Q ∧ Q ∈ entries r) ↔
            (∃ Q, load E recs i = some Q ∧
              P.name_version ∈ values recs (deps_key E Q.idx))) := by
  obtain ⟨t, w, hinit, hperm, -⟩ := pkgdb_init_loaded E db pattern mt flags recs fd v vs re
    hcache hlock hfd hcount hN hpat hre (selected_named hfit)
  refine ⟨_, _, hinit, rfl, ?_⟩
  intro P hP
  rw [entries_map_some t []] at hP
  obtain ⟨j, -, q, -, -, hnv, -, -, hr⟩ := mem_selected_fields (hperm.subset hP)
  refine ⟨_, hr hflag, ?_⟩
  intro i hi
  rw [entries_map_some _ [], hnv]
  have key : (∃ Q, load E recs i = some Q ∧ Q ∈ rdeps_list E recs q.name_version (E.size_read v)) ↔
      (∃ Q, load E recs i = some Q ∧ q.name_version ∈ values recs (deps_key E Q.idx)) := by
    constructor
    · rintro ⟨Q, hl, hm⟩
      obtain ⟨-, -, -, hv⟩ := mem_rdeps_list.mp hm
      exact ⟨Q, hl, hv⟩
    · rintro ⟨Q, hl, hv⟩
      exact ⟨Q, hl, mem_rdeps_list.mpr ⟨i, hi, hl, hv⟩⟩
  refine ⟨?_, key⟩
  rw [key]
  constructor
  · rintro ⟨Q, hl, hv⟩
    exact ⟨Q, hl, mem_loaded_deps.mpr hv⟩
  · rintro ⟨Q, hl, hd⟩
    exact ⟨Q, hl, mem_loaded_deps.mp hd⟩

/-- C2: when the store opens, the lock is taken, the count key holds N below SIZE_MAX, the
selector is usable and every record the selection loop retains has a name, the selection
loop of `pkgdb_init` returns with exactly the retained records in its array, `pkgdb_init`
returns, and the records it leaves in `db->pkgs[0..count)`, followed by the NULL terminator,
are a permutation of the retained ones, in ascending `strcmp` order of their names. -/
theorem C2_sorted_permutation (E : Env) (db : pkgdb) (pattern : Option Bytes) (mt : match_t)
    (flags : Nat) (recs : List (Bytes × Bytes)) (fd : Int) (v : Bytes) (vs : List Bytes)
    (re : Option (Bytes → Int))
    (hcache : E.cache = some recs) (hlock : E.lock = some fd) (hfd : 0 ≤ fd)
    (hcount : values recs E.PKGDB_COUNT = v :: vs) (hN : E.size_read v < E.SIZE_MAX)
    (hpat : ¬ (mt ≠ match_t.MATCH_ALL ∧ pattern = none))
    (hre : init_regex E pattern mt = some re)
    (hnames : ∀ p ∈ selected E recs re pattern mt flags (E.size_read v), p.name ≠ none) :
    ∃ db5 a5 db1 a, init_loop E re pattern mt (E.size_read v) (E.size_read v) 0
          (loop_entry E recs fd v flags) = some db5 ∧
      db5.pkgs = Ptr.to a5 ∧ (entries a5).length = db5.count ∧
      entries a5 = selected E recs re pattern mt flags (E.size_read v) ∧
      pkgdb_init E db pattern mt flags = some db1 ∧ db1.pkgs = Ptr.to a ∧
      (entries a).length = db1.count ∧ a.get? db1.count = some none ∧
      (entries a).Perm (entries a5) ∧ (entries a).Pairwise by_name := by
  have hsel := pkg_match_some E re pattern mt hpat hre
  obtain ⟨db5, h5, -, -, -, hc5, hp5⟩ :=
    init_loop_eq E re pattern mt (E.size_read v) hN hsel recs flags (E.size_read v) 0
      (loop_entry E recs fd v flags) [] (E.size_read v) (Nat.le_refl _)
      (by simp [loop_entry, calloc, slots_eq hN]) rfl rfl rfl
  simp only [List.nil_append, ← List.range_eq_range'] at hc5 hp5
  have hlen : ((List.range (E.size_read v)).filterMap
      (select_at E recs re pattern mt flags (E.size_read v))).length ≤ E.size_read v := by
    calc ((List.range (E.size_read v)).filterMap _).length
        ≤ (List.range (E.size_read v)).length := List.length_filterMap_le _ _
      _ = E.size_read v := List.length_range _
  obtain ⟨k, hk⟩ : ∃ k, E.size_read v + 1
      - ((List.range (E.size_read v)).filterMap
          (select_at E recs re pattern mt flags (E.size_read v))).length = k + 1 :=
    ⟨E.size_read v - ((List.range (E.size_read v)).filterMap
          (select_at E recs re pattern mt flags (E.size_read v))).length, by omega⟩
  rw [hk, List.replicate_succ] at hp5
  obtain ⟨t, w, hinit, hperm, hsorted⟩ := pkgdb_init_loaded E db pattern mt flags recs fd v vs
    re hcache hlock hfd hcount hN hpat hre hnames
  have hget := get_append (t.map some) none []
  rw [List.length_map] at hget
  refine ⟨db5, _, _, _, h5, hp5, ?_, ?_, hinit, rfl, ?_, hget, ?_, ?_⟩
  · rw [entries_map_some, hc5]
  · rw [entries_map_some]
    rfl
  · rw [entries_map_some t []]
  · rw [entries_map_some t [], entries_map_some]
    exact hperm
  · rw [entries_map_some t []]
    exact hsorted

/-- C1 at the store of the scenario (A depends on B, B, C depends on B), with every
record selected and the reverse-dependency flag set. -/
theorem C1_rdeps_membership_witness :
    ∃ db1 a, pkgdb_init (sample_env (some store_abc) (some 3)) (fresh 7) none
          match_t.MATCH_ALL 2 = some db1 ∧ db1.pkgs = Ptr.to a ∧
      ∀ P ∈ entries a, ∃ r, P.rdeps = Ptr.to r ∧
        ∀ i < (sample_env (some store_abc) (some 3)).size_read (le_bytes 8 3),
          ((∃ Q, load (sample_env (some store_abc) (some 3)) store_abc i = some Q ∧
              Q ∈ entries r) ↔
            (∃ Q, load (sample_env (some store_abc) (some 3)) store_abc i = some Q ∧
              ∃ d ∈ loaded_deps (sample_env (some store_abc) (some 3)) store_abc Q,
                d.name_version = P.name_version ∧
                ∃ e, d.errors = some e ∧
                  e &&& (sample_env (some store_abc) (some 3)).PKGERR_NOT_INSTALLED = 0)) ∧
          ((∃ Q, load (sample_env (some store_abc) (some 3)) store_abc i = some Q ∧
              Q ∈ entries r) ↔
            (∃ Q, load (sample_env (some store_abc) (some 3)) store_abc i = some Q ∧
              P.name_version ∈ values store_abc
                (deps_key (sample_env (some store_abc) (some 3)) Q.idx))) :=
  C1_rdeps_membership (sample_env (some store_abc) (some 3)) (fresh 7) none match_t.MATCH_ALL 2
    store_abc 3 (le_bytes 8 3) [] none rfl rfl (by decide) (by decide) (by decide) (by decide)
    rfl (by decide) (by decide)

/-- C2 at the store of the scenario, with every record selected. -/
theorem C2_sorted_permutation_witness :
    ∃ db5 a5 db1 a, init_loop (sample_env (some store_abc) (some 3)) none none
          match_t.MATCH_ALL
          ((sample_env (some store_abc) (some 3)).size_read (le_bytes 8 3))
          ((sample_env (some store_abc) (some 3)).size_read (le_bytes 8 3)) 0
          (loop_entry (sample_env (some store_abc) (some 3)) store_abc 3
            (le_bytes 8 3) 0) = some db5 ∧
      db5.pkgs = Ptr.to a5 ∧ (entries a5).length = db5.count ∧
      entries a5 = selected (sample_env (some store_abc) (some 3)) store_abc none none
        match_t.MATCH_ALL 0 ((sample_env (some store_abc) (some 3)).size_read (le_bytes 8 3)) ∧
      pkgdb_init (sample_env (some store_abc) (some 3)) (fresh 7) none
          match_t.MATCH_ALL 0 = some db1 ∧ db1.pkgs = Ptr.to a ∧
      (entries a).length = db1.count ∧ a.get? db1.count = some none ∧
      (entries a).Perm (entries a5) ∧ (entries a).Pairwise by_name :=
  C2_sorted_permutation (sample_env (some store_abc) (some 3)) (fresh 7) none match_t.MATCH_ALL 0
    store_abc 3 (le_bytes 8 3) [] none rfl rfl (by decide) (by decide) (by decide) (by decide)
    rfl (by decide)

theorem length_filterMap_add (f : Nat → Option pkg) (l : List Nat) :
    (l.filterMap f).length + (l.filter (fun i => (f i).isNone)).length = l.length := by
  induction l with
  | nil => rfl
  | cons a as ih =>
    cases h : f a with
    | none =>
      simp only [List.filterMap_cons, h, List.filter_cons, Option.isNone_none, if_true,
        List.length_cons]
      omega
    | some b =>
      simp only [List.filterMap_cons, h, List.filter_cons, Option.isNone_some,
        Bool.false_eq_true, if_false, List.length_cons]
      omega

theorem sel_of_all (E : Env) (re : Option (Bytes → Int)) (pattern : Option Bytes) (p : pkg) :
    sel_of E re pattern match_t.MATCH_ALL p = 0 := by
  simp [sel_of, pkg_match]

theorem sel_of_exact (E : Env) (re : Option (Bytes → Int)) (s : Bytes) (p : pkg) :
    sel_of E re (some s) match_t.MATCH_EXACT p = strcmp p.name_version s := by
  simp [sel_of, pkg_match]

theorem sel_of_glob (E : Env) (re : Option (Bytes → Int)) (g : Bytes) (p : pkg) :
    sel_of E re (some g) match_t.MATCH_GLOB p = E.fnmatch g p.name_version := by
  simp [sel_of, pkg_match]

/-- C3: when the store opens, the lock is taken, the count key holds N below SIZE_MAX and
the name keys fit the key buffer, `pkgdb_init` with MATCH_ALL (any pattern, none included)
returns and leaves `pkgdb_count` equal to N minus the number of indices i < N at which
`pkgdb_pkg_query` returns absent; an index below N has a record in the result exactly when
it loads. -/
theorem C3_match_all_count (E : Env) (db : pkgdb) (pattern : Option Bytes) (flags : Nat)
    (recs : List (Bytes × Bytes)) (fd : Int) (v : Bytes) (vs : List Bytes)
    (hcache : E.cache = some recs) (hlock : E.lock = some fd) (hfd : 0 ≤ fd)
    (hcount : values recs E.PKGDB_COUNT = v :: vs) (hN : E.size_read v < E.SIZE_MAX)
    (hfit : ∀ i < E.size_read v, (E.PKGDB_NAME i).length < E.BUFSIZ) :
    ∃ db1 a, pkgdb_init E db pattern match_t.MATCH_ALL flags = some db1 ∧
      db1.pkgs = Ptr.to a ∧ (entries a).length = pkgdb_count db1 ∧
      pkgdb_count db1 = E.size_read v
        - ((List.range (E.size_read v)).filter (fun i => (load E recs i).isNone)).length ∧
      (∀ i < E.size_read v, (∃ p ∈ entries a, p.idx = i) ↔ (load E recs i).isSome) ∧
      (∀ p ∈ entries a, p.idx < E.size_read v) := by
  obtain ⟨t, w, hinit, hperm, -⟩ := pkgdb_init_loaded E db pattern match_t.MATCH_ALL flags recs
    fd v vs none hcache hlock hfd hcount hN (by simp) rfl (selected_named hfit)
  refine ⟨_, _, hinit, rfl, ?_, ?_, ?_, ?_⟩
  · rw [entries_map_some t []]; rfl
  · have h1 := length_filterMap_add
      (select_at E recs none pattern match_t.MATCH_ALL flags (E.size_read v))
      (List.range (E.size_read v))
    have h2 : (fun i => (select_at E recs none pattern match_t.MATCH_ALL flags
        (E.size_read v) i).isNone) = (fun i => (load E recs i).isNone) := by
      funext i
      unfold select_at
      cases load E recs i <;> simp [sel_of_all]
    rw [h2, List.length_range] at h1
    have h3 : t.length = ((List.range (E.size_read v)).filterMap
        (select_at E recs none pattern match_t.MATCH_ALL flags (E.size_read v))).length :=
      hperm.length_eq
    simp only [pkgdb_count]
    omega
  · intro i hi
    rw [entries_map_some t []]
    constructor
    · rintro ⟨p, hp, hidx⟩
      obtain ⟨j, -, q, hl, -, -, -, hj, -⟩ := mem_selected_fields (hperm.subset hp)
      rw [← hidx, hj, hl]
      rfl
    · intro hl
      obtain ⟨q, hq⟩ := Option.isSome_iff_exists.mp hl
      refine ⟨_, hperm.symm.subset (mem_selected.mpr ⟨i, hi, q, hq, sel_of_all E none pattern q,
        rfl⟩), ?_⟩
      rw [(with_rdeps_fields E recs flags _ _).2.2.1, (with_deps_fields E recs flags q).2.2.1]
      exact (load_some hq).1
  · intro p hp
    rw [entries_map_some t []] at hp
    obtain ⟨j, hj, q, -, -, -, -, hidx, -⟩ := mem_selected_fields (hperm.subset hp)
    rw [hidx]
    exact hj

/-- C3 at the store of the scenario. -/
theorem C3_match_all_count_witness :
    ∃ db1 a, pkgdb_init (sample_env (some store_abc) (some 3)) (fresh 7) none
          match_t.MATCH_ALL 0 = some db1 ∧
      db1.pkgs = Ptr.to a ∧ (entries a).length = pkgdb_count db1 ∧
      pkgdb_count db1 = (sample_env (some store_abc) (some 3)).size_read (le_bytes 8 3)
        - ((List.range ((sample_env (some store_abc) (some 3)).size_read (le_bytes 8 3))).filter
            (fun i => (load (sample_env (some store_abc) (some 3)) store_abc i).isNone)).length ∧
      (∀ i < (sample_env (some store_abc) (some 3)).size_read (le_bytes 8 3),
        (∃ p ∈ entries a, p.idx = i) ↔
          (load (sample_env (some store_abc) (some 3)) store_abc i).isSome) ∧
      (∀ p ∈ entries a, p.idx < (sample_env (some store_abc) (some 3)).size_read (le_bytes 8 3)) :=
  C3_match_all_count (sample_env (some store_abc) (some 3)) (fresh 7) none 0 store_abc 3
    (le_bytes 8 3) [] rfl rfl (by decide) (by decide) (by decide) (by decide)

/-- C4: when the store opens, the lock is taken, the count key holds N below SIZE_MAX and
the name keys fit the key buffer, `pkgdb_init` with MATCH_EXACT and pattern `s` returns; a
record with identity `s` is in the result if and only if some index i < N loads a record
whose identity equals `s`, and every record in the result has identity `s`. -/
theorem C4_match_exact (E : Env) (db : pkgdb) (s : Bytes) (flags : Nat)
    (recs : List (Bytes × Bytes)) (fd : Int) (v : Bytes) (vs : List Bytes)
    (hcache : E.cache = some recs) (hlock : E.lock = some fd) (hfd : 0 ≤ fd)
    (hcount : values recs E.PKGDB_COUNT = v :: vs) (hN : E.size_read v < E.SIZE_MAX)
    (hfit : ∀ i < E.size_read v, (E.PKGDB_NAME i).length < E.BUFSIZ) :
    ∃ db1 a, pkgdb_init E db (some s) match_t.MATCH_EXACT flags = some db1 ∧
      db1.pkgs = Ptr.to a ∧
      ((∃ p ∈ entries a, p.name_version = s) ↔
        (∃ i < E.size_read v, ∃ q, load E recs i = some q ∧ q.name_version = s)) ∧
      (∀ p ∈ entries a, p.name_version = s) := by
  obtain ⟨t, w, hinit, hperm, -⟩ := pkgdb_init_loaded E db (some s) match_t.MATCH_EXACT flags
    recs fd v vs none hcache hlock hfd hcount hN (by simp) rfl (selected_named hfit)
  have hall : ∀ p ∈ t, p.name_version = s := by
    intro p hp
    obtain ⟨j, -, q, -, hs, hnv, -, -, -⟩ := mem_selected_fields (hperm.subset hp)
    rw [sel_of_exact] at hs
    rw [hnv]
    exact strcmp_eq_zero.mp hs
  refine ⟨_, _, hinit, rfl, ?_, ?_⟩
  · rw [entries_map_some t []]
    constructor
    · rintro ⟨p, hp, -⟩
      obtain ⟨j, hj, q, hl, hs, -, -, -, -⟩ := mem_selected_fields (hperm.subset hp)
      rw [sel_of_exact] at hs
      exact ⟨j, hj, q, hl, strcmp_eq_zero.mp hs⟩
    · rintro ⟨i, hi, q, hl, hq⟩
      have hs : sel_of E none (some s) match_t.MATCH_EXACT q = 0 := by
        rw [sel_of_exact]
        exact strcmp_eq_zero.mpr hq
      have hm := hperm.symm.subset (mem_selected.mpr ⟨i, hi, q, hl, hs, rfl⟩)
      exact ⟨_, hm, hall _ hm⟩
  · rw [entries_map_some t []]
    exact hall

/-- C4 at the store of the scenario, with pattern "C-1". -/
theorem C4_match_exact_witness :
    ∃ db1 a, pkgdb_init (sample_env (some store_abc) (some 3)) (fresh 7) (some (str "C-1"))
          match_t.MATCH_EXACT 0 = some db1 ∧
      db1.pkgs = Ptr.to a ∧
      ((∃ p ∈ entries a, p.name_version = str "C-1") ↔
        (∃ i < (sample_env (some store_abc) (some 3)).size_read (le_bytes 8 3), ∃ q,
          load (sample_env (some store_abc) (some 3)) store_abc i = some q ∧
            q.name_version = str "C-1")) ∧
      (∀ p ∈ entries a, p.name_version = str "C-1") :=
  C4_match_exact (sample_env (some store_abc) (some 3)) (fresh 7) (str "C-1") 0 store_abc 3
    (le_bytes 8 3) [] rfl rfl (by decide) (by decide) (by decide) (by decide)

theorem selected_ids_nodup {E : Env} {recs : List (Bytes × Bytes)} {re : Option (Bytes → Int)}
    {pattern : Option Bytes} {mt : match_t} {flags count : Nat}
    (hinj : ∀ i < count, ∀ j < count, ∀ p q, load E recs i = some p → load E recs j = some q →
      p.name_version = q.name_version → i = j) :
    ((selected E recs re pattern mt flags count).map pkg.name_version).Nodup := by
  refine List.Nodup.map_on ?_ ?_
  · intro x hx y hy hxy
    obtain ⟨i, hi, p, hp, hsp, rfl⟩ := mem_selected.mp hx
    obtain ⟨j, hj, q, hq, hsq, rfl⟩ := mem_selected.mp hy
    rw [(with_rdeps_fields E recs flags count _).1, (with_deps_fields E recs flags p).1,
      (with_rdeps_fields E recs flags count _).1, (with_deps_fields E recs flags q).1] at hxy
    have hij := hinj i hi j hj p q hp hq hxy
    subst hij
    rw [hp] at hq
    cases hq
    rfl
  · unfold selected
    refine List.Nodup.filterMap ?_ (List.nodup_range count)
    intro a a' b hb hb'
    have h1 : b.idx = a := by
      unfold select_at at hb
      cases hl : load E recs a with
      | none => simp [hl] at hb
      | some q =>
        simp only [hl] at hb
        split at hb
        · simp only [Option.mem_def, Option.some.injEq] at hb
          subst hb
          rw [(with_rdeps_fields E recs flags count _).2.2.1,
            (with_deps_fields E recs flags q).2.2.1]
          exact (load_some hl).1
        · simp at hb
    have h2 : b.idx = a' := by
      unfold select_at at hb'
      cases hl : load E recs a' with
      | none => simp [hl] at hb'
      | some q =>
        simp only [hl] at hb'
        split at hb'
        · simp only [Option.mem_def, Option.some.injEq] at hb'
          subst hb'
          rw [(with_rdeps_fields E recs flags count _).2.2.1,
            (with_deps_fields E recs flags q).2.2.1]
          exact (load_some hl).1
        · simp at hb'
    rw [← h1, ← h2]

theorem selected_idx_nodup {E : Env} {recs : List (Bytes × Bytes)} {re : Option (Bytes → Int)}
    {pattern : Option Bytes} {mt : match_t} {flags count : Nat} :
    ((selected E recs re pattern mt flags count).map pkg.idx).Nodup := by
  have hsub : ((selected E recs re pattern mt flags count).map pkg.idx).Sublist
      (List.range count) := by
    unfold selected
    generalize List.range count = l
    induction l with
    | nil => exact List.Sublist.refl _
    | cons a as ih =>
      rw [List.filterMap_cons]
      cases h : select_at E recs re pattern mt flags count a with
      | none => exact ih.cons a
      | some b =>
        have hb : b.idx = a := by
          unfold select_at at h
          cases hl : load E recs a with
          | none => simp [hl] at h
          | some q =>
            simp only [hl] at h
            split at h
            · simp only [Option.some.injEq] at h
              subst h
              rw [(with_rdeps_fields E recs flags count _).2.2.1,
                (with_deps_fields E recs flags q).2.2.1]
              exact (load_some hl).1
            · simp at h
        simp only [List.map_cons, hb]
        exact ih.cons₂ a
  exact hsub.nodup (List.nodup_range count)

/-- C5, the claim as stated fails: over a store whose two records carry the identity
"foo-1.0", `pkgdb_init` with MATCH_EXACT and pattern "foo-1.0" leaves two packages with
that identity. -/
theorem C5_duplicate_identities :
    identities (pkgdb_init (sample_env (some store_dup) (some 3)) (fresh 0)
        (some (str "foo-1.0")) match_t.MATCH_EXACT 0) = [str "foo-1.0", str "foo-1.0"] ∧
      ¬ (identities (pkgdb_init (sample_env (some store_dup) (some 3)) (fresh 0)
        (some (str "foo-1.0")) match_t.MATCH_EXACT 0)).Nodup ∧
      (pkgdb_init (sample_env (some store_dup) (some 3)) (fresh 0)
        (some (str "foo-1.0")) match_t.MATCH_EXACT 0).map pkgdb_count = some 2 := by
  decide

/-- C5 as amended: when the store opens, the lock is taken, the count key holds N below
SIZE_MAX, the selector is usable, the name keys fit the key buffer, and the records that
load at the indices below N carry pairwise distinct identities, `pkgdb_init` returns a
result with no two packages of the same identity; with MATCH_EXACT it then holds at most one
package. -/
theorem C5_no_duplicates_amended (E : Env) (db : pkgdb) (pattern : Option Bytes) (mt : match_t)
    (flags : Nat) (recs : List (Bytes × Bytes)) (fd : Int) (v : Bytes) (vs : List Bytes)
    (re : Option (Bytes → Int))
    (hcache : E.cache = some recs) (hlock : E.lock = some fd) (hfd : 0 ≤ fd)
    (hcount : values recs E.PKGDB_COUNT = v :: vs) (hN : E.size_read v < E.SIZE_MAX)
    (hpat : ¬ (mt ≠ match_t.MATCH_ALL ∧ pattern = none))
    (hre : init_regex E pattern mt = some re)
    (hfit : ∀ i < E.size_read v, (E.PKGDB_NAME i).length < E.BUFSIZ)
    (hinj : ∀ i < E.size_read v, ∀ j < E.size_read v, ∀ p q, load E recs i = some p →
      load E recs j = some q → p.name_version = q.name_version → i = j) :
    ∃ db1 a, pkgdb_init E db pattern mt flags = some db1 ∧ db1.pkgs = Ptr.to a ∧
      (entries a).length = pkgdb_count db1 ∧
      ((entries a).map pkg.name_version).Nodup ∧
      (mt = match_t.MATCH_EXACT → pkgdb_count db1 ≤ 1) := by
  obtain ⟨t, w, hinit, hperm, -⟩ := pkgdb_init_loaded E db pattern mt flags recs fd v vs re
    hcache hlock hfd hcount hN hpat hre (selected_named hfit)
  have hnd : (t.map pkg.name_version).Nodup :=
    ((hperm.map pkg.name_version).nodup_iff).mpr (selected_ids_nodup hinj)
  refine ⟨_, _, hinit, rfl, ?_, ?_, ?_⟩
  · rw [entries_map_some t []]; rfl
  · rw [entries_map_some t []]
    exact hnd
  · intro hmt
    subst hmt
    simp only [pkgdb_count]
    cases pattern with
    | none => simp at hpat
    | some s =>
      have hall : ∀ p ∈ t, p.name_version = s := by
        intro p hp
        obtain ⟨j, -, q, -, hs, hnv, -, -, -⟩ := mem_selected_fields (hperm.subset hp)
        rw [sel_of_exact] at hs
        rw [hnv]
        exact strcmp_eq_zero.mp hs
      match t, hnd, hall with
      | [], _, _ => simp
      | [_], _, _ => simp
      | x :: y :: rest, hnd, hall =>
        exfalso
        have hx := hall x (by simp)
        have hy := hall y (by simp)
        simp only [List.map_cons, List.nodup_cons, List.mem_cons, not_or] at hnd
        exact hnd.1.1 (by rw [hx, hy])

/-- C5 as amended, at the store of the scenario with pattern "B-1". -/
theorem C5_no_duplicates_amended_witness :
    ∃ db1 a, pkgdb_init (sample_env (some store_abc) (some 3)) (fresh 7) (some (str "B-1"))
          match_t.MATCH_EXACT 3 = some db1 ∧ db1.pkgs = Ptr.to a ∧
      (entries a).length = pkgdb_count db1 ∧
      ((entries a).map pkg.name_version).Nodup ∧
      (match_t.MATCH_EXACT = match_t.MATCH_EXACT → pkgdb_count db1 ≤ 1) :=
  C5_no_duplicates_amended (sample_env (some store_abc) (some 3)) (fresh 7) (some (str "B-1"))
    match_t.MATCH_EXACT 3 store_abc 3 (le_bytes 8 3) [] none rfl rfl (by decide) (by decide)
    (by decide) (by decide) rfl (by decide)
    (by
      intro i hi j hj p q hp hq hpq
      have hi3 : i < 3 := hi
      have hj3 : j < 3 := hj
      have h1 := (load_some hp).2.2.2
      have h2 := (load_some hq).2.2.2
      rw [h1, h2] at hpq
      interval_cases i <;> interval_cases j <;> first | rfl | (exfalso; revert hpq; decide))

/-- C6: for every session and record P, `pkgdb_deps_query` returns with `P.deps` a
NULL-terminated array whose entries carry, element for element and in store order, the
values the store enumerates under the key `snprintf` builds from `PKGDB_DEPS` and `P.idx`
(the whole formatted text whenever it fits the key buffer); the array has one slot per
value and the terminator. -/
theorem C6_deps_in_store_order (E : Env) (db : pkgdb) (P : pkg) :
    ∃ P1 db1 a, pkgdb_deps_query E db P = some (P1, db1) ∧ P1.deps = Ptr.to a ∧
      (entries a).map pkg.name_version = values db.db.recs (deps_key E P.idx) ∧
      a.length = (values db.db.recs (deps_key E P.idx)).length + 1 ∧
      a.get? (values db.db.recs (deps_key E P.idx)).length = some none ∧
      ((E.PKGDB_DEPS P.idx).length < E.BUFSIZ → deps_key E P.idx = E.PKGDB_DEPS P.idx) := by
  obtain ⟨db1, -, h⟩ := pkgdb_deps_query_eq E db P
  refine ⟨_, db1, _, h, rfl, ?_, ?_, ?_, ?_⟩
  · have e : deps_array (values db.db.recs (deps_key E P.idx))
        = List.map some ((values db.db.recs (deps_key E P.idx)).map leaf) ++ [none] := by
      simp [deps_array]
    rw [e, entries_map_some _ [], List.map_map]
    have : (pkg.name_version ∘ leaf) = id := by
      funext x
      exact (leaf_fields x).1
    rw [this, List.map_id]
  · simp [deps_array]
  · have := get_append ((values db.db.recs (deps_key E P.idx)).map (fun v => some (leaf v)))
      none []
    rw [List.length_map] at this
    exact this
  · intro hfit
    unfold deps_key
    exact List.take_of_length_le (by omega)

theorem rdeps_list_idx_sorted (E : Env) (recs : List (Bytes × Bytes)) (t : Bytes) (n : Nat) :
    ((rdeps_list E recs t n).map pkg.idx).Pairwise (· < ·) := by
  have hsub : ((rdeps_list E recs t n).map pkg.idx).Sublist (List.range n) := by
    unfold rdeps_list
    generalize List.range n = l
    induction l with
    | nil => exact List.Sublist.refl _
    | cons a as ih =>
      rw [List.filterMap_cons]
      cases h : rdep_at E recs t a with
      | none => exact ih.cons a
      | some b =>
        have hb : b.idx = a := by
          unfold rdep_at at h
          cases hl : load E recs a with
          | none => simp [hl] at h
          | some q =>
            simp only [hl] at h
            split at h
            · simp only [Option.some.injEq] at h
              subst h
              exact (load_some hl).1
            · simp at h
        simp only [List.map_cons, hb]
        exact ih.cons₂ a
  exact List.Pairwise.sublist hsub (List.pairwise_lt_range n)

/-- C7: for every session, record P and count N below SIZE_MAX, `pkgdb_rdeps_query`
returns with `P.rdeps` a compact array: the retained records followed by the NULL
terminator and nothing else.  Their candidate indices are below N and strictly increasing
along the array, so no candidate occurs twice however often its dependency values name P;
each retained record is the one loaded at its index, and its dependency values name P. -/
theorem C7_rdeps_compact_ordered (E : Env) (db : pkgdb) (P : pkg) (N : Nat)
    (hN : N < E.SIZE_MAX) :
    ∃ P1 db1 R, pkgdb_rdeps_query E db P N = some (P1, db1) ∧
      P1.rdeps = Ptr.to (List.map some R ++ [none]) ∧
      (R.map pkg.idx).Pairwise (· < ·) ∧ (∀ q ∈ R, q.idx < N) ∧
      (∀ q ∈ R, load E db.db.recs q.idx = some q ∧
        P.name_version ∈ values db.db.recs (deps_key E q.idx)) := by
  obtain ⟨db1, -, h⟩ := pkgdb_rdeps_query_eq E db P N hN
  refine ⟨_, db1, rdeps_list E db.db.recs P.name_version N, h, rfl,
    rdeps_list_idx_sorted E db.db.recs P.name_version N, ?_, ?_⟩
  · intro q hq
    obtain ⟨i, hi, hl, -⟩ := mem_rdeps_list.mp hq
    rw [(load_some hl).1]
    exact hi
  · intro q hq
    obtain ⟨i, hi, hl, hv⟩ := mem_rdeps_list.mp hq
    refine ⟨?_, hv⟩
    rw [(load_some hl).1]
    exact hl

/-- C7 in the scenario (0: A depends on B, 1: B, 2: C depends on B, count 3): MATCH_ALL
with the reverse-dependency flag gives B the reverse dependencies [A, C] and none to A and
C; and the general statement at the record B over that store. -/
theorem C7_rdeps_compact_ordered_witness :
    rdeps_identities (pkgdb_init (sample_env (some store_abc) (some 3)) (fresh 0) none
        match_t.MATCH_ALL 2)
      = [(str "A-1", []), (str "B-1", [str "A-1", str "C-1"]), (str "C-1", [])] ∧
    ∃ P1 db1 R, pkgdb_rdeps_query (sample_env (some store_abc) (some 3)) (session store_abc)
          (leaf (str "B-1")) 3 = some (P1, db1) ∧
      P1.rdeps = Ptr.to (List.map some R ++ [none]) ∧
      (R.map pkg.idx).Pairwise (· < ·) ∧ (∀ q ∈ R, q.idx < 3) ∧
      (∀ q ∈ R, load (sample_env (some store_abc) (some 3)) (session store_abc).db.recs q.idx
          = some q ∧
        (leaf (str "B-1")).name_version ∈ values (session store_abc).db.recs
          (deps_key (sample_env (some store_abc) (some 3)) q.idx)) :=
  ⟨by decide,
    C7_rdeps_compact_ordered (sample_env (some store_abc) (some 3)) (session store_abc)
      (leaf (str "B-1")) 3 (by decide)⟩

/-- C8: when the store opens, the lock is taken, the count key holds N below SIZE_MAX and
the name keys fit the key buffer, `pkgdb_init` with MATCH_GLOB and pattern `g` returns; a
record that loads at an index i < N is in the result if and only if `fnmatch(g, identity,
0)` is 0, every record in the result is one of those, each index occurs once, and the result
is in ascending `strcmp` order of the names. -/
theorem C8_match_glob (E : Env) (db : pkgdb) (g : Bytes) (flags : Nat)
    (recs : List (Bytes × Bytes)) (fd : Int) (v : Bytes) (vs : List Bytes)
    (hcache : E.cache = some recs) (hlock : E.lock = some fd) (hfd : 0 ≤ fd)
    (hcount : values recs E.PKGDB_COUNT = v :: vs) (hN : E.size_read v < E.SIZE_MAX)
    (hfit : ∀ i < E.size_read v, (E.PKGDB_NAME i).length < E.BUFSIZ) :
    ∃ db1 a, pkgdb_init E db (some g) match_t.MATCH_GLOB flags = some db1 ∧
      db1.pkgs = Ptr.to a ∧ (entries a).length = pkgdb_count db1 ∧
      (∀ i < E.size_read v, ∀ q, load E recs i = some q →
        ((∃ p ∈ entries a, p.idx = i) ↔ E.fnmatch g q.name_version = 0)) ∧
      (∀ p ∈ entries a, p.idx < E.size_read v ∧
        ∃ q, load E recs p.idx = some q ∧ E.fnmatch g q.name_version = 0 ∧
          p.name_version = q.name_version ∧ p.name = q.name) ∧
      ((entries a).map pkg.idx).Nodup ∧ (entries a).Pairwise by_name := by
  obtain ⟨t, w, hinit, hperm, hsorted⟩ := pkgdb_init_loaded E db (some g) match_t.MATCH_GLOB
    flags recs fd v vs none hcache hlock hfd hcount hN (by simp) rfl (selected_named hfit)
  refine ⟨_, _, hinit, rfl, ?_, ?_, ?_, ?_, ?_⟩
  · rw [entries_map_some t []]; rfl
  · intro i hi q hl
    rw [entries_map_some t []]
    constructor
    · rintro ⟨p, hp, hidx⟩
      obtain ⟨j, -, q1, hl1, hs, -, -, hj, -⟩ := mem_selected_fields (hperm.subset hp)
      rw [hidx] at hj
      subst hj
      rw [hl] at hl1
      cases hl1
      rw [sel_of_glob] at hs
      exact hs
    · intro hm
      have hs : sel_of E none (some g) match_t.MATCH_GLOB q = 0 := by
        rw [sel_of_glob]
        exact hm
      refine ⟨_, hperm.symm.subset (mem_selected.mpr ⟨i, hi, q, hl, hs, rfl⟩), ?_⟩
      rw [(with_rdeps_fields E recs flags _ _).2.2.1, (with_deps_fields E recs flags q).2.2.1]
      exact (load_some hl).1
  · intro p hp
    rw [entries_map_some t []] at hp
    obtain ⟨j, hj, q, hl, hs, hnv, hn, hidx, -⟩ := mem_selected_fields (hperm.subset hp)
    rw [sel_of_glob] at hs
    rw [hidx]
    exact ⟨hj, q, hl, hs, hnv, hn⟩
  · rw [entries_map_some t []]
    exact ((hperm.map pkg.idx).nodup_iff).mpr selected_idx_nodup
  · rw [entries_map_some t []]
    exact hsorted

/-- C8 in the scenario: pattern "lib*" over the records libfoo-1, bar-1, libbaz-2 leaves
[libbaz-2, libfoo-1]. -/
theorem C8_match_glob_witness :
    identities (pkgdb_init (sample_env (some store_lib) (some 3)) (fresh 0) (some (str "lib*"))
        match_t.MATCH_GLOB 0) = [str "libbaz-2", str "libfoo-1"] ∧
    ∃ db1 a, pkgdb_init (sample_env (some store_lib) (some 3)) (fresh 0) (some (str "lib*"))
          match_t.MATCH_GLOB 0 = some db1 ∧
      db1.pkgs = Ptr.to a ∧ (entries a).length = pkgdb_count db1 ∧
      (∀ i < (sample_env (some store_lib) (some 3)).size_read (le_bytes 8 3), ∀ q,
        load (sample_env (some store_lib) (some 3)) store_lib i = some q →
        ((∃ p ∈ entries a, p.idx = i) ↔
          (sample_env (some store_lib) (some 3)).fnmatch (str "lib*") q.name_version = 0)) ∧
      (∀ p ∈ entries a, p.idx < (sample_env (some store_lib) (some 3)).size_read (le_bytes 8 3) ∧
        ∃ q, load (sample_env (some store_lib) (some 3)) store_lib p.idx = some q ∧
          (sample_env (some store_lib) (some 3)).fnmatch (str "lib*") q.name_version = 0 ∧
          p.name_version = q.name_version ∧ p.name = q.name) ∧
      ((entries a).map pkg.idx).Nodup ∧ (entries a).Pairwise by_name :=
  ⟨by decide,
    C8_match_glob (sample_env (some store_lib) (some 3)) (fresh 0) (str "lib*") 0 store_lib 3
      (le_bytes 8 3) [] rfl rfl (by decide) (by decide) (by decide) (by decide)⟩

/-- C9: when the store opens and the lock is taken, and `pkgdb_init` stops in its
validation (a mode other than MATCH_ALL without a pattern, no count key in the store, or a
regular expression `regcomp` rejects), it returns with `pkgdb_count` equal to 0 and no
package added: `db->pkgs` is as the call found it or a fresh array without entries. -/
theorem C9_validation_failure (E : Env) (db : pkgdb) (pattern : Option Bytes) (mt : match_t)
    (flags : Nat) (recs : List (Bytes × Bytes)) (fd : Int)
    (hcache : E.cache = some recs) (hlock : E.lock = some fd) (hfd : 0 ≤ fd)
    (hfail : (mt ≠ match_t.MATCH_ALL ∧ pattern = none) ∨ values recs E.PKGDB_COUNT = [] ∨
      (∃ s, pattern = some s ∧
        ((mt = match_t.MATCH_REGEX ∧ E.regcomp s false = none) ∨
          (mt = match_t.MATCH_EREGEX ∧ E.regcomp s true = none)))) :
    ∃ db1, pkgdb_init E db pattern mt flags = some db1 ∧ pkgdb_count db1 = 0 ∧
      (db1.pkgs = (E.pkgdb_cache_update db).pkgs ∨
        ∃ a, db1.pkgs = Ptr.to a ∧ entries a = []) := by
  have hfd2 : ¬ fd < 0 := by omega
  unfold pkgdb_init pkgdb_open pkgdb_lock cdb_find
  simp only [hcache, hlock, hfd2, if_false, show ¬ ((0 : Int) = -1) by decide]
  by_cases hpat : mt ≠ match_t.MATCH_ALL ∧ pattern = none
  · rw [if_pos hpat]
    exact ⟨_, rfl, rfl, Or.inl rfl⟩
  · rw [if_neg hpat]
    cases hv : values recs E.PKGDB_COUNT with
    | nil =>
      simp only [Int.le_refl, if_true]
      exact ⟨_, rfl, rfl, Or.inl rfl⟩
    | cons v vs =>
      simp only [show ¬ ((1 : Int) ≤ 0) by decide, if_false]
      rcases hfail with h | h | ⟨s, hs, h⟩
      · exact absurd h hpat
      · rw [hv] at h
        cases h
      · have hre : init_regex E pattern mt = none := by
          rcases h with ⟨hm, hr⟩ | ⟨hm, hr⟩ <;> simp [init_regex, hm, hs, hr]
        simp only [hre]
        refine ⟨_, rfl, rfl, Or.inr ⟨_, rfl, ?_⟩⟩
        unfold calloc
        cases slots E (E.size_read v) <;> simp [List.replicate_succ, entries]

/-- C9 at a store without the count key, on a session whose count was 7. -/
theorem C9_validation_failure_witness :
    ∃ db1, pkgdb_init (sample_env (some store_nocount) (some 3)) (fresh 7) none
          match_t.MATCH_ALL 0 = some db1 ∧ pkgdb_count db1 = 0 ∧
      (db1.pkgs = ((sample_env (some store_nocount) (some 3)).pkgdb_cache_update (fresh 7)).pkgs ∨
        ∃ a, db1.pkgs = Ptr.to a ∧ entries a = []) :=
  C9_validation_failure (sample_env (some store_nocount) (some 3)) (fresh 7) none
    match_t.MATCH_ALL 0 store_nocount 3 rfl rfl (by decide) (Or.inr (Or.inl (by decide)))

theorem pkgdb_init_open_fails (E : Env) (db : pkgdb) (pattern : Option Bytes) (mt : match_t)
    (flags : Nat) (hcache : E.cache = none) :
    pkgdb_init E db pattern mt flags = some (E.pkgdb_cache_update db) := by
  unfold pkgdb_init pkgdb_open
  simp [hcache]

/-- C10, the code at the failing input: the cache file cannot be opened and the session
holds the count 5 when `pkgdb_init` is called; `pkgdb_init` returns at line 241, before
`db->count = 0`, and `pkgdb_count` answers 5 afterwards. -/
theorem C10_open_failure_keeps_count :
    (pkgdb_init (sample_env none (some 3)) (fresh 5) none match_t.MATCH_ALL 0).map pkgdb_count
      = some 5 := by
  decide

/-- C11, the code at a failing input: the store opens, the lock is taken on descriptor 3,
and the store has no count key; `pkgdb_init` returns at line 255 with the lock descriptor
still 3, not -1.  (The same holds at the returns of lines 250, 265 and 270; only the
completed load reaches `pkgdb_unlock`, as over the scenario store.) -/
theorem C11_lock_held_after_failure :
    (pkgdb_init (sample_env (some store_nocount) (some 3)) (fresh 0) none
        match_t.MATCH_ALL 0).map pkgdb.lock_fd = some 3 ∧
    (pkgdb_init (sample_env (some store_abc) (some 3)) (fresh 0) none
        match_t.MATCH_EXACT 0).map pkgdb.lock_fd = some 3 ∧
    (pkgdb_init (sample_env (some store_abc) (some 3)) (fresh 0) (some (str "["))
        match_t.MATCH_REGEX 0).map pkgdb.lock_fd = some 3 ∧
    (pkgdb_init (sample_env (some store_abc) (some 3)) (fresh 0) none
        match_t.MATCH_ALL 0).map pkgdb.lock_fd = some (-1) := by
  decide

/-- C12, the claim as stated fails: with MATCH_EXACT and no pattern the store is opened
before the abort, and the session `pkgdb_init` leaves differs between two stores (in the
handle it holds), and between a store that opens (count reset to 0) and one that does not
(count left at 5). -/
theorem C12_state_depends_on_store :
    (pkgdb_init (sample_env (some store_abc) (some 3)) (fresh 5) none
        match_t.MATCH_EXACT 0).map (fun d => d.db.recs) = some store_abc ∧
    (pkgdb_init (sample_env (some store_lib) (some 3)) (fresh 5) none
        match_t.MATCH_EXACT 0).map (fun d => d.db.recs) = some store_lib ∧
    store_abc ≠ store_lib ∧
    (pkgdb_init (sample_env (some store_abc) (some 3)) (fresh 5) none
        match_t.MATCH_EXACT 0).map pkgdb_count = some 0 ∧
    (pkgdb_init (sample_env none (some 3)) (fresh 5) none
        match_t.MATCH_EXACT 0).map pkgdb_count = some 5 := by
  decide

/-- C12 as amended: for every mode other than MATCH_ALL and no pattern, when the store
opens and the lock is taken, `pkgdb_init` returns after `pkgdb_open` and `pkgdb_lock` and
before any lookup, enumeration or positional read: the session it leaves has the array
pointer the cache refresh left, the freshly opened handle (still at its initial data
position), the count 0 and the flags; it depends on the store through that handle
only. -/
theorem C12_pattern_required_amended (E : Env) (db : pkgdb) (mt : match_t) (flags : Nat)
    (recs : List (Bytes × Bytes)) (fd : Int)
    (hcache : E.cache = some recs) (hlock : E.lock = some fd) (hfd : 0 ≤ fd)
    (hmt : mt ≠ match_t.MATCH_ALL) :
    ∃ db1, pkgdb_init E db none mt flags = some db1 ∧
      db1.pkgs = (E.pkgdb_cache_update db).pkgs ∧ pkgdb_count db1 = 0 ∧
      db1.flags = flags ∧ db1.db = { recs := recs, vcur := [] } ∧
      db1.db = (pkgdb_open E (E.pkgdb_cache_update db)).2.db := by
  have hfd2 : ¬ fd < 0 := by omega
  refine ⟨{ pkgs := (E.pkgdb_cache_update db).pkgs, count := 0,
            db := { recs := recs, vcur := [] }, lock_fd := fd, flags := flags },
    ?_, rfl, rfl, rfl, rfl, ?_⟩
  · unfold pkgdb_init pkgdb_open pkgdb_lock
    simp [hcache, hlock, hfd2, hmt]
  · unfold pkgdb_open
    simp [hcache]

/-- C12 as amended, at the store of the scenario with MATCH_GLOB. -/
theorem C12_pattern_required_amended_witness :
    ∃ db1, pkgdb_init (sample_env (some store_abc) (some 3)) (fresh 5) none
          match_t.MATCH_GLOB 1 = some db1 ∧
      db1.pkgs = ((sample_env (some store_abc) (some 3)).pkgdb_cache_update (fresh 5)).pkgs ∧
      pkgdb_count db1 = 0 ∧ db1.flags = 1 ∧ db1.db = { recs := store_abc, vcur := [] } ∧
      db1.db = (pkgdb_open (sample_env (some store_abc) (some 3))
        ((sample_env (some store_abc) (some 3)).pkgdb_cache_update (fresh 5))).2.db :=
  C12_pattern_required_amended (sample_env (some store_abc) (some 3)) (fresh 5)
    match_t.MATCH_GLOB 1 store_abc 3 rfl rfl (by decide) (by decide)

/-- C13, the code at a failing input: the store holds, for index 0, the identity "A-1" and
the name "A", and no version, comment, description or origin key; line 63 of `pkgdb_query`
tests `cdb_find(...) < 0`, a lookup that finds nothing answers 0, and `db_get` then yields
the value of the last lookup that succeeded: the four fields are "A", not absent. -/
theorem C13_absent_key_yields_stale_value :
    values store_abc ((sample_env (some store_abc) (some 3)).PKGDB_VERSION 0) = [] ∧
    values store_abc ((sample_env (some store_abc) (some 3)).PKGDB_COMMENT 0) = [] ∧
    values store_abc ((sample_env (some store_abc) (some 3)).PKGDB_DESC 0) = [] ∧
    values store_abc ((sample_env (some store_abc) (some 3)).PKGDB_ORIGIN 0) = [] ∧
    (pkgdb_pkg_query (sample_env (some store_abc) (some 3)) (session store_abc) 0).1.map
        (fun p => [some p.name_version, p.name, p.version, p.comment, p.desc, p.origin])
      = some [some (str "A-1"), some (str "A"), some (str "A"), some (str "A"), some (str "A"),
          some (str "A")] ∧
    (pkgdb_query (sample_env (some store_abc) (some 3))
        { pkgs := Ptr.junk, count := 0, db := { recs := store_abc, vcur := str "earlier" },
          lock_fd := -1, flags := 0 }
        ((sample_env (some store_abc) (some 3)).PKGDB_VERSION 0)).1 = some (str "earlier") := by
  decide

/-- C14: with a key buffer of positive size, `pkgdb_query` on a formatted key of length
BUFSIZ or more returns absent and leaves the session, handle included, as it was; on a
formatted key that fits it returns what `cdb_find` and `db_get` give for exactly the
formatted bytes, and leaves the handle `cdb_find` leaves for them. -/
theorem C14_key_too_long (E : Env) (db : pkgdb) (fmt : Bytes) (hB : 0 < E.BUFSIZ) :
    (E.BUFSIZ ≤ fmt.length → pkgdb_query E db fmt = (none, db)) ∧
    (fmt.length < E.BUFSIZ →
      pkgdb_query E db fmt
        = (some (db_get (cdb_find db.db fmt).2), { db with db := (cdb_find db.db fmt).2 })) := by
  constructor
  · intro h
    unfold pkgdb_query
    have hne : fmt.length ≠ (List.take (E.BUFSIZ - 1) fmt).length := by
      rw [List.length_take]
      omega
    simp only [hne, ne_eq, not_false_eq_true, if_true]
  · intro h
    have htake : List.take (E.BUFSIZ - 1) fmt = fmt := List.take_of_length_le (by omega)
    have hnn : ¬ (cdb_find db.db fmt).1 < 0 := by
      unfold cdb_find
      cases values db.db.recs fmt <;> simp
    unfold pkgdb_query
    simp only [htake, ne_eq, not_true_eq_false, if_false, hnn]

/-- C14 in the sample environment (BUFSIZ = 1024), for a key of 1024 bytes and for the
key "0n". -/
theorem C14_key_too_long_witness :
    pkgdb_query (sample_env (some store_abc) (some 3)) (session store_abc)
        (List.replicate 1024 110) = (none, session store_abc) ∧
    pkgdb_query (sample_env (some store_abc) (some 3)) (session store_abc) (str "0n")
        = (some (db_get (cdb_find (session store_abc).db (str "0n")).2),
            { session store_abc with db := (cdb_find (session store_abc).db (str "0n")).2 }) ∧
    db_get (cdb_find (session store_abc).db (str "0n")).2 = str "A" :=
  ⟨(C14_key_too_long (sample_env (some store_abc) (some 3)) (session store_abc)
      (List.replicate 1024 110) (by decide)).1
      (by rw [List.length_replicate]; exact Nat.le_refl _),
    (C14_key_too_long (sample_env (some store_abc) (some 3)) (session store_abc)
      (str "0n") (by decide)).2 (by decide),
    by decide⟩

theorem deps_count_cur (vals : List Bytes) (c : cdb) (n : Nat) :
    (deps_count vals c n).2.vcur = vals.getLastD c.vcur := by
  induction vals generalizing c n with
  | nil => simp [deps_count, cdb_findnext]
  | cons v rest ih =>
    simp only [deps_count, cdb_findnext, ih]
    cases rest <;> simp [List.getLastD]

theorem deps_fill_cur (vals : List Bytes) (c : cdb) (a : List (Option pkg)) (j : Nat)
    (r : List (Option pkg) × cdb) (h : deps_fill vals c a j = some r) :
    r.2.vcur = vals.getLastD c.vcur := by
  induction vals generalizing c a j with
  | nil =>
    simp only [deps_fill, cdb_findnext, Option.some.injEq] at h
    subst h
    simp
  | cons v rest ih =>
    simp only [deps_fill, cdb_findnext] at h
    cases hs : store a j (some (dep_leaf { recs := c.recs, vcur := v })) with
    | none => simp [hs] at h
    | some a1 =>
      simp only [hs] at h
      rw [ih _ _ _ h]
      cases rest <;> simp [List.getLastD]

theorem pkgdb_deps_query_cur (E : Env) (db : pkgdb) (p : pkg) (r : pkg × pkgdb)
    (h : pkgdb_deps_query E db p = some r) :
    r.2.db.vcur = (values db.db.recs (deps_key E p.idx)).getLastD db.db.vcur := by
  unfold pkgdb_deps_query cdb_findinit at h
  simp only [deps_count_snd] at h
  cases hs : store (calloc ((deps_count (values db.db.recs (deps_key E p.idx)) db.db 0).1 + 1))
      (deps_count (values db.db.recs (deps_key E p.idx)) db.db 0).1 none with
  | none => simp [hs] at h
  | some a =>
    simp only [hs] at h
    cases hf : deps_fill (values db.db.recs (deps_key E p.idx))
        (deps_count (values db.db.recs (deps_key E p.idx)) db.db 0).2 a 0 with
    | none => simp [hf] at h
    | some r1 =>
      simp only [hf, Option.some.injEq] at h
      subst h
      simp only
      rw [deps_fill_cur _ _ _ _ _ hf, deps_count_cur]
      cases values db.db.recs (deps_key E p.idx) with
      | nil => simp [List.getLastD]
      | cons x xs => simp [List.getLastD]

/-- C15, the claim as stated fails: `pkgdb_deps_query` changes the lookup state of the
store handle.  Over the scenario store, from a handle at its initial data position, the
query for index 0 leaves the handle on the dependency value "B-1", and a later
`pkgdb_query` for a key the store lacks returns that value. -/
theorem C15_deps_query_moves_handle :
    (session store_abc).db.vcur = [] ∧
    (pkgdb_deps_query (sample_env (some store_abc) (some 3)) (session store_abc)
        (leaf [])).map (fun r => r.2.db.vcur) = some (str "B-1") ∧
    (pkgdb_deps_query (sample_env (some store_abc) (some 3)) (session store_abc)
        (leaf [])).map (fun r =>
          (pkgdb_query (sample_env (some store_abc) (some 3)) r.2 (str "0v")).1)
      = some (some (str "B-1")) := by
  decide

/-- C15 as amended: `pkgdb_deps_query` always returns, and run again for the same index on
a session over the same records, whatever the data position earlier lookups or
enumerations left the handle on, it yields the same dependency array (length, order and
identities).  It leaves the records of the store as they are and the handle on the last
dependency value enumerated, or where it was when there is none. -/
theorem C15_deps_reproducible_amended (E : Env) (db db2 : pkgdb) (P P2 : pkg)
    (hrecs : db2.db.recs = db.db.recs) (hidx : P2.idx = P.idx) :
    ∃ a P1 db1 P3 db3, pkgdb_deps_query E db P = some (P1, db1) ∧
      pkgdb_deps_query E db2 P2 = some (P3, db3) ∧
      P1.deps = Ptr.to a ∧ P3.deps = Ptr.to a ∧ P1.idx = P.idx ∧
      db1.db.recs = db.db.recs ∧ db3.db.recs = db.db.recs ∧
      db1.db.vcur = (values db.db.recs (deps_key E P.idx)).getLastD db.db.vcur ∧
      db3.db.vcur = (values db.db.recs (deps_key E P.idx)).getLastD db2.db.vcur := by
  obtain ⟨db1, hf1, h1⟩ := pkgdb_deps_query_eq E db P
  obtain ⟨db3, hf3, h3⟩ := pkgdb_deps_query_eq E db2 P2
  have c1 := pkgdb_deps_query_cur E db P _ h1
  have c3 := pkgdb_deps_query_cur E db2 P2 _ h3
  rw [hrecs, hidx] at h3 c3
  exact ⟨_, _, db1, _, db3, h1, h3, rfl, rfl, rfl, hf1.recs, by rw [hf3.recs, hrecs], c1, c3⟩

/-- C15 as amended, in the scenario: the query for index 0 run on the fresh session and
run again on a session whose handle was left on "elsewhere". -/
theorem C15_deps_reproducible_amended_witness :
    ∃ a P1 db1 P3 db3,
      pkgdb_deps_query (sample_env (some store_abc) (some 3)) (session store_abc) (leaf [])
        = some (P1, db1) ∧
      pkgdb_deps_query (sample_env (some store_abc) (some 3))
          { pkgs := Ptr.junk, count := 0, db := { recs := store_abc, vcur := str "elsewhere" },
            lock_fd := -1, flags := 0 } (leaf (str "other")) = some (P3, db3) ∧
      P1.deps = Ptr.to a ∧ P3.deps = Ptr.to a ∧ P1.idx = (leaf []).idx ∧
      db1.db.recs = (session store_abc).db.recs ∧ db3.db.recs = (session store_abc).db.recs ∧
      db1.db.vcur = (values (session store_abc).db.recs
          (deps_key (sample_env (some store_abc) (some 3)) (leaf []).idx)).getLastD
            (session store_abc).db.vcur ∧
      db3.db.vcur = (values (session store_abc).db.recs
          (deps_key (sample_env (some store_abc) (some 3)) (leaf []).idx)).getLastD
            (str "elsewhere") :=
  C15_deps_reproducible_amended (sample_env (some store_abc) (some 3)) (session store_abc)
    { pkgs := Ptr.junk, count := 0, db := { recs := store_abc, vcur := str "elsewhere" },
      lock_fd := -1, flags := 0 } (leaf []) (leaf (str "other")) rfl rfl

theorem entries_deps_array (vals : List Bytes) : entries (deps_array vals) = vals.map leaf := by
  have e : deps_array vals = List.map some (vals.map leaf) ++ [none] := by
    simp [deps_array]
  rw [e]
  exact entries_map_some _ []

/-- C18: for every session and record P, `pkgdb_deps_query` returns, and every entry it
puts in `P.deps` is a leaf carrying only its identity: name, version, comment, description
and origin are absent, `deps` and `rdeps` are NULL and the error flags are zero, so the
not-installed test of `pkgdb_rdeps_query` passes for it.  The scan of lines 147-153 over
that array therefore retains the candidate exactly when some entry has the target's
identity, that is when the values stored under the dependency key contain it. -/
theorem C18_deps_entries_are_leaves (E : Env) (db : pkgdb) (P : pkg) :
    ∃ P1 db1 a, pkgdb_deps_query E db P = some (P1, db1) ∧ P1.deps = Ptr.to a ∧
      (∀ d ∈ entries a, d.name = none ∧ d.version = none ∧ d.comment = none ∧ d.desc = none ∧
        d.origin = none ∧ d.deps = Ptr.null ∧ d.rdeps = Ptr.null ∧ d.errors = some 0 ∧
        (0 : Nat) &&& E.PKGERR_NOT_INSTALLED = 0) ∧
      (∀ target : Bytes,
        rdeps_scan E target a = some (decide (∃ d ∈ entries a, d.name_version = target))) ∧
      (∀ target : Bytes,
        (∃ d ∈ entries a, d.name_version = target) ↔
          target ∈ values db.db.recs (deps_key E P.idx)) := by
  obtain ⟨db1, -, h⟩ := pkgdb_deps_query_eq E db P
  have hmem : ∀ target : Bytes,
      (∃ d ∈ entries (deps_array (values db.db.recs (deps_key E P.idx))),
          d.name_version = target) ↔ target ∈ values db.db.recs (deps_key E P.idx) := by
    intro target
    rw [entries_deps_array]
    constructor
    · rintro ⟨d, hd, hnv⟩
      obtain ⟨x, hx, rfl⟩ := List.mem_map.mp hd
      rw [(leaf_fields x).1] at hnv
      rw [← hnv]
      exact hx
    · intro ht
      exact ⟨leaf target, List.mem_map.mpr ⟨target, ht, rfl⟩, (leaf_fields target).1⟩
  refine ⟨_, db1, _, h, rfl, ?_, ?_, hmem⟩
  · intro d hd
    rw [entries_deps_array] at hd
    obtain ⟨x, -, rfl⟩ := List.mem_map.mp hd
    simp [leaf, dep_leaf]
  · intro target
    rw [rdeps_scan_deps_array]
    congr 1
    exact decide_eq_decide.mpr (hmem target).symm

/-- C19, the claim as stated fails at N = SIZE_MAX: `count + 1` wraps to 0, the array of
`db->pkgs` has no slot, and the first selected record is written outside it.  Over a
store whose count key holds SIZE_MAX and whose index 0 has a record, `pkgdb_init` matching
everything has no defined result. -/
theorem C19_count_wraps_out_of_bounds :
    (sample_env (some store_max) (some 3)).size_read
        (le_bytes 8 18446744073709551615) = (sample_env (some store_max) (some 3)).SIZE_MAX ∧
    slots (sample_env (some store_max) (some 3)) 18446744073709551615 = 0 ∧
    (calloc (slots (sample_env (some store_max) (some 3)) 18446744073709551615)).length = 0 ∧
    (store (calloc (slots (sample_env (some store_max) (some 3)) 18446744073709551615)) 0
      (load (sample_env (some store_max) (some 3)) store_max 0)).isNone = true ∧
    (load (sample_env (some store_max) (some 3)) store_max 0).map (fun p => p.name_version)
      = some (str "A-1") ∧
    (pkgdb_init (sample_env (some store_max) (some 3)) (fresh 0) none match_t.MATCH_ALL
      0).isNone = true := by
  decide

theorem selected_length_le (E : Env) (recs : List (Bytes × Bytes)) (re : Option (Bytes → Int))
    (pattern : Option Bytes) (mt : match_t) (flags N : Nat) :
    (selected E recs re pattern mt flags N).length ≤ N := by
  unfold selected
  calc ((List.range N).filterMap (select_at E recs re pattern mt flags N)).length
      ≤ (List.range N).length := List.length_filterMap_le _ _
    _ = N := List.length_range N

/-- C19 as amended, for a count N below SIZE_MAX: every list write of the load stays inside
its allocation.  From a session whose array was allocated for N (N + 1 slots), the
selection loop returns with `count` records written, `count` being the number selected
and at most N, the array still N + 1 slots long, and the shrink and the terminator write
at `count` are defined.  `pkgdb_rdeps_query` for N candidates returns an array whose
entries number at most N, followed by the terminator.  In `pkgdb_deps_query` the second
enumeration runs over the same values as the first, the first counts exactly their
number, and the array returned holds that many entries in `count + 1` slots. -/
theorem C19_writes_in_bounds_amended (E : Env) (db : pkgdb) (pattern : Option Bytes)
    (mt : match_t) (re : Option (Bytes → Int)) (N : Nat)
    (hN : N < E.SIZE_MAX)
    (hpat : ¬ (mt ≠ match_t.MATCH_ALL ∧ pattern = none))
    (hre : init_regex E pattern mt = some re)
    (hpkgs : db.pkgs = Ptr.to (calloc (slots E N))) (hcount : db.count = 0) :
    (∃ db1 a a1 a2, init_loop E re pattern mt N N 0 db = some db1 ∧ db1.pkgs = Ptr.to a ∧
        a.length = N + 1 ∧
        db1.count = (selected E db.db.recs re pattern mt db.flags N).length ∧
        db1.count ≤ N ∧ entries a = selected E db.db.recs re pattern mt db.flags N ∧
        realloc a (db1.count + 1) = some a1 ∧ store a1 db1.count none = some a2 ∧
        a2.length = db1.count + 1) ∧
    (∀ (d : pkgdb) (p : pkg), ∃ p1 d1 r, pkgdb_rdeps_query E d p N = some (p1, d1) ∧
        p1.rdeps = Ptr.to r ∧ (entries r).length ≤ N ∧ r.length = (entries r).length + 1) ∧
    (∀ (d : pkgdb) (p : pkg),
        cdb_findinit (deps_count (cdb_findinit d.db (deps_key E p.idx)) d.db 0).2
            (deps_key E p.idx) = cdb_findinit d.db (deps_key E p.idx) ∧
        (deps_count (cdb_findinit d.db (deps_key E p.idx)) d.db 0).1
          = (cdb_findinit d.db (deps_key E p.idx)).length ∧
        ∃ p1 d1 a, pkgdb_deps_query E d p = some (p1, d1) ∧ p1.deps = Ptr.to a ∧
          (entries a).length = (deps_count (cdb_findinit d.db (deps_key E p.idx)) d.db 0).1 ∧
          a.length = (deps_count (cdb_findinit d.db (deps_key E p.idx)) d.db 0).1 + 1) := by
  refine ⟨?_, ?_, ?_⟩
  · have hsel := pkg_match_some E re pattern mt hpat hre
    have hlen := selected_length_le E db.db.recs re pattern mt db.flags N
    obtain ⟨db1, h1, -, -, -, hc, hp⟩ :=
      init_loop_eq E re pattern mt N hN hsel db.db.recs db.flags N 0 db [] N (Nat.le_refl _)
        (by simp [hpkgs, calloc, slots_eq hN]) (by simp [hcount]) rfl rfl
    simp only [List.nil_append, ← List.range_eq_range'] at hc hp
    change db1.count = (selected E db.db.recs re pattern mt db.flags N).length at hc
    change db1.pkgs = Ptr.to ((selected E db.db.recs re pattern mt db.flags N).map some
      ++ List.replicate (N + 1 - (selected E db.db.recs re pattern mt db.flags N).length) none)
      at hp
    generalize selected E db.db.recs re pattern mt db.flags N = S at hlen hc hp
    have hal : (S.map some ++ List.replicate (N + 1 - S.length) (none : Option pkg)).length
        = N + 1 := by
      simp only [List.length_append, List.length_map, List.length_replicate]
      omega
    have hent : entries (S.map some ++ List.replicate (N + 1 - S.length) none) = S := by
      have e : N + 1 - S.length = (N - S.length) + 1 := by omega
      rw [e, List.replicate_succ]
      exact entries_map_some _ _
    have hr : realloc (S.map some ++ List.replicate (N + 1 - S.length) none) (db1.count + 1)
        = some ((S.map some ++ List.replicate (N + 1 - S.length) none).take (db1.count + 1)) := by
      unfold realloc
      rw [if_pos (by rw [hal, hc]; omega)]
    have htl : ((S.map some ++ List.replicate (N + 1 - S.length) (none : Option pkg)).take
        (db1.count + 1)).length = db1.count + 1 := by
      rw [List.length_take, hal, hc]
      omega
    refine ⟨db1, _, _, (((S.map some ++ List.replicate (N + 1 - S.length) none).take
        (db1.count + 1)).set db1.count none), h1, hp, hal, hc, by omega, hent, hr, ?_, ?_⟩
    · unfold store
      rw [if_pos (by rw [htl]; omega)]
    · rw [List.length_set, htl]
  · intro d p
    obtain ⟨d1, -, h⟩ := pkgdb_rdeps_query_eq E d p N hN
    refine ⟨_, d1, _, h, rfl, ?_, ?_⟩
    · rw [entries_map_some]
      exact rdeps_list_length_le E d.db.recs p.name_version N
    · rw [entries_map_some]
      simp
  · intro d p
    obtain ⟨d1, -, h⟩ := pkgdb_deps_query_eq E d p
    refine ⟨?_, ?_, _, d1, _, h, rfl, ?_, ?_⟩
    · unfold cdb_findinit
      rw [deps_count_snd]
    · rw [deps_count_fst]
      simp
    · rw [entries_deps_array, deps_count_fst]
      simp [cdb_findinit]
    · rw [deps_count_fst]
      simp [cdb_findinit, deps_array]

/-- C19 as amended, in the scenario: the store of three packages loaded with both flags,
all three selected into an array of four slots. -/
theorem C19_writes_in_bounds_amended_witness :
    (3 < (sample_env (some store_abc) (some 3)).SIZE_MAX) ∧
    ((selected (sample_env (some store_abc) (some 3)) store_abc none none match_t.MATCH_ALL 3
        3).map (fun p => p.name_version) = [str "A-1", str "B-1", str "C-1"]) ∧
    (∃ db1 a a1 a2, init_loop (sample_env (some store_abc) (some 3)) none none
          match_t.MATCH_ALL 3 3 0
          (loop_entry (sample_env (some store_abc) (some 3)) store_abc 3 (le_bytes 8 3) 3)
          = some db1 ∧ db1.pkgs = Ptr.to a ∧ a.length = 3 + 1 ∧
        db1.count = (selected (sample_env (some store_abc) (some 3))
          (loop_entry (sample_env (some store_abc) (some 3)) store_abc 3 (le_bytes 8 3) 3).db.recs
          none none match_t.MATCH_ALL
          (loop_entry (sample_env (some store_abc) (some 3)) store_abc 3 (le_bytes 8 3) 3).flags
          3).length ∧
        db1.count ≤ 3 ∧
        entries a = selected (sample_env (some store_abc) (some 3))
          (loop_entry (sample_env (some store_abc) (some 3)) store_abc 3 (le_bytes 8 3) 3).db.recs
          none none match_t.MATCH_ALL
          (loop_entry (sample_env (some store_abc) (some 3)) store_abc 3 (le_bytes 8 3) 3).flags
          3 ∧
        realloc a (db1.count + 1) = some a1 ∧ store a1 db1.count none = some a2 ∧
        a2.length = db1.count + 1) :=
  ⟨by decide, by decide,
   (C19_writes_in_bounds_amended (sample_env (some store_abc) (some 3))
      (loop_entry (sample_env (some store_abc) (some 3)) store_abc 3 (le_bytes 8 3) 3)
      none match_t.MATCH_ALL none 3 (by decide) (by decide) rfl rfl rfl).1⟩

theorem alloc_n_eq (k : Nat) (h : heap) :
    alloc_n k h = (List.range' h.next k,
      { next := h.next + k, live := (List.range' h.next k).reverse ++ h.live }) := by
  induction k generalizing h with
  | zero => simp [alloc_n]
  | succ k ih =>
    simp only [alloc_n, alloc, ih, List.range'_succ, List.reverse_cons, List.append_assoc,
      List.singleton_append]
    simp only [Nat.add_assoc, Nat.add_comm 1 k]

theorem free_list_append (a b : List Nat) (h : heap) :
    free_list (a ++ b) h = (free_list a h).bind (free_list b) := by
  induction a generalizing h with
  | nil => simp [free_list]
  | cons x xs ih =>
    simp only [List.cons_append, free_list]
    cases free h x with
    | none => simp
    | some h1 => simp [ih]

theorem free_list_single (b : Nat) (h : heap) : free_list [b] h = free h b := by
  simp only [free_list]
  cases free h b <;> rfl

theorem free_list_front (F : List Nat) :
    ∀ (T L : List Nat) (n : Nat), F.Perm T → (T ++ L).Nodup →
      free_list F { next := n, live := T ++ L } = some { next := n, live := L } := by
  induction F with
  | nil =>
    intro T L n hp _
    rw [List.nil_perm.mp hp]
    rfl
  | cons x F ih =>
    intro T L n hp hnd
    have hx : x ∈ T := hp.subset (List.mem_cons_self x F)
    have hp1 : F.Perm (T.erase x) := by
      have := hp.erase x
      rwa [List.erase_cons_head] at this
    have hnd1 : (T.erase x ++ L).Nodup :=
      hnd.sublist ((List.erase_sublist x T).append (List.Sublist.refl L))
    simp only [free_list, free]
    rw [if_pos (List.mem_append_left L hx)]
    simp only [List.erase_append_left L hx]
    exact ih _ _ _ hp1 hnd1

theorem free_head (b n : Nat) (L : List Nat) :
    free { next := n, live := b :: L } b = some { next := n, live := L } := by
  simp [free]

theorem heap_ok_alloc {h : heap} (hk : heap_ok h) : heap_ok (alloc h).2 := by
  obtain ⟨h1, h2⟩ := hk
  refine ⟨?_, ?_⟩
  · simp only [alloc, List.nodup_cons]
    exact ⟨fun hm => Nat.lt_irrefl _ (h2 _ hm), h1⟩
  · intro b hb
    simp only [alloc, List.mem_cons] at hb ⊢
    rcases hb with rfl | hb
    · exact Nat.lt_succ_self _
    · exact Nat.lt_succ_of_lt (h2 b hb)

theorem heap_ok_mono {n m : Nat} {L : List Nat} (hk : heap_ok { next := n, live := L })
    (hnm : n ≤ m) : heap_ok { next := m, live := L } :=
  ⟨hk.1, fun b hb => Nat.lt_of_lt_of_le (hk.2 b hb) hnm⟩

theorem heap_ok_fresh {n : Nat} {L : List Nat} (hk : heap_ok { next := n, live := L })
    (T : List Nat) (m : Nat) (hnm : n ≤ m) (hT : T.Nodup) (hb : ∀ b ∈ T, n ≤ b ∧ b < m) :
    heap_ok { next := m, live := T ++ L } := by
  refine ⟨?_, ?_⟩
  · refine List.nodup_append.mpr ⟨hT, hk.1, ?_⟩
    intro b hbT hbL
    exact Nat.lt_irrefl _ (Nat.lt_of_lt_of_le (hk.2 b hbL) (hb b hbT).1)
  · intro b hm
    rcases List.mem_append.mp hm with h1 | h1
    · exact (hb b h1).2
    · exact Nat.lt_of_lt_of_le (hk.2 b h1) hnm

theorem deps_blocks_eq (E : Env) (recs : List (Bytes × Bytes)) (i : Nat) (h : heap) :
    deps_blocks E recs i h
      = ((h.next, List.range' (h.next + 1) (values recs (deps_key E i)).length),
         { next := h.next + 1 + (values recs (deps_key E i)).length,
           live := (List.range' (h.next + 1) (values recs (deps_key E i)).length).reverse
                    ++ h.next :: h.live }) := by
  simp [deps_blocks, alloc_n_eq, alloc]

theorem heap_ok_deps {E : Env} {recs : List (Bytes × Bytes)} {i : Nat} {h : heap}
    (hk : heap_ok h) : heap_ok (deps_blocks E recs i h).2 := by
  rw [deps_blocks_eq]
  have e : (List.range' (h.next + 1) (values recs (deps_key E i)).length).reverse
      ++ h.next :: h.live
      = ((List.range' (h.next + 1) (values recs (deps_key E i)).length).reverse ++ [h.next])
        ++ h.live := by simp
  rw [e]
  refine heap_ok_fresh hk _ _ (by omega) ?_ ?_
  · rw [← List.reverse_cons, List.nodup_reverse, ← List.range'_succ]
    exact List.nodup_range' _ _
  · intro b hb
    rw [← List.reverse_cons, List.mem_reverse, ← List.range'_succ, List.mem_range'_1] at hb
    omega

theorem deps_blocks_released (E : Env) (recs : List (Bytes × Bytes)) (i : Nat) (h : heap)
    (hk : heap_ok h) :
    (free_list (deps_blocks E recs i h).1.2 (deps_blocks E recs i h).2).bind
        (fun h1 => free h1 (deps_blocks E recs i h).1.1)
      = some { next := h.next + 1 + (values recs (deps_key E i)).length, live := h.live } := by
  have hk1 := (heap_ok_deps hk : heap_ok (deps_blocks E recs i h).2)
  rw [deps_blocks_eq] at hk1 ⊢
  simp only
  rw [free_list_front _ _ _ _ (List.reverse_perm _).symm hk1.1]
  simp [free]

theorem rdep_at_none {E : Env} {recs : List (Bytes × Bytes)} {t : Bytes} {i : Nat}
    (h : load E recs i = none) : rdep_at E recs t i = none := by
  simp [rdep_at, h]

theorem rdeps_loop_blocks_eq (E : Env) (recs : List (Bytes × Bytes)) (t : Bytes) (n : Nat) :
    ∀ (i : Nat) (kept : List Nat) (h : heap), heap_ok h →
      ∃ ks h1, rdeps_loop_blocks E recs t n i kept h = some (kept ++ ks, h1) ∧
        h1.live = ks.reverse ++ h.live ∧ h.next ≤ h1.next ∧ heap_ok h1 ∧
        ks.length = ((List.range' i n).filterMap (rdep_at E recs t)).length := by
  induction n with
  | zero =>
    intro i kept h hk
    exact ⟨[], h, by simp [rdeps_loop_blocks], by simp, Nat.le_refl _, hk, by simp⟩
  | succ n ih =>
    intro i kept h hk
    rw [List.range'_succ, List.filterMap_cons]
    unfold rdeps_loop_blocks
    cases hl : load E recs i with
    | none =>
      simp only [rdep_at_none hl]
      exact ih (i + 1) kept h hk
    | some q =>
      simp only
      have ea : alloc h = (h.next, { next := h.next + 1, live := h.next :: h.live }) := rfl
      have hrel := deps_blocks_released E recs i (alloc h).2 (heap_ok_alloc hk)
      rw [ea] at hrel ⊢
      simp only at hrel ⊢
      cases hf : free_list (deps_blocks E recs i { next := h.next + 1, live := h.next :: h.live }).1.2
          (deps_blocks E recs i { next := h.next + 1, live := h.next :: h.live }).2 with
      | none => simp [hf] at hrel
      | some h1 =>
        simp only [hf, Option.some_bind] at hrel
        simp only [hrel]
        have hka : heap_ok { next := h.next + 1, live := h.next :: h.live } := heap_ok_alloc hk
        have hk2 : heap_ok { next := h.next + 1 + 1 + (values recs (deps_key E i)).length,
                             live := h.next :: h.live } :=
          heap_ok_mono hka (by omega)
        cases hr : rdep_at E recs t i with
        | some r =>
          simp only
          obtain ⟨ks, h3, e, hl3, hn3, hk3, hlen⟩ := ih (i + 1) (kept ++ [h.next]) _ hk2
          refine ⟨h.next :: ks, h3, by simp [e], ?_, ?_, hk3, by simp [hlen]⟩
          · rw [hl3]
            simp
          · simp only at hn3
            omega
        | none =>
          simp only [free_head]
          have hk4 : heap_ok { next := h.next + 1 + 1 + (values recs (deps_key E i)).length,
                               live := h.live } := heap_ok_mono hk (by omega)
          obtain ⟨ks, h3, e, hl3, hn3, hk3, hlen⟩ := ih (i + 1) kept _ hk4
          refine ⟨ks, h3, e, hl3, ?_, hk3, hlen⟩
          simp only at hn3
          omega

theorem rdeps_blocks_eq (E : Env) (recs : List (Bytes × Bytes)) (t : Bytes) (count : Nat)
    (h : heap) (hk : heap_ok h) :
    ∃ ks h1, rdeps_blocks E recs t count h = some ((h.next, ks), h1) ∧
      h1.live = ks.reverse ++ h.next :: h.live ∧ h.next ≤ h1.next ∧ heap_ok h1 ∧
      ks.length = (rdeps_list E recs t count).length := by
  obtain ⟨ks, h1, e, hl, hn, hk1, hlen⟩ :=
    rdeps_loop_blocks_eq E recs t count 0 [] (alloc h).2 (heap_ok_alloc hk)
  refine ⟨ks, h1, ?_, ?_, ?_, hk1, ?_⟩
  · unfold rdeps_blocks
    simp only [alloc, List.nil_append] at e ⊢
    rw [e]
  · rw [hl]
    simp [alloc]
  · simp only [alloc] at hn
    omega
  · rw [hlen, ← List.range_eq_range']
    rfl

theorem with_deps_idx (E : Env) (recs : List (Bytes × Bytes)) (flags : Nat) (p : pkg) :
    (with_deps E recs flags p).idx = p.idx ∧
    (with_deps E recs flags p).name_version = p.name_version ∧
    (with_deps E recs flags p).rdeps = p.rdeps := by
  unfold with_deps
  split <;> simp

theorem with_rdeps_idx (E : Env) (recs : List (Bytes × Bytes)) (flags count : Nat) (p : pkg) :
    (with_rdeps E recs flags count p).idx = p.idx ∧
    (with_rdeps E recs flags count p).deps = p.deps := by
  unfold with_rdeps
  split <;> simp

theorem selected_blocks_eq (E : Env) (recs : List (Bytes × Bytes)) (flags count i : Nat)
    (p : pkg) (hi : p.idx = i) (h : heap) (hk : heap_ok h) :
    ∃ o h1, selected_blocks E recs flags count i p (alloc h).1 (alloc h).2 = some (o, h1) ∧
      h1.live = (all_blocks o).reverse ++ h.live ∧ h.next ≤ h1.next ∧ heap_ok h1 ∧
      fits E flags (with_rdeps E recs flags count (with_deps E recs flags p)) o := by
  have hka := heap_ok_alloc hk
  have hkd := (heap_ok_deps hka : heap_ok (deps_blocks E recs i (alloc h).2).2)
  have ed := deps_blocks_eq E recs i (alloc h).2
  unfold selected_blocks fits with_rdeps with_deps
  by_cases hD : flags &&& E.PKGDB_INIT_DEPS ≠ 0
  · by_cases hR : flags &&& E.PKGDB_INIT_RDEPS ≠ 0
    · obtain ⟨ks, h1, e, hl, hn, hk1, hlen⟩ :=
        rdeps_blocks_eq E recs p.name_version count _ hkd
      simp only [if_pos hD, if_pos hR, e, Option.map_some']
      refine ⟨_, _, rfl, ?_, ?_, hk1, ?_, ?_⟩
      · rw [hl, ed]
        simp [all_blocks, alloc]
      · rw [ed] at hn
        simp only [alloc] at hn
        omega
      · refine ⟨_, _, rfl, rfl, ?_, ?_⟩
        · rw [hi, entries_deps_array]
          simp [deps_array]
        · rw [hi, entries_deps_array, ed]
          simp
      · refine ⟨_, _, rfl, rfl, ?_, ?_⟩
        · rw [entries_map_some]
          simp
        · rw [entries_map_some]
          exact hlen
    · simp only [if_pos hD, if_neg hR]
      refine ⟨_, _, rfl, ?_, ?_, hkd, ?_, rfl⟩
      · rw [ed]
        simp [all_blocks, alloc]
      · rw [ed]
        simp only [alloc]
        omega
      · refine ⟨_, _, rfl, rfl, ?_, ?_⟩
        · rw [hi, entries_deps_array]
          simp [deps_array]
        · rw [hi, entries_deps_array, ed]
          simp
  · by_cases hR : flags &&& E.PKGDB_INIT_RDEPS ≠ 0
    · obtain ⟨ks, h1, e, hl, hn, hk1, hlen⟩ :=
        rdeps_blocks_eq E recs p.name_version count _ hka
      simp only [if_neg hD, if_pos hR, e, Option.map_some']
      refine ⟨_, _, rfl, ?_, ?_, hk1, rfl, ?_⟩
      · rw [hl]
        simp [all_blocks, alloc]
      · simp only [alloc] at hn
        omega
      · refine ⟨_, _, rfl, rfl, ?_, ?_⟩
        · rw [entries_map_some]
          simp
        · rw [entries_map_some]
          exact hlen
    · simp only [if_neg hD, if_neg hR]
      refine ⟨_, _, rfl, ?_, ?_, hka, rfl, rfl⟩
      · simp [all_blocks, alloc]
      · simp [alloc]

theorem init_loop_blocks_eq (E : Env) (recs : List (Bytes × Bytes)) (re : Option (Bytes → Int))
    (pattern : Option Bytes) (mt : match_t) (flags count : Nat) (n : Nat) :
    ∀ (i : Nat) (own : List (Nat × blocks)) (h : heap), heap_ok h →
      ∃ os h1, init_loop_blocks E recs re pattern mt flags count n i own h
          = some (own ++ os, h1) ∧
        h1.live = (os.flatMap (fun x => all_blocks x.2)).reverse ++ h.live ∧
        h.next ≤ h1.next ∧ heap_ok h1 ∧
        List.Forall₂ (fun x p => x.1 = p.idx ∧ fits E flags p x.2) os
          ((List.range' i n).filterMap (select_at E recs re pattern mt flags count)) := by
  induction n with
  | zero =>
    intro i own h hk
    exact ⟨[], h, by simp [init_loop_blocks], by simp, Nat.le_refl _, hk, by simp⟩
  | succ n ih =>
    intro i own h hk
    rw [List.range'_succ, List.filterMap_cons]
    unfold init_loop_blocks
    cases hl : load E recs i with
    | none =>
      have hs : select_at E recs re pattern mt flags count i = none := by
        simp [select_at, hl]
      simp only [hs]
      exact ih (i + 1) own h hk
    | some q =>
      simp only
      by_cases hsel : sel_of E re pattern mt q = 0
      · have hs : select_at E recs re pattern mt flags count i
            = some (with_rdeps E recs flags count (with_deps E recs flags q)) := by
          simp [select_at, hl, hsel]
        obtain ⟨o, h1, e, hl1, hn1, hk1, hfit⟩ :=
          selected_blocks_eq E recs flags count i q (load_some hl).1 h hk
        obtain ⟨os, h2, e2, hl2, hn2, hk2, hall⟩ := ih (i + 1) (own ++ [(i, o)]) h1 hk1
        simp only [hs, if_pos hsel, e]
        refine ⟨(i, o) :: os, h2, by simp [e2], ?_, by omega, hk2, ?_⟩
        · rw [hl2, hl1]
          simp
        · refine List.Forall₂.cons ⟨?_, hfit⟩ hall
          rw [(with_rdeps_idx E recs flags count _).1, (with_deps_idx E recs flags q).1,
            (load_some hl).1]
      · have hs : select_at E recs re pattern mt flags count i = none := by
          simp [select_at, hl, hsel]
        have hfr : free (alloc h).2 (alloc h).1 = some { next := h.next + 1, live := h.live } :=
          free_head _ _ _
        have hk4 : heap_ok { next := h.next + 1, live := h.live } := heap_ok_mono hk (by omega)
        obtain ⟨os, h2, e2, hl2, hn2, hk2, hall⟩ := ih (i + 1) own _ hk4
        simp only [hs, if_neg hsel, hfr]
        refine ⟨os, h2, e2, hl2, ?_, hk2, hall⟩
        simp only at hn2
        omega

theorem load_blocks_eq (E : Env) (recs : List (Bytes × Bytes)) (re : Option (Bytes → Int))
    (pattern : Option Bytes) (mt : match_t) (flags count : Nat) (h : heap) (hk : heap_ok h)
    (hre : init_regex E pattern mt = some re) :
    ∃ os h1, load_blocks E recs pattern mt flags count h
        = some ({ pkgs := h.next, own := os }, h1) ∧
      h1.live = (os.flatMap (fun x => all_blocks x.2)).reverse ++ h.next :: h.live ∧
      h.next < h1.next ∧ heap_ok h1 ∧
      List.Forall₂ (fun x p => x.1 = p.idx ∧ fits E flags p x.2) os
        (selected E recs re pattern mt flags count) := by
  obtain ⟨os, h1, e, hl, hn, hk1, hall⟩ :=
    init_loop_blocks_eq E recs re pattern mt flags count count 0 [] (alloc h).2
      (heap_ok_alloc hk)
  refine ⟨os, h1, ?_, ?_, ?_, hk1, ?_⟩
  · unfold load_blocks
    simp only [alloc, List.nil_append] at e ⊢
    simp only [hre, e]
  · rw [hl]
    simp [alloc]
  · simp only [alloc] at hn
    omega
  · rw [← List.range_eq_range'] at hall
    exact hall

theorem free_array_eq (h : heap) (d : List (Option pkg)) (b : Nat × List Nat)
    (ht : (entries d).length < d.length) (hb : b.2.length = (entries d).length) :
    free_array h (Ptr.to d) (some b) = free_list (b.2 ++ [b.1]) h := by
  unfold free_array
  simp only [ht, hb, and_self, if_true]
  rw [free_list_append]
  cases free_list b.2 h with
  | none => rfl
  | some h1 => simp [free_list_single]

theorem free_pkg_eq (E : Env) (flags : Nat) (o : blocks) (p : pkg) (h : heap)
    (hfit : fits E flags p o) :
    free_pkg E flags o p h = free_list (free_order E flags o) h := by
  unfold fits at hfit
  unfold free_pkg free_order
  by_cases hD : flags &&& E.PKGDB_INIT_DEPS ≠ 0
  · by_cases hR : flags &&& E.PKGDB_INIT_RDEPS ≠ 0
    · rw [if_pos hD, if_pos hR] at hfit
      obtain ⟨⟨d, b, e1, e2, e3, e4⟩, ⟨d2, b2, f1, f2, f3, f4⟩⟩ := hfit
      simp only [if_pos hD, if_pos hR, e1, e2, f1, f2, free_array_eq _ _ _ e3 e4,
        free_array_eq _ _ _ f3 f4]
      conv_rhs => rw [free_list_append, free_list_append]
      cases free_list (b.2 ++ [b.1]) h with
      | none => rfl
      | some h1 =>
        simp only [Option.some_bind]
        cases free_list (b2.2 ++ [b2.1]) h1 with
        | none => rfl
        | some h2 => simp [free_list_single]
    · rw [if_pos hD, if_neg hR] at hfit
      obtain ⟨⟨d, b, e1, e2, e3, e4⟩, f⟩ := hfit
      simp only [if_pos hD, if_neg hR, e1, e2, free_array_eq _ _ _ e3 e4, List.append_nil]
      conv_rhs => rw [free_list_append]
      cases free_list (b.2 ++ [b.1]) h with
      | none => rfl
      | some h1 => simp [free_list_single]
  · by_cases hR : flags &&& E.PKGDB_INIT_RDEPS ≠ 0
    · rw [if_neg hD, if_pos hR] at hfit
      obtain ⟨e, ⟨d2, b2, f1, f2, f3, f4⟩⟩ := hfit
      simp only [if_neg hD, if_pos hR, f1, f2, free_array_eq _ _ _ f3 f4, List.nil_append]
      conv_rhs => rw [free_list_append]
      cases free_list (b2.2 ++ [b2.1]) h with
      | none => rfl
      | some h1 => simp [free_list_single]
    · simp only [if_neg hD, if_neg hR, List.nil_append, free_list_single]

theorem free_order_perm (E : Env) (flags : Nat) (o : blocks) (p : pkg)
    (hfit : fits E flags p o) : (free_order E flags o).Perm (all_blocks o) := by
  unfold fits at hfit
  unfold free_order all_blocks
  refine (List.perm_append_singleton _ _).trans (List.Perm.cons _ ?_)
  refine List.Perm.append ?_ ?_
  · by_cases hD : flags &&& E.PKGDB_INIT_DEPS ≠ 0
    · rw [if_pos hD]
      cases o.deps with
      | none => exact List.Perm.refl _
      | some d => exact List.perm_append_singleton _ _
    · rw [if_neg hD] at hfit ⊢
      rw [hfit.1]
  · by_cases hR : flags &&& E.PKGDB_INIT_RDEPS ≠ 0
    · rw [if_pos hR]
      cases o.rdeps with
      | none => exact List.Perm.refl _
      | some d => exact List.perm_append_singleton _ _
    · rw [if_neg hR] at hfit ⊢
      rw [hfit.2]

theorem owned_at_mem (own : List (Nat × blocks)) (hnd : (own.map Prod.fst).Nodup)
    (x : Nat × blocks) (hx : x ∈ own) : owned_at own x.1 = some x.2 := by
  induction own with
  | nil => simp at hx
  | cons y ys ih =>
    simp only [List.map_cons, List.nodup_cons] at hnd
    unfold owned_at
    rcases List.mem_cons.mp hx with rfl | hm
    · simp
    · have hne : y.1 ≠ x.1 := by
        intro he
        exact hnd.1 (he ▸ List.mem_map_of_mem Prod.fst hm)
      rw [if_neg hne]
      exact ih hnd.2 hm

theorem free_walk_eq (E : Env) (flags : Nat) (own : List (Nat × blocks)) (ps : List pkg) :
    ∀ (h : heap), (∀ p ∈ ps, ∃ o, owned_at own p.idx = some o ∧ fits E flags p o) →
      free_walk E flags own ps h
        = free_list (ps.flatMap (fun p =>
            match owned_at own p.idx with
            | some o => free_order E flags o
            | none => [])) h := by
  induction ps with
  | nil =>
    intro h _
    rfl
  | cons p rest ih =>
    intro h hall
    obtain ⟨o, ho, hfit⟩ := hall p (List.mem_cons_self p rest)
    unfold free_walk
    simp only [List.flatMap_cons, ho]
    rw [free_list_append, free_pkg_eq E flags o p h hfit]
    cases free_list (free_order E flags o) h with
    | none => rfl
    | some h1 =>
      simp only [Option.some_bind]
      exact ih h1 (fun q hq => hall q (List.mem_cons_of_mem p hq))

theorem owned_keys {E : Env} {flags : Nat} {os : List (Nat × blocks)} {sel : List pkg}
    (hall : List.Forall₂ (fun x p => x.1 = p.idx ∧ fits E flags p x.2) os sel) :
    os.map Prod.fst = sel.map pkg.idx := by
  induction hall with
  | nil => rfl
  | cons hx _ ih => simp [hx.1, ih]

theorem owned_flat {E : Env} {flags : Nat} (own : List (Nat × blocks))
    {os : List (Nat × blocks)} {sel : List pkg}
    (hall : List.Forall₂ (fun x p => x.1 = p.idx ∧ fits E flags p x.2) os sel)
    (hown : ∀ x ∈ os, owned_at own x.1 = some x.2) :
    (∀ p ∈ sel, ∃ o, owned_at own p.idx = some o ∧ fits E flags p o) ∧
    (sel.flatMap (fun p =>
        match owned_at own p.idx with
        | some o => free_order E flags o
        | none => [])).Perm (os.flatMap (fun x => all_blocks x.2)) := by
  induction hall with
  | nil => exact ⟨by simp, by simp⟩
  | @cons x p os1 sel1 hx _ ih =>
    have hox := hown x (List.mem_cons_self x os1)
    obtain ⟨ih1, ih2⟩ := ih (fun y hy => hown y (List.mem_cons_of_mem x hy))
    refine ⟨?_, ?_⟩
    · intro q hq
      rcases List.mem_cons.mp hq with rfl | hm
      · exact ⟨x.2, by rw [← hx.1]; exact hox, hx.2⟩
      · exact ih1 q hm
    · simp only [List.flatMap_cons]
      refine List.Perm.append ?_ ih2
      rw [← hx.1, hox]
      exact free_order_perm E flags x.2 p hx.2

theorem foreach_terminated (db : pkgdb) (t : List pkg) (rest : List (Option pkg))
    (hp : db.pkgs = Ptr.to (t.map some ++ none :: rest)) : PKGDB_FOREACH db = some t := by
  unfold PKGDB_FOREACH
  rw [hp]
  simp only [entries_map_some]
  rw [if_pos (by simp)]

theorem foreach_junk (db : pkgdb) (hp : db.pkgs = Ptr.junk) : PKGDB_FOREACH db = none := by
  unfold PKGDB_FOREACH
  rw [hp]

theorem pkgdb_free_junk (E : Env) (g : ghost) (db : pkgdb) (h : heap) (hp : db.pkgs = Ptr.junk) :
    pkgdb_free E g db h = none := by
  unfold pkgdb_free
  rw [foreach_junk db hp]

theorem pkgdb_free_walk (E : Env) (flags : Nat) (os : List (Nat × blocks)) (sel t : List pkg)
    (pk : Nat) (L : List Nat) (h1 : heap)
    (hall : List.Forall₂ (fun x p => x.1 = p.idx ∧ fits E flags p x.2) os sel)
    (hnd : (sel.map pkg.idx).Nodup) (hperm : t.Perm sel)
    (hl : h1.live = (os.flatMap (fun x => all_blocks x.2)).reverse ++ pk :: L)
    (hk : heap_ok h1) (db1 : pkgdb) (hp : db1.pkgs = Ptr.to (t.map some ++ [none]))
    (hf : db1.flags = flags) :
    pkgdb_free E { pkgs := pk, own := os } db1 h1
      = some ({ db1 with pkgs := Ptr.junk }, { next := h1.next, live := L }) := by
  have hkeys : (os.map Prod.fst).Nodup := by
    rw [owned_keys hall]
    exact hnd
  obtain ⟨hown, hflat⟩ := owned_flat os hall (fun x hx => owned_at_mem os hkeys x hx)
  have hwalk := free_walk_eq E flags os t h1 (fun p hp1 => hown p (hperm.subset hp1))
  have hF : (t.flatMap (fun p =>
      match owned_at os p.idx with
      | some o => free_order E flags o
      | none => [])).Perm (os.flatMap (fun x => all_blocks x.2)).reverse :=
    ((hperm.flatMap_right _).trans hflat).trans (List.reverse_perm _).symm
  have hh : h1 = { next := h1.next,
                   live := (os.flatMap (fun x => all_blocks x.2)).reverse ++ pk :: L } := by
    cases h1
    simp only at hl
    rw [hl]
  have hnd1 : ((os.flatMap (fun x => all_blocks x.2)).reverse ++ pk :: L).Nodup := by
    rw [← hl]
    exact hk.1
  have hrel := free_list_front _ _ (pk :: L) h1.next hF hnd1
  rw [← hh] at hrel
  unfold pkgdb_free
  rw [foreach_terminated db1 t [] hp]
  simp only [hf, hwalk, hrel, free_head]

theorem pkgdb_init_regex_fails (E : Env) (db : pkgdb) (pattern : Option Bytes) (mt : match_t)
    (flags : Nat) (recs : List (Bytes × Bytes)) (fd : Int) (v : Bytes) (vs : List Bytes)
    (hcache : E.cache = some recs) (hlock : E.lock = some fd) (hfd : 0 ≤ fd)
    (hcount : values recs E.PKGDB_COUNT = v :: vs)
    (hpat : ¬ (mt ≠ match_t.MATCH_ALL ∧ pattern = none))
    (hre : init_regex E pattern mt = none) :
    pkgdb_init E db pattern mt flags
      = some { pkgs := Ptr.to (calloc (slots E (E.size_read v))), count := 0,
               db := { recs := recs, vcur := v }, lock_fd := fd, flags := flags } := by
  have hfd2 : ¬ fd < 0 := by omega
  unfold pkgdb_init pkgdb_open pkgdb_lock cdb_find
  simp only [hcache, hlock, hfd2, if_false, show ¬ ((0 : Int) = -1) by decide]
  rw [if_neg hpat]
  simp only [hcount, show ¬ ((1 : Int) ≤ 0) by decide, if_false, hre]

theorem pkgdb_free_empty (E : Env) (db1 : pkgdb) (h0 : heap) (n : Nat)
    (hp : db1.pkgs = Ptr.to (calloc (n + 1))) :
    PKGDB_FOREACH db1 = some [] ∧
    pkgdb_free E { pkgs := h0.next, own := [] } db1 (alloc h0).2
      = some ({ db1 with pkgs := Ptr.junk }, { next := h0.next + 1, live := h0.live }) := by
  have hf : PKGDB_FOREACH db1 = some [] := by
    apply foreach_terminated db1 [] (List.replicate n none)
    rw [hp]
    simp [calloc, List.replicate_succ]
  refine ⟨hf, ?_⟩
  unfold pkgdb_free
  rw [hf]
  simp only [free_walk, alloc, free_head]

theorem load_blocks_regex_fails (E : Env) (recs : List (Bytes × Bytes)) (pattern : Option Bytes)
    (mt : match_t) (flags count : Nat) (h : heap) (hre : init_regex E pattern mt = none) :
    load_blocks E recs pattern mt flags count h
      = some ({ pkgs := h.next, own := [] }, (alloc h).2) := by
  unfold load_blocks
  simp only [hre, alloc]

/-- C16, the claim as stated fails.  After a load that failed before line 259 (no count
key in the store, a mode other than MATCH_ALL without a pattern, the store not opened)
`db->pkgs` is what the caller left there, here an indeterminate pointer, and `pkgdb_free`
has no defined result whatever blocks the session is given.  After a completed load of
the scenario store a first `pkgdb_free` releases every block and leaves `db->pkgs` set to
the released array, so a second call has no defined result either. -/
theorem C16_free_after_failure_undefined :
    (∃ db1, pkgdb_init (sample_env (some store_nocount) (some 3)) (fresh 0) none
        match_t.MATCH_ALL 0 = some db1 ∧ db1.pkgs = Ptr.junk ∧
        (PKGDB_FOREACH db1).isNone = true ∧
        ∀ g h, pkgdb_free (sample_env (some store_nocount) (some 3)) g db1 h = none) ∧
    (∃ db1, pkgdb_init (sample_env (some store_abc) (some 3)) (fresh 0) none
        match_t.MATCH_EXACT 0 = some db1 ∧ db1.pkgs = Ptr.junk ∧
        ∀ g h, pkgdb_free (sample_env (some store_abc) (some 3)) g db1 h = none) ∧
    (∃ db1, pkgdb_init (sample_env none (some 3)) (fresh 0) none
        match_t.MATCH_ALL 0 = some db1 ∧ db1.pkgs = Ptr.junk ∧
        ∀ g h, pkgdb_free (sample_env none (some 3)) g db1 h = none) ∧
    ((pkgdb_init (sample_env (some store_abc) (some 3)) (fresh 0) none match_t.MATCH_ALL
        3).bind (fun db1 =>
      (load_blocks (sample_env (some store_abc) (some 3)) store_abc none match_t.MATCH_ALL 3 3
        heap_empty).bind (fun r =>
      (pkgdb_free (sample_env (some store_abc) (some 3)) r.1 db1 r.2).map (fun f =>
        (r.2.live.length, f.2.live,
          (pkgdb_free (sample_env (some store_abc) (some 3)) r.1 f.1 f.2).isNone))))
      = some (14, [], true)) := by
  refine ⟨⟨_, rfl, rfl, rfl, fun g h => pkgdb_free_junk _ g _ h rfl⟩,
    ⟨_, rfl, rfl, fun g h => pkgdb_free_junk _ g _ h rfl⟩,
    ⟨_, rfl, rfl, fun g h => pkgdb_free_junk _ g _ h rfl⟩, by decide⟩

/-- C16 as amended: when the store opens, the lock is taken, the count key holds N below
SIZE_MAX, the pattern is there when the mode needs one and the name keys fit the key
buffer, `pkgdb_init` returns with `db->pkgs` allocated by the call, whether the load
completed or `regcomp` rejected the pattern, and one call of `pkgdb_free` is defined: it
releases live blocks only and leaves live exactly the blocks that were live before the
load.  After the `regcomp` failure it walks an empty NULL-terminated list and releases
the container alone, no package record.  It leaves `db->pkgs` indeterminate, and a second
call on the session has no defined result. -/
theorem C16_free_once_amended (E : Env) (db : pkgdb) (pattern : Option Bytes) (mt : match_t)
    (flags : Nat) (recs : List (Bytes × Bytes)) (fd : Int) (v : Bytes) (vs : List Bytes)
    (h0 : heap)
    (hcache : E.cache = some recs) (hlock : E.lock = some fd) (hfd : 0 ≤ fd)
    (hcount : values recs E.PKGDB_COUNT = v :: vs) (hN : E.size_read v < E.SIZE_MAX)
    (hpat : ¬ (mt ≠ match_t.MATCH_ALL ∧ pattern = none))
    (hfit : ∀ i < E.size_read v, (E.PKGDB_NAME i).length < E.BUFSIZ)
    (hk : heap_ok h0) :
    ∃ db1 g h1 db2, pkgdb_init E db pattern mt flags = some db1 ∧
      load_blocks E recs pattern mt flags (E.size_read v) h0 = some (g, h1) ∧
      (init_regex E pattern mt = none →
        PKGDB_FOREACH db1 = some [] ∧ g.own = [] ∧ h1.live = g.pkgs :: h0.live) ∧
      pkgdb_free E g db1 h1 = some (db2, { next := h1.next, live := h0.live }) ∧
      db2.pkgs = Ptr.junk ∧ PKGDB_FOREACH db2 = none ∧
      ∀ g2 h2, pkgdb_free E g2 db2 h2 = none := by
  cases hre : init_regex E pattern mt with
  | none =>
    have hinit := pkgdb_init_regex_fails E db pattern mt flags recs fd v vs hcache hlock hfd
      hcount hpat hre
    have hload := load_blocks_regex_fails E recs pattern mt flags (E.size_read v) h0 hre
    obtain ⟨hwalk, hfree⟩ := pkgdb_free_empty E
      { pkgs := Ptr.to (calloc (slots E (E.size_read v))), count := 0,
        db := { recs := recs, vcur := v }, lock_fd := fd, flags := flags } h0 (E.size_read v)
      (by simp [slots_eq hN])
    refine ⟨_, _, _, _, hinit, hload, fun _ => ⟨hwalk, rfl, rfl⟩, hfree, rfl, ?_, ?_⟩
    · exact foreach_junk _ rfl
    · intro g2 h2
      exact pkgdb_free_junk E g2 _ h2 rfl
  | some re =>
    obtain ⟨t, w, hinit, hperm, -⟩ := pkgdb_init_loaded E db pattern mt flags recs fd v vs re
      hcache hlock hfd hcount hN hpat hre (selected_named hfit)
    obtain ⟨os, h1, hload, hl, -, hk1, hall⟩ :=
      load_blocks_eq E recs re pattern mt flags (E.size_read v) h0 hk hre
    have hfree := pkgdb_free_walk E flags os _ t h0.next h0.live h1 hall selected_idx_nodup
      hperm hl hk1
      { pkgs := Ptr.to (t.map some ++ [none]), count := t.length,
        db := { recs := recs, vcur := w }, lock_fd := -1, flags := flags } rfl rfl
    refine ⟨_, _, h1, _, hinit, hload, ?_, hfree, rfl, ?_, ?_⟩
    · intro hno
      cases hno
    · exact foreach_junk _ rfl
    · intro g2 h2
      exact pkgdb_free_junk E g2 _ h2 rfl

/-- C16 as amended, in the scenario: the basic regular expression "[" is rejected over the
store of three packages; the array of four NULL slots is the one block of the load. -/
theorem C16_free_once_amended_witness :
    init_regex (sample_env (some store_abc) (some 3)) (some (str "[")) match_t.MATCH_REGEX
      = none ∧
    ∃ db1 g h1 db2, pkgdb_init (sample_env (some store_abc) (some 3)) (fresh 0)
          (some (str "[")) match_t.MATCH_REGEX 3 = some db1 ∧
      load_blocks (sample_env (some store_abc) (some 3)) store_abc (some (str "["))
          match_t.MATCH_REGEX 3
          ((sample_env (some store_abc) (some 3)).size_read (le_bytes 8 3)) heap_empty
        = some (g, h1) ∧
      (init_regex (sample_env (some store_abc) (some 3)) (some (str "["))
          match_t.MATCH_REGEX = none →
        PKGDB_FOREACH db1 = some [] ∧ g.own = [] ∧ h1.live = g.pkgs :: heap_empty.live) ∧
      pkgdb_free (sample_env (some store_abc) (some 3)) g db1 h1
        = some (db2, { next := h1.next, live := heap_empty.live }) ∧
      db2.pkgs = Ptr.junk ∧ PKGDB_FOREACH db2 = none ∧
      ∀ g2 h2, pkgdb_free (sample_env (some store_abc) (some 3)) g2 db2 h2 = none :=
  ⟨rfl, C16_free_once_amended (sample_env (some store_abc) (some 3)) (fresh 0)
    (some (str "[")) match_t.MATCH_REGEX 3 store_abc 3 (le_bytes 8 3) [] heap_empty rfl rfl
    (by decide) (by decide) (by decide) (by decide) (by decide)
    (by simp [heap_ok, heap_empty])⟩

/-- C17: when the store opens, the lock is taken, the count key holds N below SIZE_MAX,
the selector is usable and the name keys fit the key buffer, the load completes for any
flags, and the blocks behind the session are one per record of the result, per entry of
each dependency list and of each reverse dependency list the flags ask for, and per list
container, `db->pkgs` included.  These blocks are pairwise distinct, none was live before
the load, and they are exactly the blocks the load leaves live beyond those.  `pkgdb_free`
is then defined, which takes every block it releases to be live at that moment, and it
leaves live exactly the blocks that were live before the load: each record and each
container is released once. -/
theorem C17_release_exactly_once (E : Env) (db : pkgdb) (pattern : Option Bytes)
    (mt : match_t) (flags : Nat) (recs : List (Bytes × Bytes)) (fd : Int) (v : Bytes)
    (vs : List Bytes) (re : Option (Bytes → Int)) (h0 : heap)
    (hcache : E.cache = some recs) (hlock : E.lock = some fd) (hfd : 0 ≤ fd)
    (hcount : values recs E.PKGDB_COUNT = v :: vs) (hN : E.size_read v < E.SIZE_MAX)
    (hpat : ¬ (mt ≠ match_t.MATCH_ALL ∧ pattern = none))
    (hre : init_regex E pattern mt = some re)
    (hfit : ∀ i < E.size_read v, (E.PKGDB_NAME i).length < E.BUFSIZ)
    (hk : heap_ok h0) :
    ∃ db1 g h1 db2 a, pkgdb_init E db pattern mt flags = some db1 ∧
      load_blocks E recs pattern mt flags (E.size_read v) h0 = some (g, h1) ∧
      db1.pkgs = Ptr.to a ∧
      (entries a).Perm (selected E recs re pattern mt flags (E.size_read v)) ∧
      List.Forall₂ (fun x p => x.1 = p.idx ∧ fits E flags p x.2) g.own
        (selected E recs re pattern mt flags (E.size_read v)) ∧
      (g.pkgs :: g.own.flatMap (fun x => all_blocks x.2)).Nodup ∧
      (∀ b ∈ g.pkgs :: g.own.flatMap (fun x => all_blocks x.2), b ∉ h0.live) ∧
      h1.live.Perm ((g.pkgs :: g.own.flatMap (fun x => all_blocks x.2)) ++ h0.live) ∧
      pkgdb_free E g db1 h1 = some (db2, { next := h1.next, live := h0.live }) := by
  obtain ⟨t, w, hinit, hperm, -⟩ := pkgdb_init_loaded E db pattern mt flags recs fd v vs re
    hcache hlock hfd hcount hN hpat hre (selected_named hfit)
  obtain ⟨os, h1, hload, hl, -, hk1, hall⟩ :=
    load_blocks_eq E recs re pattern mt flags (E.size_read v) h0 hk hre
  have hfree := pkgdb_free_walk E flags os _ t h0.next h0.live h1 hall selected_idx_nodup
    hperm hl hk1
    { pkgs := Ptr.to (t.map some ++ [none]), count := t.length,
      db := { recs := recs, vcur := w }, lock_fd := -1, flags := flags } rfl rfl
  have hp : h1.live.Perm ((h0.next :: os.flatMap (fun x => all_blocks x.2)) ++ h0.live) := by
    rw [hl]
    exact ((List.reverse_perm _).append_right _).trans List.perm_middle
  have hnd := (hp.nodup_iff).mp hk1.1
  obtain ⟨hnd1, -, hdis⟩ := List.nodup_append.mp hnd
  refine ⟨_, _, h1, _, _, hinit, hload, rfl, ?_, hall, hnd1, ?_, hp, hfree⟩
  · rw [entries_map_some]
    exact hperm
  · intro b hb hb0
    exact hdis hb hb0

/-- C17 at the store of the scenario, loaded with both flags from the empty heap: fourteen
blocks are live after the load and none after `pkgdb_free`. -/
theorem C17_release_exactly_once_witness :
    ((load_blocks (sample_env (some store_abc) (some 3)) store_abc none match_t.MATCH_ALL 3
        3 heap_empty).map (fun r => (r.1.pkgs, r.1.own.map (fun x => x.1), r.2.live.length))
      = some (0, [0, 1, 2], 14)) ∧
    ∃ db1 g h1 db2 a, pkgdb_init (sample_env (some store_abc) (some 3)) (fresh 0) none
          match_t.MATCH_ALL 3 = some db1 ∧
      load_blocks (sample_env (some store_abc) (some 3)) store_abc none match_t.MATCH_ALL 3
          ((sample_env (some store_abc) (some 3)).size_read (le_bytes 8 3)) heap_empty
        = some (g, h1) ∧
      db1.pkgs = Ptr.to a ∧
      (entries a).Perm (selected (sample_env (some store_abc) (some 3)) store_abc none none
        match_t.MATCH_ALL 3 ((sample_env (some store_abc) (some 3)).size_read (le_bytes 8 3))) ∧
      List.Forall₂
        (fun x p => x.1 = p.idx ∧ fits (sample_env (some store_abc) (some 3)) 3 p x.2) g.own
        (selected (sample_env (some store_abc) (some 3)) store_abc none none
          match_t.MATCH_ALL 3 ((sample_env (some store_abc) (some 3)).size_read (le_bytes 8 3))) ∧
      (g.pkgs :: g.own.flatMap (fun x => all_blocks x.2)).Nodup ∧
      (∀ b ∈ g.pkgs :: g.own.flatMap (fun x => all_blocks x.2), b ∉ heap_empty.live) ∧
      h1.live.Perm ((g.pkgs :: g.own.flatMap (fun x => all_blocks x.2)) ++ heap_empty.live) ∧
      pkgdb_free (sample_env (some store_abc) (some 3)) g db1 h1
        = some (db2, { next := h1.next, live := heap_empty.live }) :=
  ⟨by decide,
   C17_release_exactly_once (sample_env (some store_abc) (some 3)) (fresh 0) none
    match_t.MATCH_ALL 3 store_abc 3 (le_bytes 8 3) [] none heap_empty rfl rfl
    (by decide) (by decide) (by decide) (by decide) rfl (by decide)
    (by simp [heap_ok, heap_empty])⟩

end PkgDb
